import Mathlib

/-!
# Aurora Event landing page: the canvas animation engines

A shallow embedding of `src/AuroraEventLanding.jsx`: the utility helpers, the
`ParticleField` background engine, the `ConfettiBurst` overlay and the wheel
handler of `HorizontalJourney`.

Conventions of the embedding.

* JavaScript numbers are elements of a linearly ordered field `K` with a floor
  function (`ℚ` when a definition is evaluated, `ℝ` for statements about real
  numbers); arithmetic is exact.
* `Math.sin`, `Math.cos`, `Math.exp`, `Math.PI` and the stream of results of
  `Math.random()` are supplied by a `MathEnv`; a state records how many random
  draws have been consumed.
* Mutable closure variables, refs and canvas properties are fields of a state
  record; every function of the source is a function on that record.
* `requestAnimationFrame` is a `Scheduler`: it issues increasing handles and
  keeps the list of pending callbacks; a frame runs the callbacks that were
  pending when it started, in registration order.
* Calls that paint on a 2D context are appended to a log of `DrawOp`s, each
  tagged with the `globalCompositeOperation` in force.
* A quotient with divisor zero is `Infinity` or `NaN` in JavaScript and has no
  counterpart among the numbers of `K`; statements about a quotient are made
  for a non-zero divisor.
* Closures are named by the run of the effect that created them; the event
  listeners registered on the page form a list of (target, type, handler, run).
* A `for` loop over numbers takes a bound on its passes and yields `none` when
  the bound is reached; that the loop ends is a statement about a bound that
  suffices.
* The path of a ribbon is kept apart from the draw log: `DrawOp.fillBand` names
  the ribbon, `ParticleField.bandPath` lists its vertices.
* An assignment to `scrollLeft` is a scroll request: the value assigned is
  logged, and the offset the element shows afterwards is chosen by the browser
  (smooth scrolling, scroll snapping), given as a function `settle`, and kept
  within the scroll range of the element.
-/

namespace Aurora

/-! ## Utility helpers -/

section Helpers

variable {K : Type} [LinearOrderedField K] [FloorRing K]

/-- The helper `clamp = (v, min, max) => Math.max(min, Math.min(max, v))`. -/
def clamp (v lo hi : K) : K := max lo (min hi v)

/-- The helper `lerp = (a, b, t) => a + (b - a) * t`. -/
def lerp (a b t : K) : K := a + (b - a) * t

/-- Rounding towards zero, the integer quotient used by the remainder operator. -/
def jsTrunc (q : K) : ℤ := if 0 ≤ q then ⌊q⌋ else ⌈q⌉

/-- The JavaScript remainder `a % n` on finite numbers with `n ≠ 0`:
`a - n * q` where `q` is `a / n` rounded towards zero, so the result has the
sign of the dividend. -/
def jsRem (a n : K) : K := a - n * (jsTrunc (a / n) : K)

/-- The expression `v || 1` on numbers: `1` when `v` is `0`. -/
def orOne (v : K) : K := if v = 0 then 1 else v

/-- Allocation `new Array(count)`: the length of a JavaScript array is an
integer between `0` and `2^32 - 1`; any other length raises `RangeError`,
which is the result `none`. -/
def newArray (count : ℤ) : Option ℕ :=
  if 0 ≤ count ∧ count < 2 ^ 32 then some count.toNat else none

/-- A number in the half-open unit interval `[0, 1)`. -/
def InUnit (v : K) : Prop := 0 ≤ v ∧ v < 1

/-- The loop `for (let x = start; x <= stop; x += step) emit(body(x))`, run for
at most `fuel` passes of the test that succeed: the values emitted, or `none`
when the test still succeeds after `fuel` passes. -/
def forUpTo {V : Type} (body : K → V) (stop step : K) : ℕ → K → Option (List V)
  | 0, x => if x ≤ stop then none else some []
  | fuel + 1, x =>
    if x ≤ stop then (forUpTo body stop step fuel (x + step)).map (fun l => body x :: l)
    else some []

end Helpers

/-- The numeric library functions the source calls. -/
structure MathEnv (K : Type) where
  /-- The function `Math.sin`. -/
  sin : K → K
  /-- The function `Math.cos`. -/
  cos : K → K
  /-- The function `Math.exp`. -/
  exp : K → K
  /-- The constant `Math.PI`. -/
  pi : K
  /-- The `n`-th result of `Math.random()` since page load. -/
  random : ℕ → K

/-- The values of `globalCompositeOperation` the source uses. -/
inductive Composite where
  | sourceOver
  | lighter
  deriving DecidableEq, Repr

/-- Painting calls on a 2D context, with the composite operation in force. -/
inductive DrawOp (K : Type) where
  /-- The call `clearRect(x, y, w, h)`. -/
  | clearRect (x y w h : K)
  /-- The call `fillRect(x, y, w, h)` in the untransformed context. -/
  | fillRect (op : Composite) (x y w h : K)
  /-- The call `fill()` on the closed polygon of aurora band `i`. -/
  | fillBand (op : Composite) (i : ℕ) (w h phase : K)
  /-- The call `fill()` on the path `arc(x, y, r, 0, 2π)`. -/
  | fillArc (op : Composite) (x y r : K)
  /-- The call `fillRect(-s, -s/2, 2s, s)` after `translate(x, y)` and `rotate(ang)`. -/
  | fillChip (op : Composite) (x y ang s : K)
  /-- The call `stroke()` on the segment from `(x, y)` to `(x2, y2)`. -/
  | stroke (op : Composite) (x y x2 y2 : K)
  deriving DecidableEq

/-- The composite operation a painting call blends with; `clearRect` erases and
has none. -/
def DrawOp.composite {K : Type} : DrawOp K → Option Composite
  | DrawOp.clearRect _ _ _ _ => none
  | DrawOp.fillRect op _ _ _ _ => some op
  | DrawOp.fillBand op _ _ _ _ => some op
  | DrawOp.fillArc op _ _ _ => some op
  | DrawOp.fillChip op _ _ _ _ => some op
  | DrawOp.stroke op _ _ _ _ => some op

/-- The animation-frame scheduler of the window, for callbacks named by `cb`. -/
structure Scheduler (cb : Type) where
  /-- The last handle returned by `requestAnimationFrame`. -/
  seq : ℕ
  /-- The callbacks waiting for the next frame, oldest first. -/
  pending : List (ℕ × cb)

namespace Scheduler

variable {cb : Type}

/-- The call `requestAnimationFrame(c)`: a fresh non-zero handle, and `c` is queued. -/
def request (c : cb) (q : Scheduler cb) : Scheduler cb × ℕ :=
  ({ seq := q.seq + 1, pending := q.pending ++ [(q.seq + 1, c)] }, q.seq + 1)

/-- The call `cancelAnimationFrame(h)`. -/
def cancel (h : ℕ) (q : Scheduler cb) : Scheduler cb :=
  { q with pending := q.pending.filter (fun e => e.1 ≠ h) }

end Scheduler

/-- The function returned by `rafThrottle(fn)`, called with `args`: `raf` is the
variable of the closure, `arrow args` the arrow function that will reset `raf`
and call `fn(...args)`. Nothing happens while `raf` is non-zero; otherwise the
arrow function is scheduled and its handle stored. Returns the new `raf` and
the new scheduler. -/
def rafThrottle {cb α : Type} (arrow : α → cb) (args : α) (raf : ℕ) (q : Scheduler cb) :
    ℕ × Scheduler cb :=
  if raf ≠ 0 then (raf, q) else ((q.request (arrow args)).2, (q.request (arrow args)).1)

/-- A bounding box as returned by `getBoundingClientRect()`. -/
structure Rect (K : Type) where
  left : K
  top : K
  width : K
  height : K

/-! ## The particle field -/

/-- A background particle: normalised position, depth, radius, speed scale, hue. -/
structure Particle (K : Type) where
  x : K
  y : K
  z : K
  r : K
  s : K
  hue : K

/-- The ref `cursor`: normalised pointer position, velocity and pressed flag. -/
structure Cursor (K : Type) where
  x : K
  y : K
  vx : K
  vy : K
  down : Bool

/-- The memoised constants `settings` of `ParticleField`. -/
structure Settings (K : Type) where
  baseCount : K
  speed : K
  jitter : K
  trail : K
  glow : K

namespace ParticleField

section Defs

variable {K : Type} [LinearOrderedField K] [FloorRing K]

/-- The value of `settings`. -/
def settings : Settings K :=
  { baseCount := 70, speed := 0.35, jitter := 0.6, trail := 0.08, glow := 0.85 }

/-- The constant `FPS`. -/
def FPS : K := 30

/-- The constant `frameMs = 1000 / FPS`. -/
def frameMs : K := 1000 / FPS

/-- The callbacks `ParticleField` passes to `requestAnimationFrame`. -/
inductive Callback (K : Type) where
  /-- The frame callback `loop`. -/
  | loop
  /-- The arrow function scheduled by the throttled `onPointerMove` of effect
  run `run`, holding the coordinates of the event it was called with. -/
  | pointermove (run : ℕ) (clientX clientY : K)
  deriving DecidableEq

/-- The state of a mounted `ParticleField`. -/
structure State (K : Type) where
  /-- The ref `cursor`. -/
  cursor : Cursor K
  /-- The ref `dprRef`. -/
  dpr : K
  /-- The attribute `canvas.width`. -/
  width : ℕ
  /-- The attribute `canvas.height`. -/
  height : ℕ
  /-- The property `ctx.globalCompositeOperation`. -/
  gco : Composite
  /-- The painting calls issued so far. -/
  calls : List (DrawOp K)
  /-- The closure variable `particles`. -/
  particles : List (Particle K)
  /-- The closure variable `t`. -/
  t : K
  /-- The closure variable `rafId`. -/
  rafId : ℕ
  /-- The closure variable `last`. -/
  last : K
  /-- The flag `document.hidden`. -/
  hidden : Bool
  /-- The number of results of `Math.random()` consumed so far. -/
  rng : ℕ
  /-- The animation-frame scheduler. -/
  sched : Scheduler (Callback K)
  /-- The variable `raf` inside the throttled `onPointerMove` of the current effect run. -/
  moveRaf : ℕ
  /-- How many times the effect has been run again after the mount; it names
  the closures that are currently registered. -/
  effectRun : ℕ
  /-- The value of `wrap.getBoundingClientRect()`. -/
  wrapRect : Rect K

/-- One element of the array built by `mkParticles`; `i` is the index of the
first random draw it uses. -/
def mkParticle (env : MathEnv K) (i : ℕ) : Particle K :=
  { x := env.random i
    y := env.random (i + 1)
    z := env.random (i + 2)
    r := lerp 0.7 2.0 (env.random (i + 3))
    s := lerp 0.25 1.15 (env.random (i + 4))
    hue := lerp 250 320 (env.random (i + 5)) }

/-- The function `mkParticles`: `Math.floor(settings.baseCount * intensity)`
particles, six random draws each, starting at draw `rng`. Returns the array and
the new draw count, or `none` when `new Array(count)` raises. -/
def mkParticles (env : MathEnv K) (intensity : K) (rng : ℕ) :
    Option (List (Particle K) × ℕ) :=
  match newArray ⌊(settings : Settings K).baseCount * intensity⌋ with
  | none => none
  | some count =>
    some ((List.range count).map (fun k => mkParticle env (rng + 6 * k)), rng + 6 * count)

/-- The drift of one particle inside `drawParticles`. -/
def moveParticle (env : MathEnv K) (intensity : K) (cur : Cursor K) (phase : K)
    (p : Particle K) : Particle K :=
  let sp := (settings : Settings K).speed * p.s
  let vx := (env.sin (phase * 0.5 + p.z * 8) * 0.00018 + cur.vx * 0.0009) * intensity
  let vy := (env.cos (phase * 0.45 + p.z * 8) * 0.00022 + cur.vy * 0.0009) * intensity
  let x := jsRem (p.x + vx + sp * 0.00014) 1
  let y := jsRem (p.y + vy + sp * 0.00008) 1
  { p with x := if x < 0 then x + 1 else x, y := if y < 0 then y + 1 else y }

/-- The statement `rafId = requestAnimationFrame(loop)`. -/
def requestLoop (s : State K) : State K :=
  { s with sched := (s.sched.request Callback.loop).1, rafId := (s.sched.request Callback.loop).2 }

/-- The function `resize`, for the layout box `rectW × rectH` of the wrapper and
the value `ratio` of `window.devicePixelRatio`. Assigning `canvas.width` or
`canvas.height` resets the 2D context, hence the composite operation. -/
def resize (rectW rectH ratio : K) (s : State K) : State K :=
  let dpr := min 2 (orOne ratio)
  { s with
    dpr := dpr
    width := max 1 ⌊rectW * dpr⌋.toNat
    height := max 1 ⌊rectH * dpr⌋.toNat
    gco := Composite.sourceOver }

/-- The constant `baseY` of ribbon `i` in `drawAuroraBand`. -/
def baseY (i : ℕ) : K := lerp 0.18 0.55 ((i : K) / 2)

/-- The constant `amp` of ribbon `i` in `drawAuroraBand`. -/
def amp (i : ℕ) (s : State K) : K := lerp 26 54 ((i : K) / 2) * s.dpr

/-- The constant `freq` of ribbon `i` in `drawAuroraBand`. -/
def freq (i : ℕ) : K := lerp 1.4 2.0 ((i : K) / 2)

/-- The exponential factor of `cursorWarp` at the sample `x` of ribbon `i`: a
Gaussian of the distance from `(x, h * baseY)` to the cursor `(cx, cy)`. -/
def gaussian (env : MathEnv K) (w h : K) (i : ℕ) (x : K) (s : State K) : K :=
  env.exp (-(((x - s.cursor.x * w) ^ 2 + (h * baseY i - s.cursor.y * h) ^ 2) /
    (2 * (220 * s.dpr) ^ 2)))

/-- The constant `cursorWarp` at the sample `x` of ribbon `i`. -/
def cursorWarp (env : MathEnv K) (w h : K) (i : ℕ) (x : K) (s : State K) : K :=
  gaussian env w h i x s * (if s.cursor.down then 1.25 else 0.65)

/-- The constant `wave` at the sample `x` of ribbon `i`. -/
def wave (env : MathEnv K) (w phase : K) (i : ℕ) (x : K) : K :=
  env.sin ((x / w) * env.pi * 2 * freq i + phase * 1.35 + (i : K))

/-- The constant `wave2` at the sample `x` of ribbon `i`. -/
def wave2 (env : MathEnv K) (w phase : K) (i : ℕ) (x : K) : K :=
  env.sin ((x / w) * env.pi * 2 * (freq i * 0.6) + phase * 0.9 + (i : K) * 2.2)

/-- The constant `y` at the sample `x` of ribbon `i`: the ordinate of the
vertex `lineTo(x, y)`. -/
def bandY (env : MathEnv K) (w h phase : K) (i : ℕ) (x : K) (s : State K) : K :=
  h * baseY i + (wave env w phase i x * amp i s + wave2 env w phase i x * amp i s * 0.35) +
    cursorWarp env w h i x s * (s.cursor.vy * 900 * s.dpr)

/-- The vertices added by the sampling loop of ribbon `i`,
`for (let x = startX; x <= w * 1.08; x += 18 * dpr) ctx2.lineTo(x, y)`, run for
at most `fuel` passes. -/
def bandSamples (env : MathEnv K) (w h phase : K) (i : ℕ) (s : State K) (fuel : ℕ) :
    Option (List (K × K)) :=
  forUpTo (fun x => (x, bandY env w h phase i x s)) (w * 1.08) (18 * s.dpr) fuel (-w * 0.08)

/-- The path of ribbon `i` that `DrawOp.fillBand` fills: the vertex of `moveTo`,
the sample vertices and the two closing vertices. -/
def bandPath (env : MathEnv K) (w h phase : K) (i : ℕ) (s : State K) (fuel : ℕ) :
    Option (List (K × K)) :=
  (bandSamples env w h phase i s fuel).map (fun l =>
    [(-w * 0.08, h * baseY i)] ++ l ++
      [(w * 1.08, h * (baseY i + 0.28)), (-w * 0.08, h * (baseY i + 0.28))])

/-- The function `drawAuroraBand(ctx, w, h, phase)`: the fade pass, the three
ribbons and the cursor spotlight. -/
def drawAuroraBand (w h phase : K) (s : State K) : State K :=
  { s with
    gco := Composite.lighter
    calls := s.calls ++
      ([DrawOp.fillRect Composite.sourceOver 0 0 w h] ++
        (List.range 3).map (fun i => DrawOp.fillBand Composite.lighter i w h phase) ++
        [DrawOp.fillRect Composite.lighter 0 0 w h]) }

/-- The sparse streak at the end of `drawParticles`: one random draw decides,
four more place the segment. -/
def drawStreak (env : MathEnv K) (intensity w h : K) (s : State K) : State K :=
  if env.random s.rng < 0.08 * intensity then
    let x := (0.15 + env.random (s.rng + 1) * 0.7) * w
    let y := (0.15 + env.random (s.rng + 2) * 0.7) * h
    let len := (40 + env.random (s.rng + 3) * 120) * s.dpr
    let ang := (-0.25 + env.random (s.rng + 4) * 0.5) * env.pi
    let x2 := x + env.cos ang * len
    let y2 := y + env.sin ang * len
    { s with rng := s.rng + 5, calls := s.calls ++ [DrawOp.stroke s.gco x y x2 y2] }
  else
    { s with rng := s.rng + 1 }

/-- The function `drawParticles(ctx, w, h, phase)`: every particle drifts, wraps
and is painted as a glow blob; then the streak. -/
def drawParticles (env : MathEnv K) (intensity w h phase : K) (s : State K) : State K :=
  let moved := s.particles.map (moveParticle env intensity s.cursor phase)
  drawStreak env intensity w h
    { s with
      gco := Composite.lighter
      particles := moved
      calls := s.calls ++
        moved.map (fun p => DrawOp.fillArc Composite.lighter (p.x * w) (p.y * h) (p.r * s.dpr * 10)) }

/-- The frame callback `loop(now)`. -/
def loop (env : MathEnv K) (intensity now : K) (s : State K) : State K :=
  let s := requestLoop s
  if s.hidden then s
  else if now - s.last < frameMs then s
  else
    let s := { s with last := now }
    if s.width = 0 ∨ s.height = 0 then s
    else
      let w : K := s.width
      let h : K := s.height
      let s := { s with t := s.t + 0.008 }
      let s := { s with
        gco := Composite.sourceOver
        calls := s.calls ++ [DrawOp.fillRect Composite.sourceOver 0 0 w h] }
      drawParticles env intensity w h s.t (drawAuroraBand w h s.t s)

/-- The handler `onVis`: reseed when the document is visible. A `RangeError`
raised by `mkParticles` leaves `particles` as it was. -/
def onVis (env : MathEnv K) (intensity : K) (s : State K) : State K :=
  if s.hidden then s
  else
    match mkParticles env intensity s.rng with
    | none => s
    | some (ps, rng) => { s with particles := ps, rng := rng }

/-- The handler `onPointerDown`. -/
def onPointerDown (s : State K) : State K :=
  { s with cursor := { s.cursor with down := true } }

/-- The handler `onPointerUp`. -/
def onPointerUp (s : State K) : State K :=
  { s with cursor := { s.cursor with down := false } }

/-- The arrow function passed to `rafThrottle` to make `onPointerMove`, on the
ref `cursor`: `rect` is the bounding box of the wrapper when it runs. -/
def onPointerMoveFn (rect : Rect K) (clientX clientY : K) (c : Cursor K) : Cursor K :=
  let nx := (clientX - rect.left) / rect.width
  let ny := (clientY - rect.top) / rect.height
  let px := clamp nx 0 1
  let py := clamp ny 0 1
  { c with vx := px - c.x, vy := py - c.y, x := px, y := py }

/-- The handler `onPointerMove = rafThrottle(...)` called with a pointer event. -/
def onPointerMove (clientX clientY : K) (s : State K) : State K :=
  { s with
    moveRaf :=
      (rafThrottle (fun e : K × K => Callback.pointermove s.effectRun e.1 e.2)
        (clientX, clientY) s.moveRaf s.sched).1
    sched :=
      (rafThrottle (fun e : K × K => Callback.pointermove s.effectRun e.1 e.2)
        (clientX, clientY) s.moveRaf s.sched).2 }

/-- The arrow function scheduled by `rafThrottle` runs: `raf = 0` in the closure
that scheduled it (effect run `run`), then the wrapped function on the
captured event. -/
def pointerFrame (run : ℕ) (clientX clientY : K) (s : State K) : State K :=
  { s with
    moveRaf := if run = s.effectRun then 0 else s.moveRaf
    cursor := onPointerMoveFn s.wrapRect clientX clientY s.cursor }

/-- An animation frame with timestamp `now`: the callbacks pending at its start run in order. -/
def frame (env : MathEnv K) (intensity now : K) (s : State K) : State K :=
  s.sched.pending.foldl
    (fun st c => match c.2 with
      | Callback.loop => loop env intensity now st
      | Callback.pointermove run clientX clientY => pointerFrame run clientX clientY st)
    { s with sched := { s.sched with pending := [] } }

/-- What can happen to a mounted `ParticleField`. -/
inductive Event (K : Type) where
  /-- An animation frame with the given timestamp. -/
  | frame (now : K)
  /-- The event `visibilitychange`, with the new value of `document.hidden`. -/
  | visibilitychange (hidden : Bool)
  /-- The resize observer fires: layout box of the wrapper and device pixel ratio. -/
  | resize (rectW rectH ratio : K)
  /-- The event `pointerdown` on the wrapper. -/
  | pointerdown
  /-- The event `pointerup` on the window. -/
  | pointerup
  /-- The event `pointermove` on the wrapper, with its client coordinates. -/
  | pointermove (clientX clientY : K)
  /-- The bounding box of the wrapper changes (layout or scrolling). -/
  | layout (rect : Rect K)

/-- The reaction of the component to one event. -/
def step (env : MathEnv K) (intensity : K) (e : Event K) (s : State K) : State K :=
  match e with
  | Event.frame now => frame env intensity now s
  | Event.visibilitychange hidden => onVis env intensity { s with hidden := hidden }
  | Event.resize rectW rectH ratio => resize rectW rectH ratio s
  | Event.pointerdown => onPointerDown s
  | Event.pointerup => onPointerUp s
  | Event.pointermove clientX clientY => onPointerMove clientX clientY s
  | Event.layout rect => { s with wrapRect := rect }

/-- The reaction to a sequence of events, oldest first. -/
def run (env : MathEnv K) (intensity : K) (es : List (Event K)) (s : State K) : State K :=
  es.foldl (fun st e => step env intensity e st) s

/-- The timestamps of the frames of `es` that render, oldest first: a frame
renders when it advances the phase `t` (it then paints as well). -/
def renderTimes (env : MathEnv K) (intensity : K) : List (Event K) → State K → List K
  | [], _ => []
  | e :: es, s =>
    match e with
    | Event.frame now =>
      if (step env intensity e s).t ≠ s.t then
        now :: renderTimes env intensity es (step env intensity e s)
      else renderTimes env intensity es (step env intensity e s)
    | _ => renderTimes env intensity es (step env intensity e s)

/-- The component before its effect has run: a default `300 × 150` canvas, the
initial refs, nothing scheduled. -/
def initial (now : K) (hidden : Bool) (rng : ℕ) : State K :=
  { cursor := { x := 0.5, y := 0.35, vx := 0, vy := 0, down := false }
    dpr := 1
    width := 300
    height := 150
    gco := Composite.sourceOver
    calls := []
    particles := []
    t := 0
    rafId := 0
    last := now
    hidden := hidden
    rng := rng
    sched := { seq := 0, pending := [] }
    moveRaf := 0
    effectRun := 0
    wrapRect := { left := 0, top := 0, width := 0, height := 0 } }

/-- The body of the mount effect: `resize()`, seed the particles, read
`performance.now()` into `last`, schedule the first frame. The result is `none`
when `mkParticles` raises. The wrapper fills the page root, so its box starts
at the viewport origin when the page loads. -/
def mount (env : MathEnv K) (intensity rectW rectH ratio now : K) (hidden : Bool) (rng : ℕ) :
    Option (State K) :=
  let s := resize rectW rectH ratio (initial now hidden rng)
  match mkParticles env intensity s.rng with
  | none => none
  | some (ps, rng1) =>
    some (requestLoop
      { s with
        particles := ps
        rng := rng1
        wrapRect := { left := 0, top := 0, width := rectW, height := rectH } })

/-- The cleanup function of the effect, scheduler side: `cancelAnimationFrame(rafId)`.
Its four `removeEventListener` calls are in `Listeners.cleanup`. -/
def cleanup (s : State K) : State K :=
  { s with sched := s.sched.cancel s.rafId }

/-- The effect body run again on a mounted component at time `now`: the refs
`cursor` and `dprRef`, the canvas and the scheduler persist; `particles`, `t`,
`rafId`, `last` and the throttled handler are new. -/
def effect (env : MathEnv K) (intensity rectW rectH ratio now : K) (s : State K) :
    Option (State K) :=
  let s := resize rectW rectH ratio s
  match mkParticles env intensity s.rng with
  | none => none
  | some (ps, rng1) =>
    some (requestLoop
      { s with
        particles := ps
        rng := rng1
        t := 0
        rafId := 0
        last := now
        moveRaf := 0
        effectRun := s.effectRun + 1 })

/-- The dependency array `[intensity, resize, settings]` of the effect at a
given render: `resize` is an arrow function created in the component body, so
each render has its own; `settings` is memoised with `useMemo(..., [])`, so
every render has the same. Functions and objects are named by the number of
the render that created them. -/
structure Deps (K : Type) where
  intensity : K
  resize : ℕ
  settings : ℕ
  deriving DecidableEq

/-- The dependency array at render number `render`. -/
def deps (intensity : K) (render : ℕ) : Deps K :=
  { intensity := intensity, resize := render, settings := 0 }

/-- A re-render of `ParticleField` (render `render + 1` after render `render`)
with the prop going from `intensity` to `next`: when a dependency differs the
cleanup runs and then the effect body; otherwise nothing happens. -/
def rerender (env : MathEnv K) (render : ℕ) (intensity next rectW rectH ratio now : K)
    (s : State K) : Option (State K) :=
  if deps intensity render = deps next (render + 1) then some s
  else effect env next rectW rectH ratio now (cleanup s)

/-- Whether a pending callback is the frame callback `loop`. -/
def isLoop (c : ℕ × Callback K) : Bool :=
  match c.2 with
  | Callback.loop => true
  | Callback.pointermove _ _ _ => false

/-- What holds between events in every state reached from `mount`: exactly one
`loop` callback is pending and `rafId` is its handle; no handle is above the
last one issued, and no other pending callback has the handle `rafId`. -/
def Armed (s : State K) : Prop :=
  s.sched.pending.filter isLoop = [(s.rafId, Callback.loop)] ∧
  s.rafId ≤ s.sched.seq ∧
  (∀ c ∈ s.sched.pending, c.1 ≤ s.sched.seq) ∧
  (∀ c ∈ s.sched.pending, isLoop c = false → c.1 ≠ s.rafId)

/-- The callbacks of a frame, as one function. -/
def fire (env : MathEnv K) (intensity now : K) (st : State K) (c : ℕ × Callback K) : State K :=
  match c.2 with
  | Callback.loop => loop env intensity now st
  | Callback.pointermove run clientX clientY => pointerFrame run clientX clientY st

/-- The fields of a particle that no frame changes: depth, radius, speed scale and hue. -/
def core (p : Particle K) : K × K × K × K := (p.z, p.r, p.s, p.hue)

end Defs

end ParticleField

end Aurora

/-! ## The confetti burst -/

namespace Aurora

/-- A confetti piece. -/
structure Piece (K : Type) where
  x : K
  y : K
  vx : K
  vy : K
  r : K
  life : K
  spin : K
  ang : K
  hue : K
  s : K

namespace ConfettiBurst

section Defs

variable {K : Type} [LinearOrderedField K] [FloorRing K]

/-- The callbacks `ConfettiBurst` passes to `requestAnimationFrame`. -/
inductive Callback where
  | loop
  | sync
  deriving DecidableEq, Repr

/-- The state of a `ConfettiBurst` whose canvas exists. The component has three
effects: the loop effect (resize, `mk`, `pieces`, `loop`), the trigger effect
and the bridge effect (`pieces`, `active`, `mk`, `onReq`, `sync`). The two
closure variables named `pieces` are the fields `pieces` (loop effect) and
`bridgePieces` (bridge effect). -/
structure State (K : Type) where
  /-- The ref `activeRef`. -/
  activeRef : Bool
  /-- The attribute `canvas.width`. -/
  width : ℕ
  /-- The attribute `canvas.height`. -/
  height : ℕ
  /-- The scale set by `ctx.setTransform(dpr, 0, 0, dpr, 0, 0)`. -/
  scale : K
  /-- The property `ctx.globalCompositeOperation`. -/
  gco : Composite
  /-- The painting calls issued so far. -/
  calls : List (DrawOp K)
  /-- The property `canvas.__confettiRequested`, read through `|| 0`. -/
  confettiRequested : ℕ
  /-- The property `canvas.__pieces`, `none` while undefined. -/
  canvasPieces : Option (List (Piece K))
  /-- The property `canvas.__active`, `none` while undefined. -/
  canvasActive : Option Bool
  /-- The variable `raf` of the loop effect. -/
  raf : ℕ
  /-- The variable `pieces` of the loop effect, the array `loop` works on. -/
  pieces : List (Piece K)
  /-- The variable `pieces` of the bridge effect, the array `onReq` assigns. -/
  bridgePieces : List (Piece K)
  /-- The variable `active` of the bridge effect. -/
  active : Bool
  /-- Whether the listener for `aurora-confetti` is registered on the canvas. -/
  listening : Bool
  /-- The value of `window.devicePixelRatio`. -/
  pixelRatio : K
  /-- The width of `canvas.getBoundingClientRect()`. -/
  rectW : K
  /-- The height of `canvas.getBoundingClientRect()`. -/
  rectH : K
  /-- The number of results of `Math.random()` consumed so far. -/
  rng : ℕ
  /-- The animation-frame scheduler. -/
  sched : Scheduler Callback
  /-- Instrumentation: how many times `onReq` has run. -/
  handled : ℕ
  /-- The constant `raf` of the bridge effect: the handle of its first
  `requestAnimationFrame(sync)`. -/
  syncRaf : ℕ

/-- The function `resize` of the loop effect, for the layout box of the parent
element. Assigning `canvas.width` resets the context; `setTransform` follows. -/
def resize (parentW parentH : K) (s : State K) : State K :=
  let dpr := min 2 (orOne s.pixelRatio)
  { s with
    width := ⌊parentW * dpr⌋.toNat
    height := ⌊parentH * dpr⌋.toNat
    gco := Composite.sourceOver
    scale := dpr }

/-- Element `i` of the array built by `mk` in the bridge effect (`n = 24`);
`rng` is the index of the first of its eight random draws. -/
def mkPiece (env : MathEnv K) (W H : K) (rng i : ℕ) : Piece K :=
  let n : K := 24
  let a := (env.pi * 2 * (i : K)) / n + (env.random rng - 0.5) * 0.35
  let s := 3 + env.random (rng + 1) * 2.4
  { x := W / 2
    y := H / 2
    vx := env.cos a * (3.8 + env.random (rng + 2) * 3.8)
    vy := env.sin a * (3.2 + env.random (rng + 3) * 3.2) - 3.1
    r := 2 + env.random (rng + 4) * 2.4
    life := 1
    spin := (env.random (rng + 5) - 0.5) * 0.3
    ang := env.random (rng + 6) * env.pi
    hue := 245 + env.random (rng + 7) * 95
    s := s }

/-- The constant `a` of element `i` in `mk` of the bridge effect: the launch
angle, with `rng` the index of the random draw of its jitter. -/
def launchAngle (env : MathEnv K) (rng i : ℕ) : K :=
  (env.pi * 2 * (i : K)) / 24 + (env.random rng - 0.5) * 0.35

/-- The function `mk` of the bridge effect: 24 pieces at the midpoint of the
canvas box. -/
def mk (env : MathEnv K) (s : State K) : List (Piece K) :=
  (List.range 24).map (fun i => mkPiece env s.rectW s.rectH (s.rng + 8 * i) i)

/-- The function `onReq` of the bridge effect. -/
def onReq (env : MathEnv K) (s : State K) : State K :=
  { s with
    bridgePieces := mk env s
    active := true
    activeRef := true
    canvasPieces := some (mk env s)
    canvasActive := some true
    rng := s.rng + 8 * 24
    handled := s.handled + 1 }

/-- The mutation of one piece at the start of the `forEach` body of `loop`. -/
def updatePiece (p : Piece K) : Piece K :=
  { p with
    life := p.life - 0.018
    vy := p.vy + 0.08
    x := p.x + p.vx
    y := p.y + (p.vy + 0.08)
    ang := p.ang + p.spin }

/-- The painting calls of the `forEach` body of `loop` for an updated piece:
the glow and the rotated chip. -/
def drawPiece (p : Piece K) : List (DrawOp K) :=
  [DrawOp.fillArc Composite.lighter p.x p.y (p.r * 6),
   DrawOp.fillChip Composite.lighter p.x p.y p.ang p.s]

/-- The frame callback `loop` of the loop effect. It reads `activeRef` and its
own `pieces`. -/
def loop (s : State K) : State K :=
  let s := { s with sched := (s.sched.request Callback.loop).1, raf := (s.sched.request Callback.loop).2 }
  if s.activeRef = false then s
  else
    let W : K := (s.width : K) / orOne s.pixelRatio
    let H : K := (s.height : K) / orOne s.pixelRatio
    let moved := s.pieces.map updatePiece
    let live := moved.filter (fun p => decide (0 < p.life))
    let s := { s with
      gco := Composite.lighter
      calls := s.calls ++ [DrawOp.clearRect 0 0 W H] ++ (moved.map drawPiece).flatten
      pieces := live }
    if live.length = 0 then
      { s with activeRef := false, calls := s.calls ++ [DrawOp.clearRect 0 0 W H] }
    else s

/-- The frame callback `sync` of the bridge effect. The handle of the
re-registration is not stored. -/
def sync (env : MathEnv K) (s : State K) : State K :=
  let s := if 0 < s.confettiRequested then onReq env { s with confettiRequested := 0 } else s
  { s with sched := (s.sched.request Callback.sync).1 }

/-- The trigger effect, run with the current value of the prop `trigger`:
nothing when it is `0`; otherwise dispatch `aurora-confetti` (which runs
`onReq` when the listener is registered), increment `__confettiRequested` and
paint the flash. The property `__mkPieces` it also sets is never read and is
left out. -/
def triggerEffect (env : MathEnv K) (trigger : ℕ) (s : State K) : State K :=
  if trigger = 0 then s
  else
    let s := if s.listening then onReq env s else s
    let s := { s with confettiRequested := s.confettiRequested + 1 }
    let W : K := (s.width : K) / orOne s.pixelRatio
    let H : K := (s.height : K) / orOne s.pixelRatio
    { s with
      gco := Composite.lighter
      calls := s.calls ++ [DrawOp.fillRect Composite.lighter 0 0 W H] }

/-- An animation frame: the callbacks pending at its start run in order. -/
def frame (env : MathEnv K) (s : State K) : State K :=
  s.sched.pending.foldl
    (fun st c => match c.2 with
      | Callback.loop => loop st
      | Callback.sync => sync env st)
    { s with sched := { s.sched with pending := [] } }

/-- What can happen to a mounted `ConfettiBurst`. -/
inductive Event (K : Type) where
  /-- An animation frame. -/
  | frame
  /-- The prop `trigger` changes to the given value and the trigger effect runs. -/
  | trigger (value : ℕ)
  /-- The resize observer fires with the layout box of the parent element. -/
  | resize (parentW parentH : K)

/-- The reaction of the component to one event. -/
def step (env : MathEnv K) (e : Event K) (s : State K) : State K :=
  match e with
  | Event.frame => frame env s
  | Event.trigger value => triggerEffect env value s
  | Event.resize parentW parentH => resize parentW parentH s

/-- The reaction to a sequence of events, oldest first. -/
def run (env : MathEnv K) (es : List (Event K)) (s : State K) : State K :=
  es.foldl (fun st e => step env e st) s

/-- The component before its effects have run: a default `300 × 150` canvas,
no canvas property set, nothing scheduled. -/
def initial (pixelRatio rectW rectH : K) (rng : ℕ) : State K :=
  { activeRef := false
    width := 300
    height := 150
    scale := 1
    gco := Composite.sourceOver
    calls := []
    confettiRequested := 0
    canvasPieces := none
    canvasActive := none
    raf := 0
    pieces := []
    bridgePieces := []
    active := false
    listening := false
    pixelRatio := pixelRatio
    rectW := rectW
    rectH := rectH
    rng := rng
    sched := { seq := 0, pending := [] }
    handled := 0
    syncRaf := 0 }

/-- The three effects at mount, in source order, for the initial value of the
prop `trigger`: the loop effect resizes and schedules `loop`; the trigger
effect runs; the bridge effect registers the listener and schedules `sync`. -/
def mount (env : MathEnv K) (trigger : ℕ) (parentW parentH pixelRatio rectW rectH : K)
    (rng : ℕ) : State K :=
  let s := resize parentW parentH (initial pixelRatio rectW rectH rng)
  let s := { s with sched := (s.sched.request Callback.loop).1, raf := (s.sched.request Callback.loop).2 }
  let s := triggerEffect env trigger s
  { s with
    listening := true
    sched := (s.sched.request Callback.sync).1
    syncRaf := (s.sched.request Callback.sync).2 }

/-- The cleanup functions of the loop effect and of the bridge effect, in this
order: `cancelAnimationFrame(raf)` with the variable of the loop effect (the
`ro.disconnect()` beside it has no counterpart here), then
`cancelAnimationFrame(raf)` with the constant of the bridge effect and
`removeEventListener`. -/
def cleanup (s : State K) : State K :=
  { s with
    sched := (s.sched.cancel s.raf).cancel s.syncRaf
    listening := false }

/-- What holds between events in every state reached from `mount`: the listener
is registered, the array of the loop effect is empty, and exactly `loop` and
`sync` wait for the next frame, in this order. -/
def Mounted (s : State K) : Prop :=
  s.listening = true ∧ s.pieces = [] ∧
    ∃ a b, s.sched.pending = [(a, Callback.loop), (b, Callback.sync)]

/-- What holds between events in every state reached from `mount`: `loop` and
`sync` are pending, in this order, and `raf` is the handle of `loop`. -/
def LoopArmed (s : State K) : Prop :=
  ∃ b, s.sched.pending = [(s.raf, Callback.loop), (b, Callback.sync)]

end Defs

end ConfettiBurst

end Aurora

/-! ## The horizontal journey -/

namespace Aurora

namespace HorizontalJourney

section Defs

variable {K : Type} [LinearOrderedField K] [FloorRing K]

/-- The scroll container `el` of `HorizontalJourney`, a `div` styled
`overflow-x-auto scroll-smooth snap-x snap-mandatory` with `snap-center`
children. -/
structure Scroller (K : Type) where
  /-- The property `el.scrollLeft`: the offset the element shows. -/
  scrollLeft : K
  /-- The largest scroll offset, `el.scrollWidth - el.clientWidth`. -/
  maxScroll : K
  /-- The values assigned to `el.scrollLeft` so far, oldest first. -/
  assigned : List K
  deriving DecidableEq

/-- A wheel event. -/
structure WheelEvent (K : Type) where
  /-- The property `deltaX`. -/
  deltaX : K
  /-- The property `deltaY`. -/
  deltaY : K
  /-- Whether `preventDefault()` has been called on the event. -/
  defaultPrevented : Bool
  deriving DecidableEq

/-- Assignment of `v` to `el.scrollLeft`. The element answers with a smooth
scroll that ends on a snap point, so the offset it shows afterwards is not `v`
in general: it is `settle cur v`, chosen by the browser from the offset `cur`
shown before and the value assigned, and kept within the scroll range
`[0, maxScroll]`. -/
def setScrollLeft (settle : K → K → K) (v : K) (el : Scroller K) : Scroller K :=
  { el with
    scrollLeft := max 0 (min el.maxScroll (settle el.scrollLeft v))
    assigned := el.assigned ++ [v] }

/-- The listener `onWheel`, registered with `passive: false`. -/
def onWheel (settle : K → K → K) (e : WheelEvent K) (el : Scroller K) :
    WheelEvent K × Scroller K :=
  if |e.deltaY| < |e.deltaX| then (e, el)
  else
    ({ e with defaultPrevented := true },
      setScrollLeft settle (el.scrollLeft + e.deltaY * 1.15) el)

end Defs

end HorizontalJourney

end Aurora

/-! ## The throttle `rafThrottle` on its own -/

namespace Aurora

namespace RafThrottle

/-- One function made by `rafThrottle(fn)` and the scheduler it uses: `fn` takes
arguments of type `α` and acts on a value of type `σ`. A pending arrow function
is named by the arguments it captured. -/
structure World (α σ : Type) where
  /-- The variable `raf` of the closure. -/
  raf : ℕ
  /-- The animation-frame scheduler. -/
  sched : Scheduler α
  /-- What the wrapped function acts on. -/
  target : σ
  /-- Instrumentation: how many times the wrapped function has run. -/
  runs : ℕ

variable {α σ : Type}

/-- The world right after `rafThrottle(fn)` returned. -/
def initial (target : σ) : World α σ :=
  { raf := 0, sched := { seq := 0, pending := [] }, target := target, runs := 0 }

/-- A call of the throttled function with `args`. -/
def call (args : α) (w : World α σ) : World α σ :=
  { w with
    raf := (rafThrottle id args w.raf w.sched).1
    sched := (rafThrottle id args w.raf w.sched).2 }

/-- The arrow function `() => { raf = 0; fn(...args); }`. -/
def arrow (fn : α → σ → σ) (args : α) (w : World α σ) : World α σ :=
  { w with raf := 0, target := fn args w.target, runs := w.runs + 1 }

/-- An animation frame: the arrow functions pending at its start run in order. -/
def frame (fn : α → σ → σ) (w : World α σ) : World α σ :=
  w.sched.pending.foldl (fun st c => arrow fn c.2 st)
    { w with sched := { w.sched with pending := [] } }

/-- What can happen to a throttled function. -/
inductive Event (α : Type) where
  /-- It is called with the given arguments. -/
  | call (args : α)
  /-- An animation frame passes. -/
  | frame

/-- The reaction to one event. -/
def step (fn : α → σ → σ) (e : Event α) (w : World α σ) : World α σ :=
  match e with
  | Event.call args => call args w
  | Event.frame => frame fn w

/-- The reaction to a sequence of events, oldest first. -/
def run (fn : α → σ → σ) (es : List (Event α)) (w : World α σ) : World α σ :=
  es.foldl (fun st e => step fn e st) w

/-- Between events either nothing is pending and `raf` is `0`, or exactly the
arrow function whose handle is `raf` is pending. -/
def Quiet (w : World α σ) : Prop :=
  (w.raf = 0 ∧ w.sched.pending = []) ∨
    (w.raf ≠ 0 ∧ ∃ args, w.sched.pending = [(w.raf, args)])

end RafThrottle

end Aurora

/-! ## Event listeners -/

namespace Aurora

namespace Listeners

/-- The event targets the four components attach listeners to. -/
inductive Target where
  /-- The wrapper `div` of `ParticleField`. -/
  | wrap
  | window
  | document
  /-- The canvas of `ConfettiBurst`. -/
  | canvas
  /-- The scrolling `div` of `HorizontalJourney`. -/
  | journey
  /-- The root element of a `HoloSpeakerCard`. -/
  | card
  deriving DecidableEq, Repr

/-- The event types that are listened to. -/
inductive EventType where
  | pointermove
  | pointerdown
  | pointerup
  | visibilitychange
  | auroraConfetti
  | wheel
  | pointerleave
  deriving DecidableEq, Repr

/-- The functions registered as listeners, by their name in the source. -/
inductive Handler where
  | onPointerMove
  | onPointerDown
  | onPointerUp
  | onVis
  | onReq
  | onWheel
  | onMove
  | onLeave
  deriving DecidableEq, Repr

/-- A registered listener. All registrations of the source are in the bubbling
phase, so target, type and callback identify a listener; the callback is a
closure made by one run of an effect, named by `handler` and the number `run`
of that run. -/
structure Listener where
  target : Target
  kind : EventType
  handler : Handler
  run : ℕ
  deriving DecidableEq, Repr

/-- The call `target.addEventListener(type, handler, options)`: a listener
that is already registered is not added again. -/
def addEventListener (l : Listener) (r : List Listener) : List Listener :=
  if l ∈ r then r else r ++ [l]

/-- The call `target.removeEventListener(type, handler)`. -/
def removeEventListener (l : Listener) (r : List Listener) : List Listener :=
  r.filter (fun m => decide (m ≠ l))

/-- The components that register listeners in an effect. -/
inductive Component where
  | particleField
  | confettiBurst
  | horizontalJourney
  | holoSpeakerCard
  deriving DecidableEq, Repr

/-- The `addEventListener` calls of run `n` of the effect of a component, in
source order. -/
def effect (c : Component) (n : ℕ) (r : List Listener) : List Listener :=
  match c with
  | Component.particleField =>
    r |> addEventListener ⟨Target.wrap, EventType.pointermove, Handler.onPointerMove, n⟩
      |> addEventListener ⟨Target.wrap, EventType.pointerdown, Handler.onPointerDown, n⟩
      |> addEventListener ⟨Target.window, EventType.pointerup, Handler.onPointerUp, n⟩
      |> addEventListener ⟨Target.document, EventType.visibilitychange, Handler.onVis, n⟩
  | Component.confettiBurst =>
    r |> addEventListener ⟨Target.canvas, EventType.auroraConfetti, Handler.onReq, n⟩
  | Component.horizontalJourney =>
    r |> addEventListener ⟨Target.journey, EventType.wheel, Handler.onWheel, n⟩
  | Component.holoSpeakerCard =>
    r |> addEventListener ⟨Target.card, EventType.pointermove, Handler.onMove, n⟩
      |> addEventListener ⟨Target.card, EventType.pointerleave, Handler.onLeave, n⟩

/-- The `removeEventListener` calls of the cleanup function returned by run `n`
of the effect of a component, in source order. -/
def cleanup (c : Component) (n : ℕ) (r : List Listener) : List Listener :=
  match c with
  | Component.particleField =>
    r |> removeEventListener ⟨Target.document, EventType.visibilitychange, Handler.onVis, n⟩
      |> removeEventListener ⟨Target.wrap, EventType.pointermove, Handler.onPointerMove, n⟩
      |> removeEventListener ⟨Target.wrap, EventType.pointerdown, Handler.onPointerDown, n⟩
      |> removeEventListener ⟨Target.window, EventType.pointerup, Handler.onPointerUp, n⟩
  | Component.confettiBurst =>
    r |> removeEventListener ⟨Target.canvas, EventType.auroraConfetti, Handler.onReq, n⟩
  | Component.horizontalJourney =>
    r |> removeEventListener ⟨Target.journey, EventType.wheel, Handler.onWheel, n⟩
  | Component.holoSpeakerCard =>
    r |> removeEventListener ⟨Target.card, EventType.pointermove, Handler.onMove, n⟩
      |> removeEventListener ⟨Target.card, EventType.pointerleave, Handler.onLeave, n⟩

/-- The registry after `k` cycles of effect and cleanup, the first of them being run `n`. -/
def cycles (c : Component) : ℕ → ℕ → List Listener → List Listener
  | 0, _, r => r
  | k + 1, n, r => cycles c k (n + 1) (cleanup c n (effect c n r))

/-- No listener of `r` was made by run `n` or a later one. -/
def Fresh (n : ℕ) (r : List Listener) : Prop := ∀ l ∈ r, l.run < n

end Listeners

end Aurora

/-! ## Sample data used to instantiate the theorems -/

namespace Aurora

/-- A sample numeric environment over `ℚ`: crude stand-ins for the library
functions and a constant random stream. -/
def demoEnv : MathEnv ℚ :=
  { sin := fun _ => 0, cos := fun _ => 1, exp := fun _ => 1, pi := 3, random := fun _ => 1 / 2 }

/-- A sample particle. -/
def demoParticle : Particle ℚ :=
  { x := 1 / 4, y := 3 / 4, z := 1 / 2, r := 1, s := 1, hue := 300 }

/-- A sample state of the particle field: one particle, a visible document, a
`640 × 360` buffer and one pending frame callback. -/
def ParticleField.demoState : ParticleField.State ℚ :=
  { cursor := { x := 1 / 2, y := 1 / 2, vx := 0, vy := 0, down := false }
    dpr := 1
    width := 640
    height := 360
    gco := Composite.sourceOver
    calls := []
    particles := [demoParticle]
    t := 0
    rafId := 1
    last := 0
    hidden := false
    rng := 0
    sched := { seq := 1, pending := [(1, ParticleField.Callback.loop)] }
    moveRaf := 0
    effectRun := 0
    wrapRect := { left := 0, top := 0, width := 640, height := 360 } }

/-- A sample mounted confetti overlay: a `300 × 200` box, pixel ratio `1`, the
prop `trigger` at `0`. -/
def ConfettiBurst.demoMounted : ConfettiBurst.State ℚ :=
  ConfettiBurst.mount demoEnv 0 300 200 1 300 200 0

/-- The sample overlay right after the prop `trigger` has become `1`. -/
def ConfettiBurst.demoBurst : ConfettiBurst.State ℚ :=
  ConfettiBurst.triggerEffect demoEnv 1 ConfettiBurst.demoMounted

/-- A sample piece in flight: life `0.5`. -/
def demoPiece : Piece ℚ :=
  { x := 150, y := 90, vx := 2, vy := 1, r := 3, life := 1 / 2, spin := 1 / 10, ang := 0,
    hue := 300, s := 4 }

/-- A sample overlay state, active, with in-flight pieces in both arrays. -/
def ConfettiBurst.demoInFlight : ConfettiBurst.State ℚ :=
  { ConfettiBurst.demoBurst with pieces := [demoPiece], bridgePieces := [demoPiece] }

/-- Two sample update steps: a cursor moving left and up fast at phase `1`,
then a pressed cursor moving right at phase `2`. -/
def ParticleField.demoMoves : List (Cursor ℚ × ℚ) :=
  [({ x := 0, y := 0, vx := -1, vy := -1, down := false }, 1),
   ({ x := 1, y := 1 / 2, vx := 1, vy := 0, down := true }, 2)]

/-- The sample state with an empty buffer. -/
def ParticleField.demoZeroArea : ParticleField.State ℚ :=
  { ParticleField.demoState with width := 0 }

/-- A sample registry: listeners of other components, made by earlier runs. -/
def Listeners.demoRegistry : List Listeners.Listener :=
  [⟨Listeners.Target.journey, Listeners.EventType.wheel, Listeners.Handler.onWheel, 0⟩,
   ⟨Listeners.Target.card, Listeners.EventType.pointermove, Listeners.Handler.onMove, 2⟩]

/-- A sample bounding box: `640 × 360` at the viewport origin. -/
def demoRect : Rect ℚ := { left := 0, top := 0, width := 640, height := 360 }

/-- A sample cursor at rest in the middle of the surface. -/
def demoCursor : Cursor ℚ := { x := 1 / 2, y := 1 / 2, vx := 0, vy := 0, down := false }

/-- The pointer-move handler of `ParticleField` on the sample box, as the
function wrapped by `rafThrottle`: the arguments are the client coordinates. -/
def demoHandler (e : ℚ × ℚ) (c : Cursor ℚ) : Cursor ℚ :=
  ParticleField.onPointerMoveFn demoRect e.1 e.2 c

/-- A numeric environment whose random stream never repeats: draw `n` is `1 / (n + 2)`. -/
def seqEnv : MathEnv ℚ :=
  { sin := fun _ => 0, cos := fun _ => 1, exp := fun _ => 1, pi := 3,
    random := fun n => 1 / ((n : ℚ) + 2) }

/-- A sample overlay on a display of pixel ratio `3`: a `300 × 200` box, the
prop `trigger` at `0`. -/
def ConfettiBurst.demoRetina : ConfettiBurst.State ℚ :=
  ConfettiBurst.mount demoEnv 0 300 200 3 300 200 0

/-- A sample scroll container at its left end, with `1200` px to scroll. -/
def HorizontalJourney.demoScroller : HorizontalJourney.Scroller ℚ :=
  { scrollLeft := 0, maxScroll := 1200, assigned := [] }

/-- A sample answer of the browser to a scroll request: the scroll ends on the
snap point nearest to the value assigned, with snap points `400` px apart. -/
def HorizontalJourney.demoSettle : ℚ → ℚ → ℚ :=
  fun _ v => 400 * ⌊v / 400 + 1 / 2⌋

/-- A sample answer of the browser to a scroll request without snapping: the
scroll ends on the value assigned. -/
def HorizontalJourney.demoJump : ℚ → ℚ → ℚ :=
  fun _ v => v

/-- A sample wheel event: one notch down. -/
def HorizontalJourney.demoWheelDown : HorizontalJourney.WheelEvent ℚ :=
  { deltaX := 0, deltaY := 100, defaultPrevented := false }

/-- A sample wheel event: one notch up. -/
def HorizontalJourney.demoWheelUp : HorizontalJourney.WheelEvent ℚ :=
  { deltaX := 0, deltaY := -100, defaultPrevented := false }

/-- A sample wheel event: a sideways swipe. -/
def HorizontalJourney.demoWheelSide : HorizontalJourney.WheelEvent ℚ :=
  { deltaX := 30, deltaY := 4, defaultPrevented := false }

/-- The sample state with the document hidden. -/
def ParticleField.demoHidden : ParticleField.State ℚ :=
  { ParticleField.demoState with hidden := true }

/-- A sample sequence of events: frames 40 ms apart around a tab switch. -/
def ParticleField.demoEvents : List (ParticleField.Event ℚ) :=
  [ParticleField.Event.frame 40, ParticleField.Event.frame 50,
   ParticleField.Event.visibilitychange true, ParticleField.Event.frame 90,
   ParticleField.Event.visibilitychange false, ParticleField.Event.frame 130]

end Aurora

/-! ## Lemmas on the helpers -/

set_option linter.unusedSectionVars false

namespace Aurora

section HelperLemmas

variable {K : Type} [LinearOrderedField K] [FloorRing K]

theorem jsRem_one_of_nonneg (a : K) (h : 0 ≤ a) : 0 ≤ jsRem a 1 ∧ jsRem a 1 < 1 := by
  unfold jsRem jsTrunc
  simp only [div_one, one_mul, if_pos h]
  exact ⟨by linarith [Int.floor_le a], by linarith [Int.lt_floor_add_one a]⟩

theorem jsRem_one_of_neg (a : K) (h : a < 0) : -1 < jsRem a 1 ∧ jsRem a 1 ≤ 0 := by
  unfold jsRem jsTrunc
  simp only [div_one, one_mul, if_neg (not_le.mpr h)]
  exact ⟨by linarith [Int.ceil_lt_add_one a], by linarith [Int.le_ceil a]⟩

/-- The wraparound idiom `v = v % 1; if (v < 0) v += 1` lands in `[0, 1)`. -/
theorem wrap_inUnit (v : K) :
    InUnit (if jsRem v 1 < 0 then jsRem v 1 + 1 else jsRem v 1) := by
  unfold InUnit
  rcases le_or_lt 0 v with h | h
  · have hb := jsRem_one_of_nonneg v h
    rw [if_neg (not_lt.mpr hb.1)]
    exact hb
  · have hb := jsRem_one_of_neg v h
    split_ifs with h0
    · constructor <;> linarith
    · exact ⟨not_lt.mp h0, by linarith⟩

theorem newArray_eq_some {count : ℤ} (h0 : 0 ≤ count) (h1 : count < 2 ^ 32) :
    newArray count = some count.toNat := by
  unfold newArray
  rw [if_pos ⟨h0, h1⟩]

theorem newArray_some_iff {count : ℤ} {n : ℕ} (h : newArray count = some n) :
    (n : ℤ) = count := by
  unfold newArray at h
  split_ifs at h with hc
  · simp only [Option.some.injEq] at h
    rw [← h]
    exact Int.toNat_of_nonneg hc.1

/-- A property preserved by every step of a left fold holds at its end. -/
theorem foldl_invariant {α β : Type} (P : α → Prop) (f : α → β → α)
    (h : ∀ a b, P a → P (f a b)) : ∀ (l : List β) (a : α), P a → P (l.foldl f a) := by
  intro l
  induction l with
  | nil => intro a ha; exact ha
  | cons b l ih => intro a ha; exact ih (f a b) (h a b ha)

end HelperLemmas

end Aurora

/-! ## The particle field: lemmas -/

namespace Aurora

namespace ParticleField

section Lemmas

variable {K : Type} [LinearOrderedField K] [FloorRing K]

theorem moveParticle_inUnit (env : MathEnv K) (intensity : K) (cur : Cursor K) (phase : K)
    (p : Particle K) :
    InUnit (moveParticle env intensity cur phase p).x ∧
      InUnit (moveParticle env intensity cur phase p).y := by
  unfold moveParticle
  exact ⟨wrap_inUnit _, wrap_inUnit _⟩

theorem drawStreak_particles (env : MathEnv K) (intensity w h : K) (s : State K) :
    (drawStreak env intensity w h s).particles = s.particles := by
  unfold drawStreak
  split_ifs <;> rfl

/-- The cases of `loop`: the three early returns and the rendering pass. -/
theorem loop_cases (env : MathEnv K) (intensity now : K) (s : State K) :
    (s.hidden = true ∨ now - s.last < frameMs) ∧ loop env intensity now s = requestLoop s ∨
    (s.hidden = false ∧ ¬ now - s.last < frameMs) ∧ (s.width = 0 ∨ s.height = 0) ∧
      loop env intensity now s = { requestLoop s with last := now } ∨
    (s.hidden = false ∧ ¬ now - s.last < frameMs) ∧ ¬ (s.width = 0 ∨ s.height = 0) ∧
      loop env intensity now s =
        drawParticles env intensity s.width s.height (s.t + 0.008)
          (drawAuroraBand (s.width : K) s.height (s.t + 0.008)
            { requestLoop s with
              last := now
              t := s.t + 0.008
              gco := Composite.sourceOver
              calls := s.calls ++ [DrawOp.fillRect Composite.sourceOver 0 0 (s.width : K) s.height] }) := by
  by_cases hh : s.hidden = true
  · left
    refine ⟨Or.inl hh, ?_⟩
    simp [loop, requestLoop, hh]
  · have hh2 : s.hidden = false := by simpa using hh
    by_cases hl : now - s.last < frameMs
    · left
      refine ⟨Or.inr hl, ?_⟩
      simp [loop, requestLoop, hh2, hl]
    · right
      by_cases hz : s.width = 0 ∨ s.height = 0
      · left
        refine ⟨⟨hh2, hl⟩, hz, ?_⟩
        simp [loop, requestLoop, hh2, hl, hz]
      · right
        refine ⟨⟨hh2, hl⟩, hz, ?_⟩
        simp [loop, requestLoop, hh2, hl, hz]


theorem loop_particles (env : MathEnv K) (intensity now : K) (s : State K) :
    (loop env intensity now s).particles = s.particles ∨
    (loop env intensity now s).particles =
      s.particles.map (moveParticle env intensity s.cursor (s.t + 0.008)) := by
  rcases loop_cases env intensity now s with ⟨_, h⟩ | ⟨_, _, h⟩ | ⟨_, _, h⟩
  · left; rw [h]; rfl
  · left; rw [h]; rfl
  · right; rw [h]
    simp [drawParticles, drawStreak_particles, drawAuroraBand, requestLoop]

theorem mkParticles_length {env : MathEnv K} {intensity : K} {rng : ℕ}
    {ps : List (Particle K)} {rng1 : ℕ} (h : mkParticles env intensity rng = some (ps, rng1)) :
    (ps.length : ℤ) = ⌊(70 : K) * intensity⌋ := by
  unfold mkParticles at h
  cases hc : newArray ⌊(settings : Settings K).baseCount * intensity⌋ with
  | none => simp [hc] at h
  | some count =>
    simp only [hc, Option.some.injEq, Prod.mk.injEq] at h
    rw [← h.1]
    simp only [List.length_map, List.length_range]
    exact newArray_some_iff hc

theorem mkParticles_inUnit {env : MathEnv K} {intensity : K} {rng : ℕ}
    {ps : List (Particle K)} {rng1 : ℕ} (hr : ∀ n, InUnit (env.random n))
    (h : mkParticles env intensity rng = some (ps, rng1)) :
    ∀ p ∈ ps, InUnit p.x ∧ InUnit p.y := by
  unfold mkParticles at h
  cases hc : newArray ⌊(settings : Settings K).baseCount * intensity⌋ with
  | none => simp [hc] at h
  | some count =>
    simp only [hc, Option.some.injEq, Prod.mk.injEq] at h
    intro p hp
    rw [← h.1] at hp
    obtain ⟨k, _, rfl⟩ := List.mem_map.mp hp
    exact ⟨hr _, hr _⟩

/-- A property of the particle array that `loop`, a reseed and the untouched
case preserve is an invariant of `step`. -/
theorem step_particles_invariant (env : MathEnv K) (intensity : K)
    (P : List (Particle K) → Prop)
    (hmove : ∀ (cur : Cursor K) (phase : K) (ps : List (Particle K)),
      P ps → P (ps.map (moveParticle env intensity cur phase)))
    (hseed : ∀ (rng rng1 : ℕ) (ps : List (Particle K)),
      mkParticles env intensity rng = some (ps, rng1) → P ps)
    (e : Event K) (s : State K) (hs : P s.particles) :
    P (step env intensity e s).particles := by
  cases e with
  | frame now =>
    simp only [step, frame]
    refine foldl_invariant (fun st : State K => P st.particles) _ ?_ _ _ hs
    intro a b ha
    obtain ⟨_, c⟩ := b
    cases c with
    | loop =>
      show P (loop env intensity now a).particles
      rcases loop_particles env intensity now a with h | h
      · rw [h]; exact ha
      · rw [h]; exact hmove _ _ _ ha
    | pointermove g x y => exact ha
  | visibilitychange hidden =>
    simp only [step, onVis]
    split_ifs
    · exact hs
    · cases hm : mkParticles env intensity s.rng with
      | none => exact hs
      | some r =>
        obtain ⟨ps, rng1⟩ := r
        exact hseed _ _ _ hm
  | resize rectW rectH ratio => exact hs
  | pointerdown => exact hs
  | pointerup => exact hs
  | pointermove x y => exact hs
  | layout rect => exact hs

theorem run_particles_invariant (env : MathEnv K) (intensity : K)
    (P : List (Particle K) → Prop)
    (hmove : ∀ (cur : Cursor K) (phase : K) (ps : List (Particle K)),
      P ps → P (ps.map (moveParticle env intensity cur phase)))
    (hseed : ∀ (rng rng1 : ℕ) (ps : List (Particle K)),
      mkParticles env intensity rng = some (ps, rng1) → P ps)
    (es : List (Event K)) (s : State K) (hs : P s.particles) :
    P (run env intensity es s).particles :=
  foldl_invariant (fun st : State K => P st.particles) _
    (fun a e ha => step_particles_invariant env intensity P hmove hseed e a ha) es s hs

theorem frameMs_pos : (0 : K) < frameMs := by
  unfold frameMs FPS
  norm_num

theorem drawStreak_last (env : MathEnv K) (intensity w h : K) (s : State K) :
    (drawStreak env intensity w h s).last = s.last ∧ (drawStreak env intensity w h s).t = s.t := by
  unfold drawStreak
  split_ifs <;> exact ⟨rfl, rfl⟩

/-- What one run of `loop` does to `last` and `t`: nothing, or `last` becomes
`now`, which is at least `frameMs` later; `t` moves only in the second case. -/
theorem loop_last_t (env : MathEnv K) (intensity now : K) (s : State K) :
    ((loop env intensity now s).last = s.last ∧ (loop env intensity now s).t = s.t) ∨
    (s.last + frameMs ≤ now ∧ (loop env intensity now s).last = now) := by
  rcases loop_cases env intensity now s with ⟨_, h⟩ | ⟨⟨_, hl⟩, _, h⟩ | ⟨⟨_, hl⟩, _, h⟩
  · left; rw [h]; exact ⟨rfl, rfl⟩
  · right; rw [h]; exact ⟨by linarith [not_lt.mp hl], rfl⟩
  · right; rw [h]
    refine ⟨by linarith [not_lt.mp hl], ?_⟩
    simp [drawParticles, drawStreak_last, drawAuroraBand, requestLoop]

/-- Across one animation frame `last` does not decrease, and if the phase
moved then `now` is at least `frameMs` after the old `last` and is the new `last`. -/
theorem frame_last_t (env : MathEnv K) (intensity now : K) (s : State K) :
    s.last ≤ (frame env intensity now s).last ∧
    ((frame env intensity now s).t ≠ s.t →
      s.last + frameMs ≤ now ∧ (frame env intensity now s).last = now) := by
  unfold frame
  refine foldl_invariant
    (fun st : State K => s.last ≤ st.last ∧ (st.t ≠ s.t → s.last + frameMs ≤ now ∧ st.last = now))
    _ ?_ _ _ ⟨le_refl _, fun h => absurd rfl h⟩
  intro a b ha
  obtain ⟨_, c⟩ := b
  cases c with
  | loop =>
    show s.last ≤ (loop env intensity now a).last ∧
      ((loop env intensity now a).t ≠ s.t →
        s.last + frameMs ≤ now ∧ (loop env intensity now a).last = now)
    have hpos : (0 : K) < frameMs := frameMs_pos
    rcases loop_last_t env intensity now a with ⟨h1, h2⟩ | ⟨h1, h2⟩
    · rw [h1, h2]; exact ha
    · rw [h2]
      exact ⟨by linarith [ha.1], fun _ => ⟨by linarith [ha.1], rfl⟩⟩
  | pointermove g x y => exact ha

theorem step_last (env : MathEnv K) (intensity : K) (e : Event K) (s : State K) :
    s.last ≤ (step env intensity e s).last := by
  cases e with
  | frame now => exact (frame_last_t env intensity now s).1
  | visibilitychange hidden =>
    simp only [step, onVis]
    split_ifs
    · exact le_refl _
    · cases mkParticles env intensity s.rng with
      | none => exact le_refl _
      | some r => exact le_refl _
  | resize rectW rectH ratio => exact le_refl _
  | pointerdown => exact le_refl _
  | pointerup => exact le_refl _
  | pointermove x y => exact le_refl _
  | layout rect => exact le_refl _

theorem renderTimes_ge (env : MathEnv K) (intensity : K) (es : List (Event K)) :
    ∀ (s : State K), ∀ x ∈ renderTimes env intensity es s, s.last + frameMs ≤ x := by
  induction es with
  | nil => intro s x hx; simp [renderTimes] at hx
  | cons e es ih =>
    intro s x hx
    have hstep := step_last env intensity e s
    cases e with
    | frame now =>
      simp only [renderTimes] at hx
      split_ifs at hx with hr
      · have hf := (frame_last_t env intensity now s).2 hr
        rcases List.mem_cons.mp hx with rfl | hx
        · exact hf.1
        · have := ih _ x hx
          linarith
      · have := ih _ x hx
        linarith
    | visibilitychange hidden =>
      simp only [renderTimes] at hx
      have := ih _ x hx
      linarith
    | resize rectW rectH ratio =>
      simp only [renderTimes] at hx
      have := ih _ x hx
      linarith
    | pointerdown =>
      simp only [renderTimes] at hx
      have := ih _ x hx
      linarith
    | pointerup =>
      simp only [renderTimes] at hx
      have := ih _ x hx
      linarith
    | pointermove cx cy =>
      simp only [renderTimes] at hx
      have := ih _ x hx
      linarith
    | layout rect =>
      simp only [renderTimes] at hx
      have := ih _ x hx
      linarith

theorem renderTimes_chain (env : MathEnv K) (intensity : K) (es : List (Event K)) :
    ∀ (s : State K), List.Chain' (fun a b => a + frameMs ≤ b) (renderTimes env intensity es s) := by
  induction es with
  | nil => intro s; simp [renderTimes]
  | cons e es ih =>
    intro s
    cases e with
    | frame now =>
      simp only [renderTimes]
      split_ifs with hr
      · have hf := (frame_last_t env intensity now s).2 hr
        rw [List.chain'_cons']
        refine ⟨?_, ih _⟩
        intro y hy
        have hmem : y ∈ renderTimes env intensity es (step env intensity (Event.frame now) s) :=
          List.mem_of_mem_head? hy
        have := renderTimes_ge env intensity es _ y hmem
        have hl : (step env intensity (Event.frame now) s).last = now := hf.2
        rw [hl] at this
        exact this
      · exact ih _
    | visibilitychange hidden => simp only [renderTimes]; exact ih _
    | resize rectW rectH ratio => simp only [renderTimes]; exact ih _
    | pointerdown => simp only [renderTimes]; exact ih _
    | pointerup => simp only [renderTimes]; exact ih _
    | pointermove cx cy => simp only [renderTimes]; exact ih _
    | layout rect => simp only [renderTimes]; exact ih _

end Lemmas

end ParticleField

end Aurora

/-! ## The particle field: claims C1, C2, C9, C10 -/

namespace Aurora

namespace ParticleField

section WrapClaims
variable {K : Type} [LinearOrderedField K] [FloorRing K]

/-- C1. Particle wraparound: for a particle with `x` and `y` in `[0, 1)`, one
update step of `drawParticles` leaves both in `[0, 1)`, whatever the phase,
depth, cursor velocity, intensity and speed scale; so does any number of
update steps, each with its own cursor state and phase; and when the random
seeds are in `[0, 1)` and the particles of a state are in `[0, 1)`, they still
are after any sequence of frames, reseeds, resizes and pointer events. -/
theorem particle_wraparound (env : MathEnv K) (intensity : K) (cur : Cursor K) (phase : K)
    (p : Particle K) (fs : List (Cursor K × K)) (es : List (Event K)) (s : State K)
    (hx : InUnit p.x) (hy : InUnit p.y)
    (hrand : ∀ n, InUnit (env.random n))
    (hs : ∀ q ∈ s.particles, InUnit q.x ∧ InUnit q.y) :
    (InUnit (moveParticle env intensity cur phase p).x ∧
      InUnit (moveParticle env intensity cur phase p).y) ∧
    (InUnit (fs.foldl (fun q f => moveParticle env intensity f.1 f.2 q) p).x ∧
      InUnit (fs.foldl (fun q f => moveParticle env intensity f.1 f.2 q) p).y) ∧
    ∀ q ∈ (run env intensity es s).particles, InUnit q.x ∧ InUnit q.y := by
  refine ⟨moveParticle_inUnit env intensity cur phase p, ?_, ?_⟩
  · exact foldl_invariant (fun q : Particle K => InUnit q.x ∧ InUnit q.y) _
      (fun q f _ => moveParticle_inUnit env intensity f.1 f.2 q) fs p ⟨hx, hy⟩
  · refine run_particles_invariant env intensity
      (fun ps => ∀ q ∈ ps, InUnit q.x ∧ InUnit q.y) ?_ ?_ es s hs
    · intro c ph ps _ q hq
      obtain ⟨q0, _, rfl⟩ := List.mem_map.mp hq
      exact moveParticle_inUnit env intensity c ph q0
    · intro rng rng1 ps hm
      exact mkParticles_inUnit hrand hm

theorem demoEnv_random_inUnit : ∀ n, InUnit (demoEnv.random n) := by
  intro n
  simp only [demoEnv, InUnit]
  norm_num

theorem demoState_particles_inUnit : ∀ q ∈ demoState.particles, InUnit q.x ∧ InUnit q.y := by
  intro q hq
  simp only [demoState, List.mem_singleton] at hq
  subst hq
  simp only [demoParticle, InUnit]
  norm_num

end WrapClaims

/-- Witness of C1 at the sample particle, state and events, and two update
steps with a moving, then pressed, cursor. -/
theorem particle_wraparound_witness :
    (InUnit demoParticle.x ∧ InUnit demoParticle.y) ∧
    (∀ n, InUnit (demoEnv.random n)) ∧
    (∀ q ∈ demoState.particles, InUnit q.x ∧ InUnit q.y) ∧
    ((InUnit (moveParticle demoEnv 1 demoState.cursor 0 demoParticle).x ∧
      InUnit (moveParticle demoEnv 1 demoState.cursor 0 demoParticle).y) ∧
    (InUnit (demoMoves.foldl (fun q f => moveParticle demoEnv 1 f.1 f.2 q) demoParticle).x ∧
      InUnit (demoMoves.foldl (fun q f => moveParticle demoEnv 1 f.1 f.2 q) demoParticle).y) ∧
    ∀ q ∈ (run demoEnv 1 demoEvents demoState).particles, InUnit q.x ∧ InUnit q.y) :=
  ⟨demoState_particles_inUnit demoParticle (List.mem_singleton.mpr rfl),
   demoEnv_random_inUnit, demoState_particles_inUnit,
   particle_wraparound demoEnv 1 demoState.cursor 0 demoParticle demoMoves demoEvents demoState
     (demoState_particles_inUnit demoParticle (List.mem_singleton.mpr rfl)).1
     (demoState_particles_inUnit demoParticle (List.mem_singleton.mpr rfl)).2
     demoEnv_random_inUnit demoState_particles_inUnit⟩

section CountClaims
variable {K : Type} [LinearOrderedField K] [FloorRing K]

theorem mkParticles_isSome (env : MathEnv K) (intensity : K) (rng : ℕ)
    (h0 : 0 ≤ intensity) (hmax : ⌊(70 : K) * intensity⌋ < 2 ^ 32) :
    ∃ ps rng1, mkParticles env intensity rng = some (ps, rng1) := by
  have hf : (0 : ℤ) ≤ ⌊(70 : K) * intensity⌋ := Int.floor_nonneg.mpr (by positivity)
  unfold mkParticles
  simp only [settings, newArray_eq_some hf hmax]
  exact ⟨_, _, rfl⟩

/-- The count after mounting and after any events, for an intensity whose
count is an array length. -/
theorem mount_particles_length (env : MathEnv K) (intensity rectW rectH ratio now : K)
    (hidden : Bool) (rng : ℕ)
    (h0 : 0 ≤ intensity) (hmax : ⌊(70 : K) * intensity⌋ < 2 ^ 32) :
    ∃ s0, mount env intensity rectW rectH ratio now hidden rng = some s0 ∧
      ∀ es : List (Event K),
        ((run env intensity es s0).particles.length : ℤ) = ⌊(70 : K) * intensity⌋ := by
  obtain ⟨ps, rng1, hm⟩ := mkParticles_isSome env intensity
    (resize rectW rectH ratio (initial now hidden rng)).rng h0 hmax
  have hmount : mount env intensity rectW rectH ratio now hidden rng =
      some (requestLoop
        { resize rectW rectH ratio (initial now hidden rng) with
          particles := ps
          rng := rng1
          wrapRect := { left := 0, top := 0, width := rectW, height := rectH } }) := by
    simp only [mount, hm]
  refine ⟨_, hmount, ?_⟩
  intro es
  refine run_particles_invariant env intensity
    (fun qs => (qs.length : ℤ) = ⌊(70 : K) * intensity⌋) ?_ ?_ es _ ?_
  · intro c ph qs hq
    simpa using hq
  · intro r r1 qs hq
    exact mkParticles_length hq
  · exact mkParticles_length hm

/-- C2 (amended). Live particle count: for every intensity `≥ 0` whose count
`floor(70 * intensity)` is a JavaScript array length (below `2^32`), the mount
effect succeeds, and in the state it produces and in every state reached from
it by frames (rendered or skipped), visibility changes (which reseed), resizes
and pointer events, the number of particles is `floor(70 * intensity)`; in
particular intensity `0` yields zero particles in every such state. -/
theorem particle_count (env : MathEnv K) (intensity rectW rectH ratio now : K)
    (hidden : Bool) (rng : ℕ)
    (h0 : 0 ≤ intensity) (hmax : ⌊(70 : K) * intensity⌋ < 2 ^ 32) :
    (∃ s0, mount env intensity rectW rectH ratio now hidden rng = some s0 ∧
      ∀ es : List (Event K),
        ((run env intensity es s0).particles.length : ℤ) = ⌊(70 : K) * intensity⌋) ∧
    (∃ s0, mount env 0 rectW rectH ratio now hidden rng = some s0 ∧
      ∀ es : List (Event K), (run env 0 es s0).particles.length = 0) := by
  refine ⟨mount_particles_length env intensity rectW rectH ratio now hidden rng h0 hmax, ?_⟩
  obtain ⟨s0, hs0, hlen⟩ := mount_particles_length env (0 : K) rectW rectH ratio now hidden rng
    (le_refl 0) (by simp)
  refine ⟨s0, hs0, ?_⟩
  intro es
  have h := hlen es
  simp only [mul_zero, Int.floor_zero] at h
  exact_mod_cast h

end CountClaims

/-- Witness of C2 (amended) at intensity `1`, the value the page passes. -/
theorem particle_count_witness :
    (0 : ℚ) ≤ 1 ∧ ⌊(70 : ℚ) * 1⌋ < 2 ^ 32 ∧
    ∃ s0, mount demoEnv 1 640 360 1 0 false 0 = some s0 ∧
      ∀ es : List (Event ℚ), ((run demoEnv 1 es s0).particles.length : ℤ) = ⌊(70 : ℚ) * 1⌋ :=
  ⟨by norm_num, by norm_num,
   (particle_count demoEnv 1 640 360 1 0 false 0 (by norm_num) (by norm_num)).1⟩

/-- C2 as stated fails at intensity `10^8`: the count `7 * 10^9` is not an
array length, `new Array(count)` raises and mounting produces no particle set. -/
theorem particle_count_large_intensity :
    (0 : ℚ) ≤ 100000000 ∧
    mount demoEnv 100000000 640 360 1 0 false 0 = none ∧
    ¬ ∃ s0, mount demoEnv 100000000 640 360 1 0 false 0 = some s0 ∧
      (s0.particles.length : ℤ) = ⌊(70 : ℚ) * 100000000⌋ := by
  have hm : mount demoEnv 100000000 640 360 1 0 false 0 = none := by
    simp only [mount, mkParticles, settings, newArray]
    norm_num
  refine ⟨by norm_num, hm, ?_⟩
  rintro ⟨s0, h, _⟩
  rw [hm] at h
  exact Option.noConfusion h

section FrameClaims
variable {K : Type} [LinearOrderedField K] [FloorRing K]

/-- C9. Background skip: a frame callback `loop` that runs while the document
is hidden changes nothing but the scheduler and `rafId`: no painting call is
issued, the phase `t`, the timestamp `last`, the particles, the cursor, the
random stream and the buffer are unchanged, and the next callback is pending. -/
theorem hidden_frame_is_skipped (env : MathEnv K) (intensity now : K) (s : State K)
    (hid : s.hidden = true) :
    loop env intensity now s =
      { s with
        rafId := s.sched.seq + 1
        sched := { seq := s.sched.seq + 1
                   pending := s.sched.pending ++ [(s.sched.seq + 1, Callback.loop)] } } ∧
    (loop env intensity now s).calls = s.calls ∧
    (loop env intensity now s).t = s.t ∧
    (loop env intensity now s).last = s.last ∧
    (loop env intensity now s).particles = s.particles ∧
    (loop env intensity now s).cursor = s.cursor ∧
    (loop env intensity now s).rng = s.rng ∧
    (s.sched.seq + 1, Callback.loop) ∈ (loop env intensity now s).sched.pending := by
  have h : loop env intensity now s = requestLoop s := by
    simp [loop, requestLoop, hid]
  rw [h]
  refine ⟨rfl, rfl, rfl, rfl, rfl, rfl, rfl, ?_⟩
  simp [requestLoop, Scheduler.request]

/-- C10. Frame-rate cap: a callback whose timestamp is less than `1000 / 30` ms
after `last` changes nothing but the scheduler and `rafId` (no state change, no
painting call); and along every sequence of events (for every sequence of frame
timestamps, in particular a non-decreasing one) each frame that renders comes
at least `1000 / 30` ms after the previous frame that rendered. -/
theorem frame_rate_cap (env : MathEnv K) (intensity now : K) (es : List (Event K))
    (s : State K) :
    (now - s.last < 1000 / 30 →
      loop env intensity now s =
        { s with
          rafId := s.sched.seq + 1
          sched := { seq := s.sched.seq + 1
                     pending := s.sched.pending ++ [(s.sched.seq + 1, Callback.loop)] } }) ∧
    List.Chain' (fun a b => a + 1000 / 30 ≤ b) (renderTimes env intensity es s) := by
  constructor
  · intro hlt
    have hlt2 : now - s.last < frameMs := hlt
    by_cases hh : s.hidden = true
    · simp [loop, requestLoop, hh, Scheduler.request]
    · have hh2 : s.hidden = false := by simpa using hh
      simp [loop, requestLoop, hh2, hlt2, Scheduler.request]
  · exact renderTimes_chain env intensity es s

end FrameClaims

/-- Witness of C9 at the sample state with the document hidden. -/
theorem hidden_frame_is_skipped_witness :
    demoHidden.hidden = true ∧
    (loop demoEnv 1 40 demoHidden).calls = demoHidden.calls ∧
    (loop demoEnv 1 40 demoHidden).t = demoHidden.t ∧
    (2, Callback.loop) ∈ (loop demoEnv 1 40 demoHidden).sched.pending :=
  ⟨rfl, (hidden_frame_is_skipped demoEnv 1 40 demoHidden rfl).2.1,
   (hidden_frame_is_skipped demoEnv 1 40 demoHidden rfl).2.2.1,
   (hidden_frame_is_skipped demoEnv 1 40 demoHidden rfl).2.2.2.2.2.2.2⟩

/-- Witness of C10: a callback 10 ms after `last` is skipped, and the sample
events render at 40 and 130 only. -/
theorem frame_rate_cap_witness :
    (10 : ℚ) - demoState.last < 1000 / 30 ∧
    (loop demoEnv 1 10 demoState).calls = demoState.calls ∧
    List.Chain' (fun a b : ℚ => a + 1000 / 30 ≤ b) (renderTimes demoEnv 1 demoEvents demoState) :=
  ⟨by simp only [demoState]; norm_num,
   by rw [(frame_rate_cap demoEnv 1 10 demoEvents demoState).1
        (by simp only [demoState]; norm_num)],
   (frame_rate_cap demoEnv 1 10 demoEvents demoState).2⟩

end ParticleField

end Aurora

/-! ## The confetti burst: lemmas and claims C3 to C8 -/

namespace Aurora

namespace ConfettiBurst

section Lemmas
variable {K : Type} [LinearOrderedField K] [FloorRing K]

theorem mk_length (env : MathEnv K) (s : State K) : (mk env s).length = 24 := by
  simp [mk]

theorem mk_life (env : MathEnv K) (s : State K) : ∀ p ∈ mk env s, p.life = 1 := by
  intro p hp
  obtain ⟨i, _, rfl⟩ := List.mem_map.mp hp
  rfl

/-- The frame callback `loop` while `activeRef` is false only re-arms itself. -/
theorem loop_of_idle (s : State K) (h : s.activeRef = false) :
    loop s =
      { s with
        raf := s.sched.seq + 1
        sched := { seq := s.sched.seq + 1
                   pending := s.sched.pending ++ [(s.sched.seq + 1, Callback.loop)] } } := by
  simp [loop, h, Scheduler.request]

/-- The frame callback `loop` on an active engine whose array is empty: two
`clearRect` calls, no piece painted, and the engine is idle. -/
theorem loop_of_pieces_nil (s : State K) (ha : s.activeRef = true) (hp : s.pieces = []) :
    loop s =
      { s with
        raf := s.sched.seq + 1
        sched := { seq := s.sched.seq + 1
                   pending := s.sched.pending ++ [(s.sched.seq + 1, Callback.loop)] }
        gco := Composite.lighter
        activeRef := false
        calls := s.calls ++
          [DrawOp.clearRect 0 0 ((s.width : K) / orOne s.pixelRatio)
              ((s.height : K) / orOne s.pixelRatio),
           DrawOp.clearRect 0 0 ((s.width : K) / orOne s.pixelRatio)
              ((s.height : K) / orOne s.pixelRatio)] } := by
  simp [loop, ha, hp, Scheduler.request]

theorem loop_pieces_nil (s : State K) (hp : s.pieces = []) : (loop s).pieces = [] := by
  by_cases ha : s.activeRef = true
  · rw [loop_of_pieces_nil s ha hp]; exact hp
  · have ha2 : s.activeRef = false := by simpa using ha
    rw [loop_of_idle s ha2]; exact hp

theorem loop_activeRef_of_pieces_nil (s : State K) (hp : s.pieces = []) :
    (loop s).activeRef = false := by
  by_cases ha : s.activeRef = true
  · rw [loop_of_pieces_nil s ha hp]
  · have ha2 : s.activeRef = false := by simpa using ha
    rw [loop_of_idle s ha2]; exact ha2

/-- An animation frame of a mounted overlay runs `loop`, then `sync`. -/
theorem frame_of_pending (env : MathEnv K) (s : State K) (a b : ℕ)
    (h : s.sched.pending = [(a, Callback.loop), (b, Callback.sync)]) :
    frame env s = sync env (loop { s with sched := { s.sched with pending := [] } }) := by
  simp [frame, h]

theorem sync_fields (env : MathEnv K) (s : State K) :
    (sync env s).pieces = s.pieces ∧ (sync env s).listening = s.listening ∧
    (sync env s).sched = (s.sched.request Callback.sync).1 := by
  unfold sync
  split_ifs <;> exact ⟨rfl, rfl, rfl⟩

theorem triggerEffect_fields (env : MathEnv K) (v : ℕ) (s : State K) :
    (triggerEffect env v s).pieces = s.pieces ∧ (triggerEffect env v s).listening = s.listening ∧
    (triggerEffect env v s).sched = s.sched := by
  unfold triggerEffect
  split_ifs <;> exact ⟨rfl, rfl, rfl⟩

theorem loop_fields (s : State K) :
    (loop s).listening = s.listening ∧ (loop s).sched = (s.sched.request Callback.loop).1 := by
  unfold loop
  simp only
  split_ifs <;> exact ⟨rfl, rfl⟩

theorem loop_requests (s : State K) :
    (loop s).handled = s.handled ∧ (loop s).confettiRequested = s.confettiRequested ∧
    (loop s).bridgePieces = s.bridgePieces := by
  unfold loop
  simp only
  split_ifs <;> exact ⟨rfl, rfl, rfl⟩

theorem sync_of_request (env : MathEnv K) (s : State K) (h : 0 < s.confettiRequested) :
    sync env s =
      { onReq env { s with confettiRequested := 0 } with
        sched := (s.sched.request Callback.sync).1 } := by
  simp [sync, h, onReq]

theorem sync_of_no_request (env : MathEnv K) (s : State K) (h : s.confettiRequested = 0) :
    sync env s = { s with sched := (s.sched.request Callback.sync).1 } := by
  simp [sync, h]

theorem triggerEffect_of_listening (env : MathEnv K) (v : ℕ) (s : State K)
    (hl : s.listening = true) :
    triggerEffect env (v + 1) s =
      { onReq env s with
        confettiRequested := s.confettiRequested + 1
        gco := Composite.lighter
        calls := s.calls ++
          [DrawOp.fillRect Composite.lighter 0 0 ((s.width : K) / orOne s.pixelRatio)
            ((s.height : K) / orOne s.pixelRatio)] } := by
  simp [triggerEffect, hl, onReq]

theorem mounted_step (env : MathEnv K) (e : Event K) (s : State K) (h : Mounted s) :
    Mounted (step env e s) := by
  obtain ⟨hl, hp, a, b, hq⟩ := h
  cases e with
  | frame =>
    simp only [step]
    rw [frame_of_pending env s a b hq]
    have hs := sync_fields env (loop { s with sched := { s.sched with pending := [] } })
    have hlf := loop_fields ({ s with sched := { s.sched with pending := [] } } : State K)
    refine ⟨?_, ?_, ?_⟩
    · rw [hs.2.1, hlf.1]; exact hl
    · rw [hs.1]; exact loop_pieces_nil _ hp
    · rw [hs.2.2, hlf.2]
      exact ⟨s.sched.seq + 1, s.sched.seq + 1 + 1, by simp [Scheduler.request]⟩
  | trigger v =>
    have ht := triggerEffect_fields env v s
    simp only [step]
    exact ⟨by rw [ht.2.1]; exact hl, by rw [ht.1]; exact hp, a, b, by rw [ht.2.2]; exact hq⟩
  | resize pw ph => exact ⟨hl, hp, a, b, hq⟩

theorem mounted_mount (env : MathEnv K) (trigger : ℕ) (parentW parentH pixelRatio rectW rectH : K)
    (rng : ℕ) : Mounted (mount env trigger parentW parentH pixelRatio rectW rectH rng) := by
  have ht := triggerEffect_fields env trigger
    ({ resize parentW parentH (initial pixelRatio rectW rectH rng) with
        sched := ((resize parentW parentH (initial pixelRatio rectW rectH rng)).sched.request
          Callback.loop).1
        raf := ((resize parentW parentH (initial pixelRatio rectW rectH rng)).sched.request
          Callback.loop).2 } : State K)
  refine ⟨rfl, ?_, ?_⟩
  · simp only [mount]
    rw [ht.1]; rfl
  · simp only [mount]
    rw [ht.2.2]
    exact ⟨1, 2, by simp [Scheduler.request, resize, initial]⟩

theorem mounted_run (env : MathEnv K) (es : List (Event K)) (s : State K) (h : Mounted s) :
    Mounted (run env es s) :=
  foldl_invariant Mounted _ (fun a e ha => mounted_step env e a ha) es s h

/-- An animation frame of a mounted overlay: `loop` leaves the engine idle
(its array is empty), then `sync` handles a pending request, if any. -/
theorem frame_of_mounted (env : MathEnv K) (s : State K) (h : Mounted s) :
    (frame env s).activeRef = decide (0 < s.confettiRequested) ∧
    (frame env s).confettiRequested = 0 ∧
    (frame env s).handled = s.handled + (if 0 < s.confettiRequested then 1 else 0) := by
  obtain ⟨_, hp, a, b, hq⟩ := h
  rw [frame_of_pending env s a b hq]
  have hr := loop_requests ({ s with sched := { s.sched with pending := [] } } : State K)
  have ha := loop_activeRef_of_pieces_nil
    ({ s with sched := { s.sched with pending := [] } } : State K) hp
  by_cases hc : 0 < s.confettiRequested
  · rw [sync_of_request env _ (by rw [hr.2.1]; exact hc)]
    simp only [hc, if_true, decide_True]
    exact ⟨rfl, rfl, by simp only [onReq]; rw [hr.1]⟩
  · have hc0 : s.confettiRequested = 0 := by omega
    rw [sync_of_no_request env _ (by rw [hr.2.1]; exact hc0)]
    simp only [hc, if_false, decide_False, add_zero]
    exact ⟨ha, by rw [hr.2.1]; exact hc0, hr.1⟩

theorem run_append (env : MathEnv K) (es fs : List (Event K)) (s : State K) :
    run env (es ++ fs) s = run env fs (run env es s) := by
  simp [run, List.foldl_append]

/-- The life of a piece after `k` runs of the `forEach` body. -/
theorem updatePiece_iterate_life (p : Piece K) (k : ℕ) :
    (updatePiece^[k] p).life = p.life - 0.018 * (k : K) := by
  induction k with
  | zero => simp
  | succ k ih =>
    rw [Function.iterate_succ_apply', updatePiece]
    simp only [ih]
    push_cast
    ring

/-- The decay length of `loop` taken alone: a piece of life `1` is still alive
after each of its first 55 updates and expired after the 56th. -/
theorem updatePiece_decay_length (p : Piece K) (h : p.life = 1) :
    (∀ k : ℕ, k ≤ 55 → 0 < (updatePiece^[k] p).life) ∧ (updatePiece^[56] p).life ≤ 0 := by
  constructor
  · intro k hk
    rw [updatePiece_iterate_life, h]
    have hk2 : (k : K) ≤ 55 := by exact_mod_cast hk
    have : (0.018 : K) * (k : K) ≤ 0.018 * 55 := by
      apply mul_le_mul_of_nonneg_left hk2
      norm_num
    have h2 : (0.018 : K) * 55 < 1 := by norm_num
    linarith
  · rw [updatePiece_iterate_life, h]
    norm_num

end Lemmas

section Claims
variable {K : Type} [LinearOrderedField K] [FloorRing K]

/-- C3 (the code at the failing input). In every state reached from `mount`,
after a trigger increment the engine is active with 24 spawned pieces of life
`1`, yet the first active run of `loop` already leaves it idle with an empty
live set, and so does the state two animation frames after the increment: the
engine is idle after one active frame, not after 56. -/
theorem burst_idle_after_first_active_frame (env : MathEnv K) (trigger : ℕ)
    (parentW parentH pixelRatio rectW rectH : K) (rng : ℕ) (es : List (Event K)) (value : ℕ) :
    (triggerEffect env (value + 1)
      (run env es (mount env trigger parentW parentH pixelRatio rectW rectH rng))).activeRef = true ∧
    (∀ p ∈ (triggerEffect env (value + 1)
      (run env es (mount env trigger parentW parentH pixelRatio rectW rectH rng))).bridgePieces,
        p.life = 1) ∧
    (loop (triggerEffect env (value + 1)
      (run env es (mount env trigger parentW parentH pixelRatio rectW rectH rng)))).activeRef = false ∧
    (loop (triggerEffect env (value + 1)
      (run env es (mount env trigger parentW parentH pixelRatio rectW rectH rng)))).pieces = [] ∧
    (run env (es ++ [Event.trigger (value + 1), Event.frame, Event.frame])
      (mount env trigger parentW parentH pixelRatio rectW rectH rng)).activeRef = false := by
  have hm := mounted_run env es _ (mounted_mount env trigger parentW parentH pixelRatio rectW rectH rng)
  rw [run_append]
  generalize run env es (mount env trigger parentW parentH pixelRatio rectW rectH rng) = s at hm
  have ht := triggerEffect_of_listening env value s hm.1
  have hm1 : Mounted (triggerEffect env (value + 1) s) := mounted_step env (Event.trigger (value + 1)) s hm
  have hf1 := frame_of_mounted env _ hm1
  have hm2 : Mounted (frame env (triggerEffect env (value + 1) s)) :=
    mounted_step env Event.frame _ hm1
  have hf2 := frame_of_mounted env _ hm2
  refine ⟨by rw [ht]; rfl, ?_, loop_activeRef_of_pieces_nil _ hm1.2.1, loop_pieces_nil _ hm1.2.1, ?_⟩
  · rw [ht]
    exact mk_life env s
  · show (frame env (frame env (triggerEffect env (value + 1) s))).activeRef = false
    rw [hf2.1, hf1.2.1]
    rfl

/-- C4 (the code at the failing input). In every state reached from `mount`,
handling a burst request spawns 24 pieces into the array of the bridge effect
while the array `loop` works on stays empty: the first active run of `loop`
after the request integrates and paints no piece (it only clears twice) and
leaves the engine idle. -/
theorem burst_pieces_not_wired (env : MathEnv K) (trigger : ℕ)
    (parentW parentH pixelRatio rectW rectH : K) (rng : ℕ) (es : List (Event K)) :
    (onReq env
      (run env es (mount env trigger parentW parentH pixelRatio rectW rectH rng))).bridgePieces.length
        = 24 ∧
    (onReq env
      (run env es (mount env trigger parentW parentH pixelRatio rectW rectH rng))).pieces = [] ∧
    (loop (onReq env
      (run env es (mount env trigger parentW parentH pixelRatio rectW rectH rng)))).pieces = [] ∧
    (loop (onReq env
      (run env es (mount env trigger parentW parentH pixelRatio rectW rectH rng)))).activeRef = false ∧
    (loop (onReq env
      (run env es (mount env trigger parentW parentH pixelRatio rectW rectH rng)))).calls =
      (run env es (mount env trigger parentW parentH pixelRatio rectW rectH rng)).calls ++
        [DrawOp.clearRect 0 0
          (((run env es (mount env trigger parentW parentH pixelRatio rectW rectH rng)).width : K) /
            orOne (run env es (mount env trigger parentW parentH pixelRatio rectW rectH rng)).pixelRatio)
          (((run env es (mount env trigger parentW parentH pixelRatio rectW rectH rng)).height : K) /
            orOne (run env es (mount env trigger parentW parentH pixelRatio rectW rectH rng)).pixelRatio),
         DrawOp.clearRect 0 0
          (((run env es (mount env trigger parentW parentH pixelRatio rectW rectH rng)).width : K) /
            orOne (run env es (mount env trigger parentW parentH pixelRatio rectW rectH rng)).pixelRatio)
          (((run env es (mount env trigger parentW parentH pixelRatio rectW rectH rng)).height : K) /
            orOne (run env es (mount env trigger parentW parentH pixelRatio rectW rectH rng)).pixelRatio)] := by
  have hm := mounted_run env es _ (mounted_mount env trigger parentW parentH pixelRatio rectW rectH rng)
  generalize run env es (mount env trigger parentW parentH pixelRatio rectW rectH rng) = s at hm
  have hp : (onReq env s).pieces = [] := hm.2.1
  refine ⟨mk_length env s, hp, loop_pieces_nil _ hp, loop_activeRef_of_pieces_nil _ hp, ?_⟩
  rw [loop_of_pieces_nil (onReq env s) rfl hp]
  rfl

/-- C5 (the code at the failing input). Mounting with the trigger at `0` runs
`onReq` zero times; in every state reached from there, one trigger increment
followed by one animation frame runs `onReq` twice: once for the dispatched
event and once more when `sync` finds `__confettiRequested` set. -/
theorem burst_request_handled_twice (env : MathEnv K)
    (parentW parentH pixelRatio rectW rectH : K) (rng : ℕ) (es : List (Event K)) (value : ℕ) :
    (mount env 0 parentW parentH pixelRatio rectW rectH rng).handled = 0 ∧
    (triggerEffect env (value + 1)
      (run env es (mount env 0 parentW parentH pixelRatio rectW rectH rng))).handled =
      (run env es (mount env 0 parentW parentH pixelRatio rectW rectH rng)).handled + 1 ∧
    (run env (es ++ [Event.trigger (value + 1), Event.frame])
      (mount env 0 parentW parentH pixelRatio rectW rectH rng)).handled =
      (run env es (mount env 0 parentW parentH pixelRatio rectW rectH rng)).handled + 2 := by
  have hm := mounted_run env es _ (mounted_mount env 0 parentW parentH pixelRatio rectW rectH rng)
  rw [run_append]
  generalize run env es (mount env 0 parentW parentH pixelRatio rectW rectH rng) = s at hm
  have ht := triggerEffect_of_listening env value s hm.1
  have hm1 : Mounted (triggerEffect env (value + 1) s) := mounted_step env (Event.trigger (value + 1)) s hm
  have hf1 := frame_of_mounted env _ hm1
  refine ⟨rfl, by rw [ht]; rfl, ?_⟩
  show (frame env (triggerEffect env (value + 1) s)).handled = s.handled + 2
  rw [hf1.2.2, ht]
  simp [onReq]

/-- C6. Idle to active: in every state reached from `mount` (idle ones
included), a trigger increment leaves `activeRef` true with a spawned set of
24 pieces, hence non-empty, as soon as the trigger effect has run, before the
next animation frame. -/
theorem idle_to_active (env : MathEnv K) (trigger : ℕ)
    (parentW parentH pixelRatio rectW rectH : K) (rng : ℕ) (es : List (Event K)) (value : ℕ) :
    (triggerEffect env (value + 1)
      (run env es (mount env trigger parentW parentH pixelRatio rectW rectH rng))).activeRef = true ∧
    (triggerEffect env (value + 1)
      (run env es (mount env trigger parentW parentH pixelRatio rectW rectH rng))).bridgePieces.length
        = 24 ∧
    (triggerEffect env (value + 1)
      (run env es (mount env trigger parentW parentH pixelRatio rectW rectH rng))).bridgePieces ≠ [] := by
  have hm := mounted_run env es _ (mounted_mount env trigger parentW parentH pixelRatio rectW rectH rng)
  generalize run env es (mount env trigger parentW parentH pixelRatio rectW rectH rng) = s at hm
  rw [triggerEffect_of_listening env value s hm.1]
  refine ⟨rfl, mk_length env s, ?_⟩
  intro h
  have hl := mk_length env s
  have h2 : mk env s = [] := h
  rw [h2] at hl
  simp at hl

/-- C7. Re-trigger replaces: in every state, `onReq` leaves `activeRef` and
`active` true and installs a set of exactly 24 pieces, all of life `1`; the
set is the same whatever the two piece arrays held before, and no earlier
piece whose life has moved away from `1` is in it. -/
theorem retrigger_replaces (env : MathEnv K) (s : State K) :
    (onReq env s).activeRef = true ∧ (onReq env s).active = true ∧
    (onReq env s).bridgePieces.length = 24 ∧
    (∀ p ∈ (onReq env s).bridgePieces, p.life = 1) ∧
    (∀ old old2 : List (Piece K),
      (onReq env { s with bridgePieces := old, pieces := old2 }).bridgePieces =
        (onReq env s).bridgePieces) ∧
    (∀ q : Piece K, q ∈ s.bridgePieces ∨ q ∈ s.pieces → q.life ≠ 1 →
      q ∉ (onReq env s).bridgePieces) := by
  refine ⟨rfl, rfl, mk_length env s, mk_life env s, fun _ _ => rfl, ?_⟩
  intro q _ hq hmem
  exact hq (mk_life env s q hmem)

/-- C8. Idle is a no-op: while `activeRef` is false, `loop` only re-arms itself:
no painting or clearing call, the piece arrays and the flag unchanged, the next
callback pending; and `sync` with no pending request only re-arms itself too. -/
theorem idle_frame_is_noop (env : MathEnv K) (s : State K) (hidle : s.activeRef = false) :
    loop s =
      { s with
        raf := s.sched.seq + 1
        sched := { seq := s.sched.seq + 1
                   pending := s.sched.pending ++ [(s.sched.seq + 1, Callback.loop)] } } ∧
    (loop s).calls = s.calls ∧ (loop s).pieces = s.pieces ∧
    (loop s).bridgePieces = s.bridgePieces ∧ (loop s).activeRef = false ∧
    (s.sched.seq + 1, Callback.loop) ∈ (loop s).sched.pending ∧
    (s.confettiRequested = 0 →
      sync env s =
        { s with
          sched := { seq := s.sched.seq + 1
                     pending := s.sched.pending ++ [(s.sched.seq + 1, Callback.sync)] } }) := by
  rw [loop_of_idle s hidle]
  refine ⟨rfl, rfl, rfl, rfl, hidle, by simp, ?_⟩
  intro h0
  rw [sync_of_no_request env s h0]
  rfl

end Claims

/-- Witness of C7 at the sample state with a piece of life `1 / 2` in flight. -/
theorem retrigger_replaces_witness :
    (demoPiece ∈ demoInFlight.bridgePieces ∨ demoPiece ∈ demoInFlight.pieces) ∧
    demoPiece.life ≠ 1 ∧
    (onReq demoEnv demoInFlight).bridgePieces.length = 24 ∧
    demoPiece ∉ (onReq demoEnv demoInFlight).bridgePieces :=
  ⟨Or.inl (List.mem_singleton.mpr rfl), by simp only [demoPiece]; norm_num,
   (retrigger_replaces demoEnv demoInFlight).2.2.1,
   (retrigger_replaces demoEnv demoInFlight).2.2.2.2.2 demoPiece
     (Or.inl (List.mem_singleton.mpr rfl)) (by simp only [demoPiece]; norm_num)⟩

/-- Witness of C8 at the sample mounted overlay, which is idle with no request pending. -/
theorem idle_frame_is_noop_witness :
    demoMounted.activeRef = false ∧ demoMounted.confettiRequested = 0 ∧
    (loop demoMounted).calls = demoMounted.calls ∧
    (loop demoMounted).pieces = demoMounted.pieces ∧
    (sync demoEnv demoMounted).calls = demoMounted.calls :=
  ⟨rfl, rfl, (idle_frame_is_noop demoEnv demoMounted rfl).2.1,
   (idle_frame_is_noop demoEnv demoMounted rfl).2.2.1,
   by rw [(idle_frame_is_noop demoEnv demoMounted rfl).2.2.2.2.2.2 rfl]⟩

end ConfettiBurst

end Aurora

/-! ## The pointer tracker: claims C11 and C12 -/

namespace Aurora

section ClampLemmas
variable {K : Type} [LinearOrderedField K] [FloorRing K]

theorem clamp_mem (v : K) : 0 ≤ clamp v 0 1 ∧ clamp v 0 1 ≤ 1 := by
  unfold clamp
  exact ⟨le_max_left _ _, max_le zero_le_one (min_le_left _ _)⟩

theorem clamp_of_le (v : K) (h : v ≤ 0) : clamp v 0 1 = 0 := by
  unfold clamp
  exact max_eq_left (le_trans (min_le_right _ _) h)

theorem clamp_of_ge (v : K) (h : 1 ≤ v) : clamp v 0 1 = 1 := by
  unfold clamp
  rw [min_eq_left h]
  exact max_eq_right zero_le_one

theorem clamp_of_mem (v : K) (h0 : 0 ≤ v) (h1 : v ≤ 1) : clamp v 0 1 = v := by
  unfold clamp
  rw [min_eq_right h1]
  exact max_eq_right h0

end ClampLemmas

namespace ParticleField

section PointerClaims
variable {K : Type} [LinearOrderedField K] [FloorRing K]

/-- C11. Pointer normalisation: for a bounding box of positive width and height
and any client coordinates, the position the pointer-move handler stores is
`clamp((clientX - left) / width, 0, 1)` and `clamp((clientY - top) / height, 0, 1)`,
both in `[0, 1]`; a pointer left of or above the box is stored as `0`, one
right of or below it as `1`, one inside as its fraction of the box. -/
theorem pointer_normalised (rect : Rect K) (clientX clientY : K) (c : Cursor K) (run : ℕ)
    (s : State K) (hw : 0 < rect.width) (hh : 0 < rect.height) :
    (onPointerMoveFn rect clientX clientY c).x = clamp ((clientX - rect.left) / rect.width) 0 1 ∧
    (onPointerMoveFn rect clientX clientY c).y = clamp ((clientY - rect.top) / rect.height) 0 1 ∧
    (0 ≤ (onPointerMoveFn rect clientX clientY c).x ∧ (onPointerMoveFn rect clientX clientY c).x ≤ 1) ∧
    (0 ≤ (onPointerMoveFn rect clientX clientY c).y ∧ (onPointerMoveFn rect clientX clientY c).y ≤ 1) ∧
    (clientX ≤ rect.left → (onPointerMoveFn rect clientX clientY c).x = 0) ∧
    (rect.left + rect.width ≤ clientX → (onPointerMoveFn rect clientX clientY c).x = 1) ∧
    (clientY ≤ rect.top → (onPointerMoveFn rect clientX clientY c).y = 0) ∧
    (rect.top + rect.height ≤ clientY → (onPointerMoveFn rect clientX clientY c).y = 1) ∧
    (rect.left ≤ clientX → clientX ≤ rect.left + rect.width →
      (onPointerMoveFn rect clientX clientY c).x * rect.width = clientX - rect.left) ∧
    (rect.top ≤ clientY → clientY ≤ rect.top + rect.height →
      (onPointerMoveFn rect clientX clientY c).y * rect.height = clientY - rect.top) ∧
    (pointerFrame run clientX clientY s).cursor =
      onPointerMoveFn s.wrapRect clientX clientY s.cursor := by
  refine ⟨rfl, rfl, clamp_mem _, clamp_mem _, ?_, ?_, ?_, ?_, ?_, ?_, rfl⟩
  · intro h
    exact clamp_of_le _ (div_nonpos_of_nonpos_of_nonneg (by linarith) hw.le)
  · intro h
    exact clamp_of_ge _ ((one_le_div hw).mpr (by linarith))
  · intro h
    exact clamp_of_le _ (div_nonpos_of_nonpos_of_nonneg (by linarith) hh.le)
  · intro h
    exact clamp_of_ge _ ((one_le_div hh).mpr (by linarith))
  · intro h1 h2
    show clamp ((clientX - rect.left) / rect.width) 0 1 * rect.width = _
    rw [clamp_of_mem _ (div_nonneg (by linarith) hw.le) ((div_le_one hw).mpr (by linarith))]
    exact div_mul_cancel₀ _ hw.ne'
  · intro h1 h2
    show clamp ((clientY - rect.top) / rect.height) 0 1 * rect.height = _
    rw [clamp_of_mem _ (div_nonneg (by linarith) hh.le) ((div_le_one hh).mpr (by linarith))]
    exact div_mul_cancel₀ _ hh.ne'

/-- C12. Pointer velocity: for a bounding box of positive width and height, the
pointer-move handler stores as velocity the new normalised position minus the
position stored before, and the new position as position; the pressed flag is
untouched; when the previous position is in `[0, 1]` on an axis, the velocity
on that axis is at most `1` in absolute value. -/
theorem pointer_velocity (rect : Rect K) (clientX clientY : K) (c : Cursor K)
    (_hw : 0 < rect.width) (_hh : 0 < rect.height) :
    (onPointerMoveFn rect clientX clientY c).vx =
      clamp ((clientX - rect.left) / rect.width) 0 1 - c.x ∧
    (onPointerMoveFn rect clientX clientY c).vy =
      clamp ((clientY - rect.top) / rect.height) 0 1 - c.y ∧
    (onPointerMoveFn rect clientX clientY c).x = clamp ((clientX - rect.left) / rect.width) 0 1 ∧
    (onPointerMoveFn rect clientX clientY c).y = clamp ((clientY - rect.top) / rect.height) 0 1 ∧
    (onPointerMoveFn rect clientX clientY c).down = c.down ∧
    (0 ≤ c.x → c.x ≤ 1 → |(onPointerMoveFn rect clientX clientY c).vx| ≤ 1) ∧
    (0 ≤ c.y → c.y ≤ 1 → |(onPointerMoveFn rect clientX clientY c).vy| ≤ 1) := by
  refine ⟨rfl, rfl, rfl, rfl, rfl, ?_, ?_⟩
  · intro h0 h1
    have hc := clamp_mem ((clientX - rect.left) / rect.width)
    show |clamp ((clientX - rect.left) / rect.width) 0 1 - c.x| ≤ 1
    rw [abs_le]
    constructor <;> linarith [hc.1, hc.2]
  · intro h0 h1
    have hc := clamp_mem ((clientY - rect.top) / rect.height)
    show |clamp ((clientY - rect.top) / rect.height) 0 1 - c.y| ≤ 1
    rw [abs_le]
    constructor <;> linarith [hc.1, hc.2]

end PointerClaims

theorem demoRect_pos : 0 < demoRect.width ∧ 0 < demoRect.height := by
  simp only [demoRect]
  norm_num

/-- Witness of C11 on the sample box: a pointer right of the box, a quarter of
the way down, is stored as `(1, 1/4)`. -/
theorem pointer_normalised_witness :
    0 < demoRect.width ∧ 0 < demoRect.height ∧
    (onPointerMoveFn demoRect 800 90 demoCursor).x = 1 ∧
    (onPointerMoveFn demoRect 800 90 demoCursor).y * demoRect.height = 90 - demoRect.top :=
  ⟨demoRect_pos.1, demoRect_pos.2,
   (pointer_normalised demoRect 800 90 demoCursor 0 demoState demoRect_pos.1
      demoRect_pos.2).2.2.2.2.2.1 (by simp only [demoRect]; norm_num),
   (pointer_normalised demoRect 800 90 demoCursor 0 demoState demoRect_pos.1
      demoRect_pos.2).2.2.2.2.2.2.2.2.2.1 (by simp only [demoRect]; norm_num)
      (by simp only [demoRect]; norm_num)⟩

/-- Witness of C12 on the sample box and the sample cursor at `(1/2, 1/2)`. -/
theorem pointer_velocity_witness :
    0 < demoRect.width ∧ 0 < demoRect.height ∧
    (0 ≤ demoCursor.x ∧ demoCursor.x ≤ 1) ∧
    (onPointerMoveFn demoRect 800 90 demoCursor).vx =
      clamp ((800 - demoRect.left) / demoRect.width) 0 1 - demoCursor.x ∧
    |(onPointerMoveFn demoRect 800 90 demoCursor).vx| ≤ 1 :=
  ⟨demoRect_pos.1, demoRect_pos.2, by simp only [demoCursor]; norm_num,
   (pointer_velocity demoRect 800 90 demoCursor demoRect_pos.1 demoRect_pos.2).1,
   (pointer_velocity demoRect 800 90 demoCursor demoRect_pos.1 demoRect_pos.2).2.2.2.2.2.1
      (by simp only [demoCursor]; norm_num) (by simp only [demoCursor]; norm_num)⟩

end ParticleField

end Aurora

/-! ## The throttle: claims C13 and C14 -/

namespace Aurora

namespace RafThrottle

section Lemmas
variable {α σ : Type}

theorem call_of_idle (args : α) (w : World α σ) (h : w.raf = 0) :
    call args w =
      { w with
        raf := w.sched.seq + 1
        sched := { seq := w.sched.seq + 1, pending := w.sched.pending ++ [(w.sched.seq + 1, args)] } } := by
  simp [call, rafThrottle, h, Scheduler.request]

theorem call_of_armed (args : α) (w : World α σ) (h : w.raf ≠ 0) : call args w = w := by
  simp [call, rafThrottle, h]

theorem frame_of_nil (fn : α → σ → σ) (w : World α σ) (h : w.sched.pending = []) :
    frame fn w = w := by
  unfold frame
  rw [h]
  cases w with
  | mk raf sched target runs =>
    cases sched with
    | mk seq pending =>
      simp only at h
      subst h
      rfl

theorem frame_of_single (fn : α → σ → σ) (w : World α σ) (hd : ℕ) (args : α)
    (h : w.sched.pending = [(hd, args)]) :
    frame fn w =
      { w with
        raf := 0
        sched := { w.sched with pending := [] }
        target := fn args w.target
        runs := w.runs + 1 } := by
  unfold frame
  rw [h]
  rfl

theorem quiet_initial (target : σ) : Quiet (initial target : World α σ) :=
  Or.inl ⟨rfl, rfl⟩

theorem quiet_call (args : α) (w : World α σ) (h : Quiet w) : Quiet (call args w) := by
  rcases h with ⟨h0, hp⟩ | ⟨h1, _, hp⟩
  · rw [call_of_idle args w h0]
    right
    refine ⟨Nat.succ_ne_zero _, args, ?_⟩
    simp [hp]
  · rw [call_of_armed args w h1]
    exact Or.inr ⟨h1, _, hp⟩

/-- After an animation frame nothing is pending and `raf` is `0`. -/
theorem frame_idle (fn : α → σ → σ) (w : World α σ) (h : Quiet w) :
    (frame fn w).raf = 0 ∧ (frame fn w).sched.pending = [] := by
  rcases h with ⟨h0, hp⟩ | ⟨_, args, hp⟩
  · rw [frame_of_nil fn w hp]
    exact ⟨h0, hp⟩
  · rw [frame_of_single fn w _ args hp]
    exact ⟨rfl, rfl⟩

theorem quiet_step (fn : α → σ → σ) (e : Event α) (w : World α σ) (h : Quiet w) :
    Quiet (step fn e w) := by
  cases e with
  | call args => exact quiet_call args w h
  | frame => exact Or.inl (frame_idle fn w h)

theorem quiet_run (fn : α → σ → σ) (es : List (Event α)) (w : World α σ) (h : Quiet w) :
    Quiet (run fn es w) :=
  foldl_invariant Quiet _ (fun a e ha => quiet_step fn e a ha) es w h

theorem frame_runs (fn : α → σ → σ) (w : World α σ) (h : Quiet w) :
    (frame fn w).runs ≤ w.runs + 1 := by
  rcases h with ⟨_, hp⟩ | ⟨_, args, hp⟩
  · rw [frame_of_nil fn w hp]
    exact Nat.le_succ _
  · rw [frame_of_single fn w _ args hp]

theorem call_runs (args : α) (w : World α σ) : (call args w).runs = w.runs := rfl

theorem run_calls_runs (fn : α → σ → σ) (cs : List α) (w : World α σ) :
    (run fn (cs.map Event.call) w).runs = w.runs := by
  induction cs generalizing w with
  | nil => rfl
  | cons c cs ih =>
    show (run fn (cs.map Event.call) (call c w)).runs = w.runs
    rw [ih]
    rfl

/-- Calls that arrive while a callback is pending change nothing. -/
theorem run_calls_of_armed (fn : α → σ → σ) (cs : List α) (w : World α σ) (h : w.raf ≠ 0) :
    run fn (cs.map Event.call) w = w := by
  induction cs with
  | nil => rfl
  | cons c cs ih =>
    show run fn (cs.map Event.call) (call c w) = w
    rw [call_of_armed c w h]
    exact ih

/-- C13. Rate limit: in every state a throttled function reaches from its
creation by calls and animation frames, at most one callback is pending; an
animation frame runs the wrapped function at most once, however many calls
came before it; and after a frame nothing is pending, `raf` is `0`, and the
next call schedules exactly one callback again. -/
theorem throttle_rate_limit (fn : α → σ → σ) (target : σ) (es : List (Event α))
    (cs : List α) (args : α) :
    (run fn es (initial target)).sched.pending.length ≤ 1 ∧
    (frame fn (run fn (cs.map Event.call) (run fn es (initial target)))).runs ≤
      (run fn es (initial target)).runs + 1 ∧
    (frame fn (run fn es (initial target))).raf = 0 ∧
    (frame fn (run fn es (initial target))).sched.pending = [] ∧
    (call args (frame fn (run fn es (initial target)))).sched.pending =
      [((frame fn (run fn es (initial target))).sched.seq + 1, args)] ∧
    (call args (frame fn (run fn es (initial target)))).raf =
      (frame fn (run fn es (initial target))).sched.seq + 1 := by
  have hq := quiet_run fn es (initial target) (quiet_initial target)
  have hq2 := quiet_run fn (cs.map Event.call) _ hq
  have hf := frame_idle fn _ hq
  refine ⟨?_, ?_, hf.1, hf.2, ?_, ?_⟩
  · rcases hq with ⟨_, hp⟩ | ⟨_, _, hp⟩ <;> rw [hp] <;> simp
  · have h1 := frame_runs fn _ hq2
    rw [run_calls_runs] at h1
    exact h1
  · rw [call_of_idle args _ hf.1]
    simp [hf.2]
  · rw [call_of_idle args _ hf.1]

/-- C14 (amended). Coalescing keeps the first event: when nothing is pending
(as after every animation frame, and at creation), a non-empty sequence of
calls followed by an animation frame runs the wrapped function exactly once,
with the arguments of the first call of the sequence; the later calls are
dropped. -/
theorem throttle_applies_first (fn : α → σ → σ) (w : World α σ) (a : α) (rest : List α)
    (es : List (Event α)) (target : σ)
    (h0 : w.raf = 0) (hp : w.sched.pending = []) :
    (frame fn (run fn ((a :: rest).map Event.call) w)).target = fn a w.target ∧
    (frame fn (run fn ((a :: rest).map Event.call) w)).runs = w.runs + 1 ∧
    (frame fn (run fn es (initial target))).raf = 0 ∧
    (frame fn (run fn es (initial target))).sched.pending = [] := by
  have hf := frame_idle fn _ (quiet_run fn es (initial target) (quiet_initial target))
  have hc : run fn ((a :: rest).map Event.call) w = call a w := by
    show run fn (rest.map Event.call) (call a w) = call a w
    apply run_calls_of_armed
    rw [call_of_idle a w h0]
    exact Nat.succ_ne_zero _
  rw [hc, call_of_idle a w h0]
  have hs : frame fn
      ({ w with
        raf := w.sched.seq + 1
        sched := { seq := w.sched.seq + 1, pending := w.sched.pending ++ [(w.sched.seq + 1, a)] } } :
        World α σ) = _ :=
    frame_of_single fn _ (w.sched.seq + 1) a (by simp [hp])
  rw [hs]
  exact ⟨rfl, rfl, hf.1, hf.2⟩

end Lemmas

end RafThrottle

end Aurora

/-! ## Event listeners: claim C16 -/

namespace Aurora

namespace Listeners

theorem add_of_not_mem (l : Listener) (r : List Listener) (h : l ∉ r) :
    addEventListener l r = r ++ [l] := by
  simp [addEventListener, h]

theorem remove_append_self (l : Listener) (r : List Listener) (h : l ∉ r) :
    removeEventListener l (r ++ [l]) = r := by
  unfold removeEventListener
  rw [List.filter_append]
  have h1 : r.filter (fun m => decide (m ≠ l)) = r := by
    rw [List.filter_eq_self]
    intro a ha
    simp only [ne_eq, decide_not, Bool.not_eq_true', decide_eq_false_iff_not]
    intro hal
    exact h (hal ▸ ha)
  rw [h1]
  simp

theorem not_mem_of_fresh {n : ℕ} {r : List Listener} (h : Fresh n r)
    (t : Target) (k : EventType) (f : Handler) : (⟨t, k, f, n⟩ : Listener) ∉ r := by
  intro hm
  have := h _ hm
  simp at this

theorem remove_of_fresh {n : ℕ} {r : List Listener} (h : Fresh n r)
    (t : Target) (k : EventType) (f : Handler) :
    removeEventListener ⟨t, k, f, n⟩ r = r := by
  unfold removeEventListener
  rw [List.filter_eq_self]
  intro a ha
  simp only [ne_eq, decide_not, Bool.not_eq_true', decide_eq_false_iff_not]
  intro hal
  have := h a ha
  rw [hal] at this
  simp at this

theorem remove_append (l : Listener) (r q : List Listener) :
    removeEventListener l (r ++ q) = removeEventListener l r ++ removeEventListener l q := by
  simp [removeEventListener, List.filter_append]

theorem mem_add {l a : Listener} {r : List Listener} (h : l ∈ addEventListener a r) :
    l ∈ r ∨ l = a := by
  unfold addEventListener at h
  split_ifs at h
  · exact Or.inl h
  · rcases List.mem_append.mp h with h | h
    · exact Or.inl h
    · exact Or.inr (List.mem_singleton.mp h)

/-- The cleanup of a run removes what the run added, on a registry with no
listener of that run. -/
theorem cleanup_effect (c : Component) (n : ℕ) (r : List Listener) (h : Fresh n r) :
    cleanup c n (effect c n r) = r := by
  have hn := not_mem_of_fresh h
  have hr := remove_of_fresh h
  cases c with
  | particleField =>
    have h1 : addEventListener ⟨Target.wrap, EventType.pointermove, Handler.onPointerMove, n⟩ r =
        r ++ [⟨Target.wrap, EventType.pointermove, Handler.onPointerMove, n⟩] :=
      add_of_not_mem _ _ (hn _ _ _)
    have h2 : addEventListener ⟨Target.wrap, EventType.pointerdown, Handler.onPointerDown, n⟩
        (r ++ [⟨Target.wrap, EventType.pointermove, Handler.onPointerMove, n⟩]) =
        r ++ [⟨Target.wrap, EventType.pointermove, Handler.onPointerMove, n⟩] ++
          [⟨Target.wrap, EventType.pointerdown, Handler.onPointerDown, n⟩] :=
      add_of_not_mem _ _ (by simp [hn])
    have h3 : addEventListener ⟨Target.window, EventType.pointerup, Handler.onPointerUp, n⟩
        (r ++ [⟨Target.wrap, EventType.pointermove, Handler.onPointerMove, n⟩] ++
          [⟨Target.wrap, EventType.pointerdown, Handler.onPointerDown, n⟩]) =
        r ++ [⟨Target.wrap, EventType.pointermove, Handler.onPointerMove, n⟩] ++
          [⟨Target.wrap, EventType.pointerdown, Handler.onPointerDown, n⟩] ++
          [⟨Target.window, EventType.pointerup, Handler.onPointerUp, n⟩] :=
      add_of_not_mem _ _ (by simp [hn])
    have h4 : addEventListener ⟨Target.document, EventType.visibilitychange, Handler.onVis, n⟩
        (r ++ [⟨Target.wrap, EventType.pointermove, Handler.onPointerMove, n⟩] ++
          [⟨Target.wrap, EventType.pointerdown, Handler.onPointerDown, n⟩] ++
          [⟨Target.window, EventType.pointerup, Handler.onPointerUp, n⟩]) =
        r ++ [⟨Target.wrap, EventType.pointermove, Handler.onPointerMove, n⟩] ++
          [⟨Target.wrap, EventType.pointerdown, Handler.onPointerDown, n⟩] ++
          [⟨Target.window, EventType.pointerup, Handler.onPointerUp, n⟩] ++
          [⟨Target.document, EventType.visibilitychange, Handler.onVis, n⟩] :=
      add_of_not_mem _ _ (by simp [hn])
    simp only [effect, cleanup, h1, h2, h3, h4, remove_append, hr]
    simp [removeEventListener]
  | confettiBurst =>
    simp only [effect, cleanup]
    rw [add_of_not_mem _ _ (hn _ _ _)]
    exact remove_append_self _ _ (hn _ _ _)
  | horizontalJourney =>
    simp only [effect, cleanup]
    rw [add_of_not_mem _ _ (hn _ _ _)]
    exact remove_append_self _ _ (hn _ _ _)
  | holoSpeakerCard =>
    have h1 : addEventListener ⟨Target.card, EventType.pointermove, Handler.onMove, n⟩ r =
        r ++ [⟨Target.card, EventType.pointermove, Handler.onMove, n⟩] :=
      add_of_not_mem _ _ (hn _ _ _)
    have h2 : addEventListener ⟨Target.card, EventType.pointerleave, Handler.onLeave, n⟩
        (r ++ [⟨Target.card, EventType.pointermove, Handler.onMove, n⟩]) =
        r ++ [⟨Target.card, EventType.pointermove, Handler.onMove, n⟩] ++
          [⟨Target.card, EventType.pointerleave, Handler.onLeave, n⟩] :=
      add_of_not_mem _ _ (by simp [hn])
    simp only [effect, cleanup, h1, h2, remove_append, hr]
    simp [removeEventListener]

/-- An effect run adds listeners of that run only. -/
theorem effect_mem (c : Component) (n : ℕ) (r : List Listener) :
    ∀ l ∈ effect c n r, l ∈ r ∨ l.run = n := by
  intro l hl
  cases c with
  | particleField =>
    simp only [effect] at hl
    rcases mem_add hl with hl | rfl
    · rcases mem_add hl with hl | rfl
      · rcases mem_add hl with hl | rfl
        · rcases mem_add hl with hl | rfl
          · exact Or.inl hl
          · exact Or.inr rfl
        · exact Or.inr rfl
      · exact Or.inr rfl
    · exact Or.inr rfl
  | confettiBurst =>
    simp only [effect] at hl
    rcases mem_add hl with hl | rfl
    · exact Or.inl hl
    · exact Or.inr rfl
  | horizontalJourney =>
    simp only [effect] at hl
    rcases mem_add hl with hl | rfl
    · exact Or.inl hl
    · exact Or.inr rfl
  | holoSpeakerCard =>
    simp only [effect] at hl
    rcases mem_add hl with hl | rfl
    · rcases mem_add hl with hl | rfl
      · exact Or.inl hl
      · exact Or.inr rfl
    · exact Or.inr rfl

theorem cycles_fresh (c : Component) (k : ℕ) :
    ∀ (n : ℕ) (r : List Listener), Fresh n r → cycles c k n r = r := by
  induction k with
  | zero => intro n r _; rfl
  | succ k ih =>
    intro n r h
    simp only [cycles]
    rw [cleanup_effect c n r h]
    exact ih (n + 1) r (fun l hl => Nat.lt_succ_of_lt (h l hl))

/-- C16. Listener balance: for each of `ParticleField`, `ConfettiBurst`,
`HorizontalJourney` and `HoloSpeakerCard`, on a registry that holds no listener
made by the coming effect runs (closures are new at every run), the cleanup of
an effect run removes exactly the (target, type, handler) listeners the run
added and leaves the registry as it was before the run; so after any number of
mount and cleanup cycles the registry equals the one before the first mount. -/
theorem listener_balance (c : Component) (n k : ℕ) (r : List Listener)
    (h : ∀ l ∈ r, l.run < n) :
    cleanup c n (effect c n r) = r ∧ cycles c k n r = r ∧
    (∀ l ∈ effect c n r, l ∈ r ∨ l.run = n) :=
  ⟨cleanup_effect c n r h, cycles_fresh c k n r h, effect_mem c n r⟩

/-- Witness of C16: three cycles of `ParticleField` on the sample registry. -/
theorem listener_balance_witness :
    (∀ l ∈ demoRegistry, l.run < 3) ∧
    cleanup Component.particleField 3 (effect Component.particleField 3 demoRegistry) =
      demoRegistry ∧
    cycles Component.particleField 3 3 demoRegistry = demoRegistry :=
  ⟨by decide,
   (listener_balance Component.particleField 3 3 demoRegistry (by decide)).1,
   (listener_balance Component.particleField 3 3 demoRegistry (by decide)).2.1⟩

end Listeners

end Aurora

/-! ## The particle field: buffer size and scheduler, claims C17 to C19 -/

namespace Aurora

namespace ParticleField

section ResizeClaims
variable {K : Type} [LinearOrderedField K] [FloorRing K]

/-- With a zero buffer dimension `loop` never reaches the painting pass. -/
theorem loop_of_zero_area (env : MathEnv K) (intensity now : K) (s : State K)
    (hz : s.width = 0 ∨ s.height = 0) :
    loop env intensity now s = requestLoop s ∨
      loop env intensity now s = { requestLoop s with last := now } := by
  rcases loop_cases env intensity now s with ⟨_, h⟩ | ⟨_, _, h⟩ | ⟨_, hn, _⟩
  · exact Or.inl h
  · exact Or.inr h
  · exact absurd hz hn

/-- C17. Zero-area frame: a frame callback `loop` that finds `canvas.width` or
`canvas.height` equal to `0` returns a state (it is a total function, nothing
is raised), issues no painting call, leaves the phase `t` as it was and moves
no particle; the random stream and the cursor are untouched as well. -/
theorem zero_area_frame (env : MathEnv K) (intensity now : K) (s : State K)
    (hz : s.width = 0 ∨ s.height = 0) :
    (loop env intensity now s).calls = s.calls ∧
    (loop env intensity now s).t = s.t ∧
    (loop env intensity now s).particles = s.particles ∧
    (loop env intensity now s).rng = s.rng ∧
    (loop env intensity now s).cursor = s.cursor := by
  rcases loop_of_zero_area env intensity now s hz with h | h <;> rw [h] <;>
    exact ⟨rfl, rfl, rfl, rfl, rfl⟩

theorem resize_width_pos (rectW rectH ratio : K) (s : State K) :
    1 ≤ (resize rectW rectH ratio s).width ∧ 1 ≤ (resize rectW rectH ratio s).height :=
  ⟨le_max_left _ _, le_max_left _ _⟩

theorem drawStreak_calls (env : MathEnv K) (intensity w h : K) (s : State K) :
    s.calls.length ≤ (drawStreak env intensity w h s).calls.length := by
  unfold drawStreak
  split_ifs <;> simp

/-- A frame callback that passes the visibility, frame-rate and size checks paints. -/
theorem loop_paints (env : MathEnv K) (intensity now : K) (s : State K)
    (hv : s.hidden = false) (hd : ¬ now - s.last < frameMs)
    (hw : 1 ≤ s.width) (hh : 1 ≤ s.height) :
    s.calls.length + 6 ≤ (loop env intensity now s).calls.length ∧
    (loop env intensity now s).t = s.t + 0.008 := by
  rcases loop_cases env intensity now s with ⟨h1, _⟩ | ⟨_, hz, _⟩ | ⟨_, _, h⟩
  · rcases h1 with h1 | h1
    · rw [hv] at h1; exact absurd h1 (by decide)
    · exact absurd h1 hd
  · omega
  · rw [h]
    constructor
    · refine le_trans ?_ (drawStreak_calls env intensity _ _ _)
      simp [drawAuroraBand, requestLoop]
      omega
    · simp [drawParticles, drawStreak_last, drawAuroraBand, requestLoop]

/-- C18 (amended). Resize to `(0, 0)`: for a layout box of width `0` and height
`0`, `resize` returns a state (nothing is raised) whose buffer is `1 × 1`, not
empty; so the zero-area check of `loop` does not hold back the following
frames: a frame callback that passes the visibility and frame-rate checks
paints (at least six calls) into the `1 × 1` buffer and advances the phase. -/
theorem resize_to_zero (env : MathEnv K) (intensity ratio now : K) (s : State K)
    (hv : s.hidden = false) (hd : ¬ now - s.last < 1000 / 30) :
    (resize 0 0 ratio s).width = 1 ∧ (resize 0 0 ratio s).height = 1 ∧
    (resize 0 0 ratio s).calls = s.calls ∧
    (resize 0 0 ratio s).calls.length + 6 ≤
      (loop env intensity now (resize 0 0 ratio s)).calls.length ∧
    (loop env intensity now (resize 0 0 ratio s)).t = s.t + 0.008 := by
  have hw : (resize 0 0 ratio s).width = 1 := by simp [resize]
  have hh : (resize 0 0 ratio s).height = 1 := by simp [resize]
  have hp := loop_paints env intensity now (resize 0 0 ratio s) hv hd (by omega) (by omega)
  exact ⟨hw, hh, rfl, hp.1, hp.2⟩

/-- C19. Resize is idempotent and frames particle state: running `resize` twice
with the same layout box and pixel ratio gives the same state, in particular the
same buffer width and height, as running it once; and `resize` changes no
particle and no field of the cursor. -/
theorem resize_idempotent (rectW rectH ratio : K) (s : State K) :
    resize rectW rectH ratio (resize rectW rectH ratio s) = resize rectW rectH ratio s ∧
    (resize rectW rectH ratio (resize rectW rectH ratio s)).width =
      (resize rectW rectH ratio s).width ∧
    (resize rectW rectH ratio (resize rectW rectH ratio s)).height =
      (resize rectW rectH ratio s).height ∧
    (resize rectW rectH ratio s).particles = s.particles ∧
    (resize rectW rectH ratio s).cursor = s.cursor :=
  ⟨rfl, rfl, rfl, rfl, rfl⟩

end ResizeClaims

/-- Witness of C17 at the sample state with `canvas.width = 0`. -/
theorem zero_area_frame_witness :
    (demoZeroArea.width = 0 ∨ demoZeroArea.height = 0) ∧
    (loop demoEnv 1 40 demoZeroArea).calls = demoZeroArea.calls ∧
    (loop demoEnv 1 40 demoZeroArea).t = demoZeroArea.t ∧
    (loop demoEnv 1 40 demoZeroArea).particles = demoZeroArea.particles :=
  ⟨Or.inl rfl, (zero_area_frame demoEnv 1 40 demoZeroArea (Or.inl rfl)).1,
   (zero_area_frame demoEnv 1 40 demoZeroArea (Or.inl rfl)).2.1,
   (zero_area_frame demoEnv 1 40 demoZeroArea (Or.inl rfl)).2.2.1⟩

/-- Witness of C18 (amended) at the sample state, 40 ms after `last`. -/
theorem resize_to_zero_witness :
    demoState.hidden = false ∧ ¬ (40 : ℚ) - demoState.last < 1000 / 30 ∧
    (resize 0 0 1 demoState).width = 1 ∧
    (resize 0 0 1 demoState).calls.length + 6 ≤
      (loop demoEnv 1 40 (resize 0 0 1 demoState)).calls.length :=
  ⟨rfl, by simp only [demoState]; norm_num,
   (resize_to_zero demoEnv 1 1 40 demoState rfl (by simp only [demoState]; norm_num)).1,
   (resize_to_zero demoEnv 1 1 40 demoState rfl (by simp only [demoState]; norm_num)).2.2.2.1⟩

/-- C18 as stated fails: after a resize to `(0, 0)` the next due frame paints. -/
theorem resize_to_zero_still_paints :
    (resize 0 0 1 demoState).calls = [] ∧
    (step demoEnv 1 (Event.frame 40) (resize 0 0 1 demoState)).calls ≠ [] ∧
    (step demoEnv 1 (Event.frame 40) (resize 0 0 1 demoState)).calls.head? =
      some (DrawOp.fillRect Composite.sourceOver 0 0 1 1) := by
  have hstep : step demoEnv 1 (Event.frame 40) (resize 0 0 1 demoState) =
      loop demoEnv 1 40
        { resize 0 0 1 demoState with sched := { seq := 1, pending := [] } } := rfl
  have hd : ¬ (40 : ℚ) - 0 < frameMs := by
    unfold frameMs FPS
    norm_num
  have hp := loop_paints demoEnv 1 40
    { resize 0 0 1 demoState with sched := { seq := 1, pending := [] } } rfl hd
    (by simp [resize]) (by simp [resize])
  refine ⟨rfl, ?_, ?_⟩
  · rw [hstep]
    intro h
    rw [h] at hp
    have := hp.1
    simp at this
  · rw [hstep]
    rcases loop_cases demoEnv 1 40
      { resize 0 0 1 demoState with sched := { seq := 1, pending := [] } } with
      ⟨h1, _⟩ | ⟨_, hz, _⟩ | ⟨_, _, h⟩
    · rcases h1 with h1 | h1
      · exact absurd h1 (by decide)
      · exact absurd h1 hd
    · simp [resize] at hz
    · rw [h]
      simp [drawParticles, drawStreak, drawAuroraBand, requestLoop, resize, demoState, demoEnv]
      norm_num

section ArmedLemmas
variable {K : Type} [LinearOrderedField K] [FloorRing K]

theorem drawStreak_sched (env : MathEnv K) (intensity w h : K) (s : State K) :
    (drawStreak env intensity w h s).sched = s.sched ∧
    (drawStreak env intensity w h s).rafId = s.rafId := by
  unfold drawStreak
  split_ifs <;> exact ⟨rfl, rfl⟩

/-- Whatever branch it takes, `loop` schedules itself once and stores the handle. -/
theorem loop_sched (env : MathEnv K) (intensity now : K) (s : State K) :
    (loop env intensity now s).sched =
      { seq := s.sched.seq + 1, pending := s.sched.pending ++ [(s.sched.seq + 1, Callback.loop)] } ∧
    (loop env intensity now s).rafId = s.sched.seq + 1 := by
  rcases loop_cases env intensity now s with ⟨_, h⟩ | ⟨_, _, h⟩ | ⟨_, _, h⟩
  · rw [h]; exact ⟨rfl, rfl⟩
  · rw [h]; exact ⟨rfl, rfl⟩
  · rw [h]
    simp only [drawParticles, drawStreak_sched, drawAuroraBand]
    exact ⟨rfl, rfl⟩

theorem frame_eq_foldl (env : MathEnv K) (intensity now : K) (s : State K) :
    frame env intensity now s =
      s.sched.pending.foldl (fire env intensity now)
        { s with sched := { s.sched with pending := [] } } := rfl

/-- Running callbacks none of which is `loop` leaves the scheduler and `rafId` alone. -/
theorem foldl_fire_of_no_loop (env : MathEnv K) (intensity now : K) (l : List (ℕ × Callback K)) :
    ∀ st : State K, l.filter isLoop = [] →
      (l.foldl (fire env intensity now) st).sched = st.sched ∧
      (l.foldl (fire env intensity now) st).rafId = st.rafId := by
  induction l with
  | nil => intro st _; exact ⟨rfl, rfl⟩
  | cons c l ih =>
    intro st h
    obtain ⟨hd, cb⟩ := c
    cases cb with
    | loop => simp [List.filter, isLoop] at h
    | pointermove g x y =>
      have hl : l.filter isLoop = [] := by simpa [List.filter, isLoop] using h
      have := ih (fire env intensity now st (hd, Callback.pointermove g x y)) hl
      exact this

/-- Running callbacks exactly one of which is `loop` schedules `loop` once. -/
theorem foldl_fire_of_one_loop (env : MathEnv K) (intensity now : K)
    (l : List (ℕ × Callback K)) :
    ∀ (st : State K) (x : ℕ × Callback K), l.filter isLoop = [x] →
      (l.foldl (fire env intensity now) st).sched =
        { seq := st.sched.seq + 1
          pending := st.sched.pending ++ [(st.sched.seq + 1, Callback.loop)] } ∧
      (l.foldl (fire env intensity now) st).rafId = st.sched.seq + 1 := by
  induction l with
  | nil => intro st x h; simp at h
  | cons c l ih =>
    intro st x h
    obtain ⟨hd, cb⟩ := c
    cases cb with
    | loop =>
      have hl : l.filter isLoop = [] := by
        simp only [List.filter, isLoop] at h
        exact (List.cons.inj h).2
      have h0 := foldl_fire_of_no_loop env intensity now l
        (fire env intensity now st (hd, Callback.loop)) hl
      have hs := loop_sched env intensity now st
      show (l.foldl (fire env intensity now) (fire env intensity now st (hd, Callback.loop))).sched = _ ∧
        (l.foldl (fire env intensity now) (fire env intensity now st (hd, Callback.loop))).rafId = _
      rw [h0.1, h0.2]
      exact hs
    | pointermove g cx cy =>
      have hl : l.filter isLoop = [x] := by simpa [List.filter, isLoop] using h
      exact ih (fire env intensity now st (hd, Callback.pointermove g cx cy)) x hl

theorem armed_frame (env : MathEnv K) (intensity now : K) (s : State K) (h : Armed s) :
    Armed (frame env intensity now s) := by
  have hf := foldl_fire_of_one_loop env intensity now s.sched.pending
    { s with sched := { s.sched with pending := [] } } _ h.1
  rw [← frame_eq_foldl] at hf
  unfold Armed
  rw [hf.1, hf.2]
  refine ⟨by simp [isLoop], le_refl _, ?_, ?_⟩
  · intro c hc
    simp only [List.nil_append, List.mem_singleton] at hc
    rw [hc]
  · intro c hc hl
    simp only [List.nil_append, List.mem_singleton] at hc
    rw [hc] at hl
    simp [isLoop] at hl

theorem onPointerMove_of_idle (clientX clientY : K) (s : State K) (h : s.moveRaf = 0) :
    onPointerMove clientX clientY s =
      { s with
        moveRaf := s.sched.seq + 1
        sched :=
          { seq := s.sched.seq + 1
            pending := s.sched.pending ++
              [(s.sched.seq + 1, Callback.pointermove s.effectRun clientX clientY)] } } := by
  simp [onPointerMove, rafThrottle, h, Scheduler.request]

theorem onPointerMove_of_pending (clientX clientY : K) (s : State K) (h : s.moveRaf ≠ 0) :
    onPointerMove clientX clientY s = s := by
  simp [onPointerMove, rafThrottle, h]

theorem armed_step (env : MathEnv K) (intensity : K) (e : Event K) (s : State K)
    (h : Armed s) : Armed (step env intensity e s) := by
  cases e with
  | frame now => exact armed_frame env intensity now s h
  | visibilitychange hidden =>
    simp only [step, onVis]
    split_ifs
    · exact h
    · cases mkParticles env intensity s.rng with
      | none => exact h
      | some r => exact h
  | resize rectW rectH ratio => exact h
  | pointerdown => exact h
  | pointerup => exact h
  | pointermove cx cy =>
    simp only [step]
    by_cases hm : s.moveRaf = 0
    · rw [onPointerMove_of_idle cx cy s hm]
      obtain ⟨h1, h2, h3, h4⟩ := h
      refine ⟨?_, ?_, ?_, ?_⟩
      · simp [List.filter_append, h1, isLoop]
      · exact Nat.le_succ_of_le h2
      · intro c hc
        simp only [List.mem_append, List.mem_singleton] at hc
        rcases hc with hc | hc
        · exact Nat.le_succ_of_le (h3 c hc)
        · rw [hc]
      · intro c hc hl
        simp only [List.mem_append, List.mem_singleton] at hc
        rcases hc with hc | hc
        · exact h4 c hc hl
        · rw [hc]
          show s.sched.seq + 1 ≠ s.rafId
          omega
    · rw [onPointerMove_of_pending cx cy s hm]
      exact h
  | layout rect => exact h

theorem armed_run (env : MathEnv K) (intensity : K) (es : List (Event K)) (s : State K)
    (h : Armed s) : Armed (run env intensity es s) :=
  foldl_invariant Armed _ (fun a e ha => armed_step env intensity e a ha) es s h

theorem armed_mount {env : MathEnv K} {intensity rectW rectH ratio now : K} {hidden : Bool}
    {rng : ℕ} {s0 : State K}
    (hm : mount env intensity rectW rectH ratio now hidden rng = some s0) : Armed s0 := by
  unfold mount at hm
  cases hp : mkParticles env intensity (resize rectW rectH ratio (initial now hidden rng)).rng with
  | none => simp [hp] at hm
  | some r =>
    obtain ⟨ps, rng1⟩ := r
    simp only [hp, Option.some.injEq] at hm
    rw [← hm]
    refine ⟨?_, ?_, ?_, ?_⟩
    · simp [requestLoop, Scheduler.request, resize, initial, isLoop]
    · simp [requestLoop, Scheduler.request, resize, initial]
    · intro c hc
      simp [requestLoop, Scheduler.request, resize, initial] at hc
      rw [hc]
      simp [requestLoop, Scheduler.request, resize, initial]
    · intro c hc hl
      simp [requestLoop, Scheduler.request, resize, initial] at hc
      rw [hc] at hl
      simp [isLoop] at hl

/-- After the cleanup no `loop` callback is pending, every other pending
callback is still pending, and the next frame leaves nothing pending. -/
theorem cleanup_of_armed (env : MathEnv K) (intensity now : K) (s : State K) (h : Armed s) :
    (∀ c ∈ (cleanup s).sched.pending, isLoop c = false) ∧
    (∀ c ∈ s.sched.pending, isLoop c = false → c ∈ (cleanup s).sched.pending) ∧
    (frame env intensity now (cleanup s)).sched.pending = [] := by
  obtain ⟨h1, _, _, h4⟩ := h
  have hA : ∀ c ∈ (cleanup s).sched.pending, isLoop c = false := by
    intro c hc
    simp only [cleanup, Scheduler.cancel, List.mem_filter, decide_eq_true_eq] at hc
    by_contra hl
    have hl2 : isLoop c = true := by simpa using hl
    have : c ∈ s.sched.pending.filter isLoop := List.mem_filter.mpr ⟨hc.1, hl2⟩
    rw [h1, List.mem_singleton] at this
    rw [this] at hc
    exact hc.2 rfl
  refine ⟨hA, ?_, ?_⟩
  · intro c hc hl
    simp only [cleanup, Scheduler.cancel, List.mem_filter, decide_eq_true_eq]
    exact ⟨hc, h4 c hc hl⟩
  · rw [frame_eq_foldl]
    have hnone : (cleanup s).sched.pending.filter isLoop = [] := by
      rw [List.filter_eq_nil_iff]
      intro c hc
      rw [hA c hc]
      simp
    rw [(foldl_fire_of_no_loop env intensity now _ _ hnone).1]

end ArmedLemmas
end ParticleField

end Aurora

/-! ## The confetti burst: the scheduler after cleanup -/

namespace Aurora

namespace ConfettiBurst

section LoopArmedLemmas
variable {K : Type} [LinearOrderedField K] [FloorRing K]

theorem loop_raf (s : State K) :
    (loop s).raf = s.sched.seq + 1 ∧
    (loop s).sched =
      { seq := s.sched.seq + 1, pending := s.sched.pending ++ [(s.sched.seq + 1, Callback.loop)] } := by
  unfold loop
  simp only
  split_ifs <;> exact ⟨rfl, rfl⟩

theorem sync_raf (env : MathEnv K) (s : State K) :
    (sync env s).raf = s.raf ∧
    (sync env s).sched =
      { seq := s.sched.seq + 1, pending := s.sched.pending ++ [(s.sched.seq + 1, Callback.sync)] } := by
  unfold sync
  split_ifs <;> exact ⟨rfl, rfl⟩

theorem triggerEffect_raf (env : MathEnv K) (v : ℕ) (s : State K) :
    (triggerEffect env v s).raf = s.raf ∧ (triggerEffect env v s).sched = s.sched := by
  unfold triggerEffect
  split_ifs <;> exact ⟨rfl, rfl⟩

theorem loopArmed_step (env : MathEnv K) (e : Event K) (s : State K) (h : LoopArmed s) :
    LoopArmed (step env e s) := by
  obtain ⟨b, hq⟩ := h
  cases e with
  | frame =>
    simp only [step]
    rw [frame_of_pending env s s.raf b hq]
    have hl := loop_raf ({ s with sched := { s.sched with pending := [] } } : State K)
    have hs := sync_raf env (loop { s with sched := { s.sched with pending := [] } })
    refine ⟨s.sched.seq + 1 + 1, ?_⟩
    rw [hs.1, hs.2, hl.1, hl.2]
    rfl
  | trigger v =>
    have ht := triggerEffect_raf env v s
    exact ⟨b, by simp only [step]; rw [ht.1, ht.2]; exact hq⟩
  | resize pw ph => exact ⟨b, hq⟩

theorem loopArmed_mount (env : MathEnv K) (trigger : ℕ)
    (parentW parentH pixelRatio rectW rectH : K) (rng : ℕ) :
    LoopArmed (mount env trigger parentW parentH pixelRatio rectW rectH rng) := by
  have ht := triggerEffect_raf env trigger
    ({ resize parentW parentH (initial pixelRatio rectW rectH rng) with
        sched := ((resize parentW parentH (initial pixelRatio rectW rectH rng)).sched.request
          Callback.loop).1
        raf := ((resize parentW parentH (initial pixelRatio rectW rectH rng)).sched.request
          Callback.loop).2 } : State K)
  refine ⟨2, ?_⟩
  simp only [mount]
  rw [ht.1, ht.2]
  simp [Scheduler.request, resize, initial]

theorem loopArmed_run (env : MathEnv K) (es : List (Event K)) (s : State K) (h : LoopArmed s) :
    LoopArmed (run env es s) :=
  foldl_invariant LoopArmed _ (fun a e ha => loopArmed_step env e a ha) es s h

/-- After the cleanup of a state in which `raf` is the handle of the pending
`loop`, no `loop` callback is pending. -/
theorem cleanup_of_loopArmed (s : State K) (h : LoopArmed s) :
    ∀ c ∈ (cleanup s).sched.pending, c.2 ≠ Callback.loop := by
  obtain ⟨b, hq⟩ := h
  intro c hc
  simp only [cleanup, Scheduler.cancel, hq, List.mem_filter, List.mem_cons, List.mem_singleton,
    List.not_mem_nil, or_false, decide_eq_true_eq] at hc
  rcases hc.1.1 with h1 | h1
  · exact absurd (by rw [h1]) hc.1.2
  · rw [h1]
    simp

end LoopArmedLemmas

end ConfettiBurst

end Aurora

/-! ## The throttle on the pointer handler: claim C14 at sample inputs -/

namespace Aurora

namespace RafThrottle

/-- Witness of C14 (amended): two pointer events on the sample box, then a frame. -/
theorem throttle_applies_first_witness :
    (initial demoCursor : World (ℚ × ℚ) (Cursor ℚ)).raf = 0 ∧
    (initial demoCursor : World (ℚ × ℚ) (Cursor ℚ)).sched.pending = [] ∧
    (frame demoHandler
      (run demoHandler ([((0 : ℚ), (0 : ℚ)), (640, 360)].map Event.call)
        (initial demoCursor))).target = demoHandler (0, 0) demoCursor :=
  ⟨rfl, rfl,
   (throttle_applies_first demoHandler (initial demoCursor) (0, 0) [(640, 360)] []
      demoCursor rfl rfl).1⟩

end RafThrottle

namespace ParticleField

theorem hidden_frame_or_early {K : Type} [LinearOrderedField K] [FloorRing K]
    (env : MathEnv K) (intensity now : K) (s : State K)
    (h : s.hidden = true ∨ now - s.last < frameMs) :
    loop env intensity now s = requestLoop s := by
  rcases loop_cases env intensity now s with ⟨_, h1⟩ | ⟨⟨hv, hd⟩, _, _⟩ | ⟨⟨hv, hd⟩, _, _⟩
  · exact h1
  · rcases h with h | h
    · rw [hv] at h; exact absurd h (by decide)
    · exact absurd h hd
  · rcases h with h | h
    · rw [hv] at h; exact absurd h (by decide)
    · exact absurd h hd

/-- C14 as stated fails: two `pointermove` events reach the wrapper of the
sample state before the next frame, the first at the top left corner and the
latest at the bottom right corner; the frame stores the position of the first. -/
theorem pointer_coalesces_to_first :
    (run demoEnv 1
      [Event.pointermove 0 0, Event.pointermove 640 360, Event.frame 10] demoState).cursor.x = 0 ∧
    (run demoEnv 1
      [Event.pointermove 0 0, Event.pointermove 640 360, Event.frame 10] demoState).cursor.y = 0 ∧
    (onPointerMoveFn demoState.wrapRect 640 360 demoState.cursor).x = 1 ∧
    (onPointerMoveFn demoState.wrapRect 640 360 demoState.cursor).y = 1 := by
  have hrun : run demoEnv 1
      [Event.pointermove 0 0, Event.pointermove 640 360, Event.frame 10] demoState =
      pointerFrame 0 0 0
        (loop demoEnv 1 10 { demoState with moveRaf := 2, sched := { seq := 2, pending := [] } }) :=
    rfl
  have hloop : (loop demoEnv 1 10
      { demoState with moveRaf := 2, sched := { seq := 2, pending := [] } }).cursor =
        demoState.cursor ∧
      (loop demoEnv 1 10
      { demoState with moveRaf := 2, sched := { seq := 2, pending := [] } }).wrapRect =
        demoState.wrapRect := by
    have hz := hidden_frame_or_early demoEnv 1 10
      { demoState with moveRaf := 2, sched := { seq := 2, pending := [] } }
      (Or.inr (by simp only [demoState, frameMs, FPS]; norm_num))
    rw [hz]
    exact ⟨rfl, rfl⟩
  have hc : (run demoEnv 1
      [Event.pointermove 0 0, Event.pointermove 640 360, Event.frame 10] demoState).cursor =
      onPointerMoveFn demoState.wrapRect 0 0 demoState.cursor := by
    rw [hrun]
    show onPointerMoveFn _ 0 0 _ = _
    rw [hloop.1, hloop.2]
  rw [hc]
  simp only [onPointerMoveFn, demoState, clamp]
  norm_num

end ParticleField

end Aurora

/-! ## The particle field: reseeding, claim C20 -/

namespace Aurora

namespace ParticleField

section ReseedLemmas

variable {K : Type} [LinearOrderedField K] [FloorRing K]

theorem mkParticles_eq (env : MathEnv K) (intensity : K) (rng n : ℕ)
    (hf : ⌊(70 : K) * intensity⌋ = (n : ℤ)) (hn : n < 2 ^ 32) :
    mkParticles env intensity rng =
      some ((List.range n).map (fun k => mkParticle env (rng + 6 * k)), rng + 6 * n) := by
  have h32 : (n : ℤ) < 2 ^ 32 := by exact_mod_cast hn
  simp only [mkParticles, settings, hf, newArray_eq_some (Int.natCast_nonneg n) h32,
    Int.toNat_ofNat]

theorem moveParticle_core (env : MathEnv K) (intensity : K) (cur : Cursor K) (phase : K)
    (ps : List (Particle K)) :
    (ps.map (moveParticle env intensity cur phase)).map core = ps.map core := by
  rw [List.map_map]
  rfl

/-- Every event other than a visibility change to visible keeps the particles
that are in the set: same number, same depth, radius, speed scale and hue. -/
theorem step_core (env : MathEnv K) (intensity : K) (e : Event K) (s : State K)
    (he : e ≠ Event.visibilitychange false) :
    (step env intensity e s).particles.map core = s.particles.map core := by
  cases e with
  | frame now =>
    simp only [step, frame]
    refine foldl_invariant (fun st : State K => st.particles.map core = s.particles.map core)
      _ ?_ _ _ rfl
    intro a b ha
    obtain ⟨_, c⟩ := b
    cases c with
    | loop =>
      show (loop env intensity now a).particles.map core = _
      rcases loop_particles env intensity now a with h | h
      · rw [h]; exact ha
      · rw [h, moveParticle_core]; exact ha
    | pointermove g x y => exact ha
  | visibilitychange hidden =>
    cases hidden with
    | true => simp [step, onVis]
    | false => exact absurd rfl he
  | resize rectW rectH ratio => rfl
  | pointerdown => rfl
  | pointerup => rfl
  | pointermove x y => rfl
  | layout rect => rfl

theorem rerender_same_intensity (env : MathEnv K) (render : ℕ)
    (intensity rectW rectH ratio now : K) (s : State K) :
    rerender env render intensity intensity rectW rectH ratio now s =
      effect env intensity rectW rectH ratio now (cleanup s) := by
  simp [rerender, deps]

theorem effect_particles (env : MathEnv K) (intensity rectW rectH ratio now : K) (s : State K) :
    (effect env intensity rectW rectH ratio now s).map (fun st => st.particles) =
      (mkParticles env intensity s.rng).map Prod.fst := by
  unfold effect
  show (match mkParticles env intensity s.rng with
    | none => none
    | some (ps, rng1) => _).map _ = _
  cases mkParticles env intensity s.rng with
  | none => rfl
  | some r => rfl

end ReseedLemmas

theorem seqEnv_mount :
    mount seqEnv 1 640 360 1 0 false 0 =
      some (requestLoop
        { resize 640 360 1 (initial 0 false 0) with
          particles := (List.range 70).map (fun k => mkParticle seqEnv (0 + 6 * k))
          rng := 0 + 6 * 70
          wrapRect := { left := 0, top := 0, width := 640, height := 360 } }) := by
  have hm := mkParticles_eq seqEnv (1 : ℚ) 0 70 (by norm_num) (by norm_num)
  simp only [mount]
  have hr : (resize (640 : ℚ) 360 1 (initial 0 false 0)).rng = 0 := rfl
  rw [hr, hm]

theorem demoEnv_mount :
    mount demoEnv 1 640 360 1 0 false 0 =
      some (requestLoop
        { resize 640 360 1 (initial 0 false 0) with
          particles := (List.range 70).map (fun k => mkParticle demoEnv (0 + 6 * k))
          rng := 0 + 6 * 70
          wrapRect := { left := 0, top := 0, width := 640, height := 360 } }) := by
  have hm := mkParticles_eq demoEnv (1 : ℚ) 0 70 (by norm_num) (by norm_num)
  simp only [mount]
  have hr : (resize (640 : ℚ) 360 1 (initial 0 false 0)).rng = 0 := rfl
  rw [hr, hm]

section ReseedClaim
variable {K : Type} [LinearOrderedField K] [FloorRing K]

/-- C20 (the code at the failing input). A re-render of `ParticleField` with
unchanged intensity, as an RSVP click on the page causes, runs the cleanup and
the effect body again, because the dependency `resize` is a new function at
every render: the particle set is replaced by fresh seeds taken at the current
position of the random stream. With the sample stream the first particle
moves from `x = 1/2` to `x = 1/422`. -/
theorem rerender_reseeds (env : MathEnv K) (render : ℕ) (intensity rectW rectH ratio now : K)
    (s : State K) :
    rerender env render intensity intensity rectW rectH ratio now s =
      effect env intensity rectW rectH ratio now (cleanup s) ∧
    (rerender env render intensity intensity rectW rectH ratio now s).map (fun st => st.particles) =
      (mkParticles env intensity s.rng).map Prod.fst ∧
    (mount seqEnv 1 640 360 1 0 false 0).map (fun st => (st.particles.map Particle.x).head?) =
      some (some (1 / 2)) ∧
    ((mount seqEnv 1 640 360 1 0 false 0).bind (rerender seqEnv 0 1 1 640 360 1 50)).map
      (fun st => (st.particles.map Particle.x).head?) = some (some (1 / 422)) := by
  refine ⟨rerender_same_intensity env render intensity rectW rectH ratio now s, ?_, ?_, ?_⟩
  · rw [rerender_same_intensity]
    exact effect_particles env intensity rectW rectH ratio now (cleanup s)
  · rw [seqEnv_mount]
    simp [requestLoop, mkParticle, seqEnv, List.range_succ_eq_map]
  · rw [seqEnv_mount]
    simp only [Option.some_bind, rerender_same_intensity]
    have hm := mkParticles_eq seqEnv (1 : ℚ) 420 70 (by norm_num) (by norm_num)
    simp only [effect]
    have hr : (resize (640 : ℚ) 360 1 (cleanup (requestLoop
        { resize 640 360 1 (initial 0 false 0) with
          particles := (List.range 70).map (fun k => mkParticle seqEnv (0 + 6 * k))
          rng := 0 + 6 * 70
          wrapRect := { left := 0, top := 0, width := 640, height := 360 } }))).rng = 420 := rfl
    rw [hr, hm]
    simp [requestLoop, mkParticle, seqEnv, List.range_succ_eq_map]
    norm_num

end ReseedClaim

end ParticleField

end Aurora

/-! ## Cleanup and the scheduler: claim C15 -/

namespace Aurora

section UnmountClaim
variable {K : Type} [LinearOrderedField K] [FloorRing K]

/-- C15 (amended). Unmount cancels the render loops: once `ParticleField` has
been mounted and any events have happened, its cleanup leaves no `loop`
callback pending; a callback scheduled by the throttled pointer handler is not
cancelled, it is still pending after the cleanup, and the next frame, which
runs it, leaves nothing pending. Once `ConfettiBurst` has been mounted and any
events have happened, its cleanup leaves no `loop` callback pending. -/
theorem unmount_cancels_loops (env : MathEnv K) (intensity rectW rectH ratio now next : K)
    (hidden : Bool) (rng : ℕ) (s0 : ParticleField.State K) (es : List (ParticleField.Event K))
    (trigger : ℕ) (parentW parentH pixelRatio boxW boxH : K) (rng2 : ℕ)
    (fs : List (ConfettiBurst.Event K))
    (hm : ParticleField.mount env intensity rectW rectH ratio now hidden rng = some s0) :
    (∀ c ∈ (ParticleField.cleanup (ParticleField.run env intensity es s0)).sched.pending,
      c.2 ≠ ParticleField.Callback.loop) ∧
    (∀ c ∈ (ParticleField.run env intensity es s0).sched.pending,
      c.2 ≠ ParticleField.Callback.loop →
        c ∈ (ParticleField.cleanup (ParticleField.run env intensity es s0)).sched.pending) ∧
    (ParticleField.frame env intensity next
      (ParticleField.cleanup (ParticleField.run env intensity es s0))).sched.pending = [] ∧
    (∀ c ∈ (ConfettiBurst.cleanup (ConfettiBurst.run env fs
        (ConfettiBurst.mount env trigger parentW parentH pixelRatio boxW boxH rng2))).sched.pending,
      c.2 ≠ ConfettiBurst.Callback.loop) := by
  have ha := ParticleField.armed_run env intensity es s0 (ParticleField.armed_mount hm)
  have hc := ParticleField.cleanup_of_armed env intensity next _ ha
  have hl : ∀ c : ℕ × ParticleField.Callback K,
      ParticleField.isLoop c = false ↔ c.2 ≠ ParticleField.Callback.loop := by
    intro c
    obtain ⟨h, cb⟩ := c
    cases cb <;> simp [ParticleField.isLoop]
  refine ⟨fun c hcm => (hl c).mp (hc.1 c hcm), fun c hcm hne => hc.2.1 c hcm ((hl c).mpr hne),
    hc.2.2, ?_⟩
  exact ConfettiBurst.cleanup_of_loopArmed _
    (ConfettiBurst.loopArmed_run env fs _
      (ConfettiBurst.loopArmed_mount env trigger parentW parentH pixelRatio boxW boxH rng2))

end UnmountClaim

/-- Witness of C15 (amended): the sample particle field after a pointer move
and a frame, the sample confetti overlay after a click and a frame. -/
theorem unmount_cancels_loops_witness :
    (∃ s0, ParticleField.mount demoEnv 1 640 360 1 0 false 0 = some s0 ∧
      ∀ c ∈ (ParticleField.cleanup (ParticleField.run demoEnv 1
          [ParticleField.Event.pointermove 10 10, ParticleField.Event.frame 40] s0)).sched.pending,
        c.2 ≠ ParticleField.Callback.loop) ∧
    (∀ c ∈ (ConfettiBurst.cleanup (ConfettiBurst.run demoEnv
        [ConfettiBurst.Event.trigger 1, ConfettiBurst.Event.frame]
        (ConfettiBurst.mount demoEnv 0 300 200 1 300 200 0))).sched.pending,
      c.2 ≠ ConfettiBurst.Callback.loop) :=
  ⟨⟨_, ParticleField.demoEnv_mount,
    (unmount_cancels_loops demoEnv 1 640 360 1 0 0 false 0 _
      [ParticleField.Event.pointermove 10 10, ParticleField.Event.frame 40] 0 300 200 1 300 200 0
      [ConfettiBurst.Event.trigger 1, ConfettiBurst.Event.frame] ParticleField.demoEnv_mount).1⟩,
   (unmount_cancels_loops demoEnv 1 640 360 1 0 0 false 0 _
      [ParticleField.Event.pointermove 10 10, ParticleField.Event.frame 40] 0 300 200 1 300 200 0
      [ConfettiBurst.Event.trigger 1, ConfettiBurst.Event.frame] ParticleField.demoEnv_mount).2.2.2⟩

/-- C15 as stated fails: after the cleanup of the sample particle field a
throttled pointer callback is still pending, and after the cleanup of the
sample confetti overlay that has seen one frame the `sync` callback is still
pending. -/
theorem unmount_leaves_callbacks :
    (ParticleField.mount demoEnv 1 640 360 1 0 false 0).map
      (fun s => (ParticleField.cleanup
        (ParticleField.run demoEnv 1 [ParticleField.Event.pointermove 10 10] s)).sched.pending) =
      some [(2, ParticleField.Callback.pointermove 0 10 10)] ∧
    (ConfettiBurst.cleanup
      (ConfettiBurst.run demoEnv [ConfettiBurst.Event.frame] ConfettiBurst.demoMounted)).sched.pending =
      [(4, ConfettiBurst.Callback.sync)] := by
  constructor
  · rw [ParticleField.demoEnv_mount]
    rfl
  · decide

end Aurora

/-! ## The confetti burst: piece motion and burst shape, claims C25 and C26 -/

namespace Aurora

namespace ConfettiBurst

section ShapeClaims
variable {K : Type} [LinearOrderedField K] [FloorRing K]

theorem updatePiece_iterate (p : Piece K) (k : ℕ) :
    updatePiece^[k] p =
      { p with
        life := p.life - 0.018 * (k : K)
        vy := p.vy + 0.08 * (k : K)
        x := p.x + (k : K) * p.vx
        y := p.y + (k : K) * p.vy + 0.04 * (k : K) * ((k : K) + 1)
        ang := p.ang + (k : K) * p.spin } := by
  induction k with
  | zero => simp
  | succ k ih =>
    rw [Function.iterate_succ_apply', ih, updatePiece]
    simp only [Piece.mk.injEq]
    push_cast
    refine ⟨by ring, by ring, trivial, by ring, trivial, by ring, trivial, by ring, trivial, trivial⟩

/-- C25. Ballistic closed form: after `k` runs of the per-frame update of a
piece (velocity before position), `vx` is unchanged, `vy = vy0 + 0.08 k`,
`x = x0 + k vx0`, `y = y0 + k vy0 + 0.04 k (k + 1)`, `ang = ang0 + k spin` and
`life = life0 - 0.018 k`, which is `1 - 0.018 k` for a piece made by `mk`. -/
theorem ballistic_closed_form (env : MathEnv K) (W H : K) (rng i : ℕ) (p : Piece K) (k : ℕ) :
    (updatePiece^[k] p).vx = p.vx ∧
    (updatePiece^[k] p).vy = p.vy + 0.08 * (k : K) ∧
    (updatePiece^[k] p).x = p.x + (k : K) * p.vx ∧
    (updatePiece^[k] p).y = p.y + (k : K) * p.vy + 0.04 * (k : K) * ((k : K) + 1) ∧
    (updatePiece^[k] p).ang = p.ang + (k : K) * p.spin ∧
    (updatePiece^[k] p).life = p.life - 0.018 * (k : K) ∧
    (updatePiece^[k] p).spin = p.spin ∧
    (updatePiece^[k] (mkPiece env W H rng i)).life = 1 - 0.018 * (k : K) := by
  rw [updatePiece_iterate, updatePiece_iterate]
  exact ⟨rfl, rfl, rfl, rfl, rfl, rfl, rfl, rfl⟩

theorem launchAngle_jitter (env : MathEnv K) (rng i : ℕ) (h : InUnit (env.random rng)) :
    -0.175 ≤ launchAngle env rng i - env.pi * 2 * (i : K) / 24 ∧
    launchAngle env rng i - env.pi * 2 * (i : K) / 24 < 0.175 := by
  obtain ⟨h0, h1⟩ := h
  unfold launchAngle
  constructor <;> nlinarith

/-- C26. Burst shape: when every random draw lies in `[0, 1)`, the array that
`onReq` assigns has exactly 24 pieces; every piece starts at the midpoint
`(W / 2, H / 2)` of the canvas box with life `1`; piece `i` is launched along
the angle `a_i` (its velocity is `cos a_i` and `sin a_i` scaled, less the lift
`3.1`), and `a_i` differs from `2 π i / 24` by a jitter in `[-0.175, 0.175)`. -/
theorem burst_shape (env : MathEnv K) (s : State K) (hr : ∀ n, InUnit (env.random n)) :
    (onReq env s).bridgePieces = mk env s ∧
    (mk env s).length = 24 ∧
    (∀ p ∈ mk env s, p.x = s.rectW / 2 ∧ p.y = s.rectH / 2 ∧ p.life = 1) ∧
    ∀ i : ℕ, i < 24 →
      (mk env s)[i]? = some (mkPiece env s.rectW s.rectH (s.rng + 8 * i) i) ∧
      (mkPiece env s.rectW s.rectH (s.rng + 8 * i) i).vx =
        env.cos (launchAngle env (s.rng + 8 * i) i) * (3.8 + env.random (s.rng + 8 * i + 2) * 3.8) ∧
      (mkPiece env s.rectW s.rectH (s.rng + 8 * i) i).vy =
        env.sin (launchAngle env (s.rng + 8 * i) i) * (3.2 + env.random (s.rng + 8 * i + 3) * 3.2)
          - 3.1 ∧
      -0.175 ≤ launchAngle env (s.rng + 8 * i) i - env.pi * 2 * (i : K) / 24 ∧
      launchAngle env (s.rng + 8 * i) i - env.pi * 2 * (i : K) / 24 < 0.175 := by
  refine ⟨rfl, mk_length env s, ?_, ?_⟩
  · intro p hp
    simp only [mk, List.mem_map, List.mem_range] at hp
    obtain ⟨i, _, rfl⟩ := hp
    exact ⟨rfl, rfl, rfl⟩
  · intro i hi
    refine ⟨?_, rfl, rfl, launchAngle_jitter env _ i (hr _)⟩
    simp [mk, List.getElem?_map, List.getElem?_range hi]

end ShapeClaims

/-- Witness of C26 for the sample environment, whose draws are all `1/2`. -/
theorem burst_shape_witness :
    (∀ n, InUnit (demoEnv.random n)) ∧ (mk demoEnv demoMounted).length = 24 :=
  ⟨ParticleField.demoEnv_random_inUnit, (burst_shape demoEnv demoMounted ParticleField.demoEnv_random_inUnit).2.1⟩

end ConfettiBurst

end Aurora

/-! ## The confetti burst: life of spawned pieces and the cleared rectangle, claims C21 and C28 -/

namespace Aurora

namespace ConfettiBurst

section LifeClaim
variable {K : Type} [LinearOrderedField K] [FloorRing K]

theorem loop_pieces_sub (s : State K) :
    ∀ q ∈ (loop s).pieces, ∃ p ∈ s.pieces, q = p ∨ q = updatePiece p := by
  intro q hq
  unfold loop at hq
  simp only at hq
  split_ifs at hq
  · exact ⟨q, hq, Or.inl rfl⟩
  · simp only [List.mem_filter, List.mem_map] at hq
    obtain ⟨⟨p, hp, rfl⟩, _⟩ := hq
    exact ⟨p, hp, Or.inr rfl⟩
  · simp only [List.mem_filter, List.mem_map] at hq
    obtain ⟨⟨p, hp, rfl⟩, _⟩ := hq
    exact ⟨p, hp, Or.inr rfl⟩

theorem frame_bridge_life (env : MathEnv K) (s : State K) (h : Mounted s)
    (hl : ∀ p ∈ s.bridgePieces, p.life = 1) : ∀ p ∈ (frame env s).bridgePieces, p.life = 1 := by
  obtain ⟨_, _, a, b, hq⟩ := h
  rw [frame_of_pending env s a b hq]
  have hr := loop_requests ({ s with sched := { s.sched with pending := [] } } : State K)
  by_cases hc : 0 < (loop ({ s with sched := { s.sched with pending := [] } } : State K)).confettiRequested
  · rw [sync_of_request env _ hc]
    exact mk_life env _
  · rw [sync_of_no_request env _ (by omega)]
    show ∀ p ∈ (loop ({ s with sched := { s.sched with pending := [] } } : State K)).bridgePieces, _
    rw [hr.2.2]
    exact hl

/-- C21 (the code at the failing input). In every state reached from `mount`,
after a trigger increment the engine is active and the 24 spawned pieces have
life `1`; the active run of `loop` that follows leaves the spawned pieces as
they are, and after the whole animation frame every spawned piece still has
life `1`: the life of a spawned piece does not decrease while the engine is
active. A run of `loop` leaves a piece of its own array alone or lowers its life
by `0.018`, and never touches the array of spawned pieces, so no life
increases. -/
theorem spawned_life_stays (env : MathEnv K) (trigger : ℕ)
    (parentW parentH pixelRatio rectW rectH : K) (rng : ℕ) (es : List (Event K)) (value : ℕ) :
    (triggerEffect env (value + 1)
      (run env es (mount env trigger parentW parentH pixelRatio rectW rectH rng))).activeRef = true ∧
    (triggerEffect env (value + 1)
      (run env es (mount env trigger parentW parentH pixelRatio rectW rectH rng))).bridgePieces.length
        = 24 ∧
    (∀ p ∈ (triggerEffect env (value + 1)
      (run env es (mount env trigger parentW parentH pixelRatio rectW rectH rng))).bridgePieces,
        p.life = 1) ∧
    (loop (triggerEffect env (value + 1)
      (run env es (mount env trigger parentW parentH pixelRatio rectW rectH rng)))).bridgePieces =
      (triggerEffect env (value + 1)
        (run env es (mount env trigger parentW parentH pixelRatio rectW rectH rng))).bridgePieces ∧
    (∀ p ∈ (frame env (triggerEffect env (value + 1)
      (run env es (mount env trigger parentW parentH pixelRatio rectW rectH rng)))).bridgePieces,
        p.life = 1) ∧
    (∀ s : State K, (loop s).bridgePieces = s.bridgePieces ∧
      ∀ q ∈ (loop s).pieces, ∃ p ∈ s.pieces,
        q.life = p.life ∨ q.life = p.life - 0.018) := by
  have hm := mounted_run env es _ (mounted_mount env trigger parentW parentH pixelRatio rectW rectH rng)
  generalize run env es (mount env trigger parentW parentH pixelRatio rectW rectH rng) = s at hm
  have ht := triggerEffect_of_listening env value s hm.1
  have hm1 : Mounted (triggerEffect env (value + 1) s) := mounted_step env (Event.trigger (value + 1)) s hm
  have hl : ∀ p ∈ (triggerEffect env (value + 1) s).bridgePieces, p.life = 1 := by
    rw [ht]
    exact mk_life env s
  refine ⟨by rw [ht]; rfl, ?_, hl, (loop_requests _).2.2, frame_bridge_life env _ hm1 hl, ?_⟩
  · rw [ht]
    exact mk_length env s
  · intro s0
    refine ⟨(loop_requests s0).2.2, ?_⟩
    intro q hq
    obtain ⟨p, hp, h | h⟩ := loop_pieces_sub s0 q hq
    · exact ⟨p, hp, Or.inl (by rw [h])⟩
    · exact ⟨p, hp, Or.inr (by rw [h]; rfl)⟩

/-- The rectangle `(0, 0, W, H)` that `loop` clears is the buffer divided by the
pixel ratio itself, not by the scale `min(2, ratio)` that `resize` sets. -/
theorem clear_rect_scale (parentW parentH : K) (s : State K) :
    ((resize parentW parentH s).width : K) / orOne (resize parentW parentH s).pixelRatio *
      orOne s.pixelRatio = (resize parentW parentH s).width ∧
    ((resize parentW parentH s).height : K) / orOne (resize parentW parentH s).pixelRatio *
      orOne s.pixelRatio = (resize parentW parentH s).height ∧
    (resize parentW parentH s).scale = min 2 (orOne s.pixelRatio) := by
  have h0 : orOne s.pixelRatio ≠ 0 := by
    unfold orOne
    split_ifs with h
    · exact one_ne_zero
    · exact h
  refine ⟨?_, ?_, rfl⟩
  · show ((resize parentW parentH s).width : K) / orOne s.pixelRatio * orOne s.pixelRatio = _
    field_simp
  · show ((resize parentW parentH s).height : K) / orOne s.pixelRatio * orOne s.pixelRatio = _
    field_simp

end LifeClaim

theorem demoRetina_buffer :
    demoRetina.width = 600 ∧ demoRetina.height = 400 ∧ demoRetina.scale = 2 ∧
    demoRetina.pixelRatio = 3 ∧ demoRetina.calls = [] := by
  simp only [demoRetina, mount, triggerEffect, resize, initial, orOne]
  norm_num
  exact ⟨rfl, rfl⟩

section ClearClaim
variable {K : Type} [LinearOrderedField K] [FloorRing K]

/-- C28 (the code at the failing input). After `resize`, the rectangle
`(0, 0, W, H)` that `loop` clears is the buffer divided by the pixel ratio
itself, while the context scale is `min(2, ratio)`: `W * ratio` is the buffer
width and `H * ratio` the buffer height. On a display of pixel ratio `3` with
a `300 × 200` overlay the buffer is `600 × 400` and the scale `2`; the frame
after a burst clears `(0, 0, 200, 400/3)`, which covers `400 × 800/3` device
pixels, less than the buffer. -/
theorem clear_rect_misses_buffer (parentW parentH : K) (s : State K) :
    ((resize parentW parentH s).width : K) / orOne (resize parentW parentH s).pixelRatio *
      orOne s.pixelRatio = (resize parentW parentH s).width ∧
    ((resize parentW parentH s).height : K) / orOne (resize parentW parentH s).pixelRatio *
      orOne s.pixelRatio = (resize parentW parentH s).height ∧
    (resize parentW parentH s).scale = min 2 (orOne s.pixelRatio) ∧
    demoRetina.pixelRatio = 3 ∧ demoRetina.scale = 2 ∧
    demoRetina.width = 600 ∧ demoRetina.height = 400 ∧
    (loop (triggerEffect demoEnv 1 demoRetina)).calls =
      [DrawOp.fillRect Composite.lighter 0 0 200 (400 / 3),
       DrawOp.clearRect 0 0 200 (400 / 3), DrawOp.clearRect 0 0 200 (400 / 3)] ∧
    (200 : ℚ) * demoRetina.scale < demoRetina.width ∧
    (400 / 3 : ℚ) * demoRetina.scale < demoRetina.height := by
  obtain ⟨hw, hh, hs, hp, hc⟩ := demoRetina_buffer
  refine ⟨(clear_rect_scale parentW parentH s).1, (clear_rect_scale parentW parentH s).2.1,
    (clear_rect_scale parentW parentH s).2.2, hp, hs, hw, hh, ?_, ?_, ?_⟩
  · rw [triggerEffect_of_listening demoEnv 0 demoRetina rfl, loop_of_pieces_nil _ rfl rfl]
    simp only [onReq, hw, hh, hp, hc, orOne]
    norm_num
  · rw [hs, hw]; norm_num
  · rw [hs, hh]; norm_num

end ClearClaim

end ConfettiBurst

end Aurora

/-! ## The particle field: buffer size and layering, claims C27 and C24 -/

namespace Aurora

namespace ParticleField
section BufferClaim
variable {K : Type} [LinearOrderedField K] [FloorRing K]

/-- C27. Buffer size: with `d = min(2, ratio)`, the ratio read as `1` when it
is `0`, `resize` sets the buffer width to `max(1, ⌊width d⌋)` and the buffer
height to `max(1, ⌊height d⌋)`; both are integers at least `1`, and the scale
factor `d` it stores is at most `2`. -/
theorem buffer_size (rectW rectH ratio : K) (s : State K) :
    ((resize rectW rectH ratio s).width : ℤ) = max 1 ⌊rectW * min 2 (orOne ratio)⌋ ∧
    ((resize rectW rectH ratio s).height : ℤ) = max 1 ⌊rectH * min 2 (orOne ratio)⌋ ∧
    1 ≤ (resize rectW rectH ratio s).width ∧
    1 ≤ (resize rectW rectH ratio s).height ∧
    (resize rectW rectH ratio s).dpr = min 2 (orOne ratio) ∧
    (resize rectW rectH ratio s).dpr ≤ 2 ∧
    (resize rectW rectH 0 s).dpr = 1 := by
  refine ⟨?_, ?_, le_max_left _ _, le_max_left _ _, rfl, min_le_left _ _, ?_⟩
  · show ((max 1 ⌊rectW * min 2 (orOne ratio)⌋.toNat : ℕ) : ℤ) = _
    rw [Nat.cast_max, Int.toNat_eq_max]
    simp only [Nat.cast_one]
    omega
  · show ((max 1 ⌊rectH * min 2 (orOne ratio)⌋.toNat : ℕ) : ℤ) = _
    rw [Nat.cast_max, Int.toNat_eq_max]
    simp only [Nat.cast_one]
    omega
  · show min 2 (orOne (0 : K)) = 1
    simp [orOne]

end BufferClaim
end ParticleField

namespace ParticleField
section LayerClaim
variable {K : Type} [LinearOrderedField K] [FloorRing K]

theorem drawStreak_log (env : MathEnv K) (intensity w h : K) (s : State K) :
    ∃ streak : List (DrawOp K),
      (drawStreak env intensity w h s).calls = s.calls ++ streak ∧ streak.length ≤ 1 ∧
      ∀ c ∈ streak, ∃ x y x2 y2, c = DrawOp.stroke s.gco x y x2 y2 := by
  unfold drawStreak
  split_ifs
  · exact ⟨[_], rfl, le_refl _, fun c hc => ⟨_, _, _, _, List.mem_singleton.mp hc⟩⟩
  · exact ⟨[], (List.append_nil _).symm, Nat.zero_le _, fun c hc => absurd hc (List.not_mem_nil c)⟩

theorem drawParticles_log (env : MathEnv K) (intensity w h phase : K) (s : State K) :
    ∃ streak : List (DrawOp K),
      (drawParticles env intensity w h phase s).calls =
        (s.calls ++ (s.particles.map (moveParticle env intensity s.cursor phase)).map
          (fun p => DrawOp.fillArc Composite.lighter (p.x * w) (p.y * h) (p.r * s.dpr * 10))) ++
          streak ∧
      streak.length ≤ 1 ∧
      ∀ c ∈ streak, ∃ x y x2 y2, c = DrawOp.stroke Composite.lighter x y x2 y2 :=
  drawStreak_log env intensity w h _

/-- C24. Layering order: a frame callback that renders appends to the draw log,
in this order, two source-over fills of the whole buffer (background and
trail), the three ribbons, the cursor spotlight, one glow blob per particle and
at most one streak; everything after the two source-over fills is drawn with
the additive operation `lighter`, so every source-over fill of the frame
precedes every additive draw of the frame. -/
theorem layering_order (env : MathEnv K) (intensity now : K) (s : State K)
    (hv : s.hidden = false) (hd : ¬ now - s.last < frameMs)
    (hw : s.width ≠ 0) (hh : s.height ≠ 0) :
    ∃ lights streak : List (DrawOp K),
      (loop env intensity now s).calls = s.calls ++
        ([DrawOp.fillRect Composite.sourceOver 0 0 (s.width : K) (s.height : K),
          DrawOp.fillRect Composite.sourceOver 0 0 (s.width : K) (s.height : K)] ++ lights) ∧
      lights =
        [DrawOp.fillBand Composite.lighter 0 (s.width : K) (s.height : K) (s.t + 0.008),
         DrawOp.fillBand Composite.lighter 1 (s.width : K) (s.height : K) (s.t + 0.008),
         DrawOp.fillBand Composite.lighter 2 (s.width : K) (s.height : K) (s.t + 0.008)] ++
        [DrawOp.fillRect Composite.lighter 0 0 (s.width : K) (s.height : K)] ++
        (s.particles.map (moveParticle env intensity s.cursor (s.t + 0.008))).map
          (fun p => DrawOp.fillArc Composite.lighter (p.x * (s.width : K)) (p.y * (s.height : K))
            (p.r * s.dpr * 10)) ++
        streak ∧
      streak.length ≤ 1 ∧
      (∀ c ∈ streak, ∃ x y x2 y2, c = DrawOp.stroke Composite.lighter x y x2 y2) ∧
      ∀ c ∈ lights, c.composite = some Composite.lighter := by
  rcases loop_cases env intensity now s with ⟨h1, _⟩ | ⟨_, hz, _⟩ | ⟨_, _, h⟩
  · rcases h1 with h1 | h1
    · rw [hv] at h1; exact absurd h1 (by decide)
    · exact absurd h1 hd
  · rcases hz with hz | hz
    · exact absurd hz hw
    · exact absurd hz hh
  · obtain ⟨streak, hs, hl, hc⟩ := drawParticles_log env intensity (s.width : K) (s.height : K)
      (s.t + 0.008) (drawAuroraBand (s.width : K) (s.height : K) (s.t + 0.008)
        { requestLoop s with
          last := now
          t := s.t + 0.008
          gco := Composite.sourceOver
          calls := s.calls ++
            [DrawOp.fillRect Composite.sourceOver 0 0 (s.width : K) (s.height : K)] })
    refine ⟨_, streak, ?_, rfl, hl, hc, ?_⟩
    · rw [h, hs]
      simp [drawAuroraBand, requestLoop, List.range_succ_eq_map, List.append_assoc]
    · intro c hm
      simp only [List.mem_append, List.mem_cons, List.mem_singleton, List.mem_map,
        List.not_mem_nil, or_false] at hm
      rcases hm with (((h0 | h0 | h0) | h0) | ⟨p, _, h0⟩) | h0
      · rw [h0]; rfl
      · rw [h0]; rfl
      · rw [h0]; rfl
      · rw [h0]; rfl
      · rw [← h0]; rfl
      · obtain ⟨x, y, x2, y2, hx⟩ := hc c h0
        rw [hx]; rfl

end LayerClaim

/-- Witness of C24 for the sample state and a frame at `40` ms: the log starts
with the two source-over fills and the first ribbon. -/
theorem layering_order_witness :
    demoState.hidden = false ∧ ¬ (40 : ℚ) - demoState.last < frameMs ∧
    ∃ lights streak : List (DrawOp ℚ),
      (loop demoEnv 1 40 demoState).calls = demoState.calls ++
        ([DrawOp.fillRect Composite.sourceOver 0 0 (demoState.width : ℚ) (demoState.height : ℚ),
          DrawOp.fillRect Composite.sourceOver 0 0 (demoState.width : ℚ) (demoState.height : ℚ)] ++
            lights) ∧
      streak.length ≤ 1 ∧
      ∀ c ∈ lights, c.composite = some Composite.lighter := by
  have hd : ¬ (40 : ℚ) - demoState.last < frameMs := by
    simp only [frameMs, FPS, demoState]; norm_num
  obtain ⟨lights, streak, h1, _, h2, _, h3⟩ :=
    layering_order demoEnv 1 40 demoState rfl hd (by decide) (by decide)
  exact ⟨rfl, hd, lights, streak, h1, h2, h3⟩

end ParticleField

end Aurora

/-! ## The particle field: ribbon geometry, claims C22 and C23 -/

namespace Aurora

section LoopLemmas
variable {K : Type} [LinearOrderedField K] [FloorRing K]

theorem forUpTo_of_gt {V : Type} (body : K → V) (stop step : K) (fuel : ℕ) (x : K)
    (h : stop < x) : forUpTo body stop step fuel x = some [] := by
  cases fuel <;> simp [forUpTo, not_le.mpr h]

/-- The loop ends within `⌊(stop - x) / step⌋ + 1` passes and emits that many values. -/
theorem forUpTo_count {V : Type} (body : K → V) (stop step : K) (hs : 0 < step) :
    ∀ (fuel : ℕ) (x : K), x ≤ stop → ⌊(stop - x) / step⌋.toNat + 1 ≤ fuel →
      ∃ l, forUpTo body stop step fuel x = some l ∧
        l.length = ⌊(stop - x) / step⌋.toNat + 1 := by
  intro fuel
  induction fuel with
  | zero => intro x _ hf; omega
  | succ fuel ih =>
    intro x hx hf
    have hq : (stop - (x + step)) / step = (stop - x) / step - 1 := by
      field_simp
      ring
    by_cases hn : x + step ≤ stop
    · have h1 : (1 : K) ≤ (stop - x) / step := by
        rw [le_div_iff₀ hs]
        linarith
      have h1z : (1 : ℤ) ≤ ⌊(stop - x) / step⌋ := Int.le_floor.mpr (by exact_mod_cast h1)
      have hfl : ⌊(stop - (x + step)) / step⌋ = ⌊(stop - x) / step⌋ - 1 := by
        rw [hq, Int.floor_sub_one]
      obtain ⟨l, hl, hlen⟩ := ih (x + step) hn (by rw [hfl]; omega)
      refine ⟨body x :: l, ?_, ?_⟩
      · simp [forUpTo, hx, hl]
      · rw [List.length_cons, hlen, hfl]
        omega
    · have h0 : ⌊(stop - x) / step⌋ = 0 := by
        rw [Int.floor_eq_zero_iff]
        constructor
        · exact div_nonneg (by linarith) hs.le
        · rw [div_lt_one hs]
          linarith
      refine ⟨[body x], ?_, ?_⟩
      · simp [forUpTo, hx, forUpTo_of_gt body stop step fuel (x + step) (not_le.mp hn)]
      · rw [h0]
        rfl

end LoopLemmas

namespace ParticleField
section BandClaims
variable {K : Type} [LinearOrderedField K] [FloorRing K]

/-- C22. Band geometry: for a buffer of width `w > 0` and height `h > 0` and a
pixel ratio `0 < dpr ≤ 2`, `drawAuroraBand` fills exactly three ribbons
(between the fade and the spotlight); for each ribbon the sampling loop ends
within `⌊1.16 w / (18 dpr)⌋ + 1` passes and emits that many vertices, at least
one, and the path is the start vertex, these samples and the two closing
vertices; the two divisors met on the way, `w` and `2 (220 dpr)²`, are not
zero. -/
theorem band_geometry (env : MathEnv K) (w h phase : K) (s : State K)
    (hw : 0 < w) (_hh : 0 < h) (hd : 0 < s.dpr) (_hd2 : s.dpr ≤ 2) :
    (drawAuroraBand w h phase s).calls = s.calls ++
      [DrawOp.fillRect Composite.sourceOver 0 0 w h,
       DrawOp.fillBand Composite.lighter 0 w h phase,
       DrawOp.fillBand Composite.lighter 1 w h phase,
       DrawOp.fillBand Composite.lighter 2 w h phase,
       DrawOp.fillRect Composite.lighter 0 0 w h] ∧
    (∀ (i fuel : ℕ), ⌊1.16 * w / (18 * s.dpr)⌋.toNat + 1 ≤ fuel →
      ∃ l, bandSamples env w h phase i s fuel = some l ∧
        (l.length : ℤ) = ⌊1.16 * w / (18 * s.dpr)⌋ + 1 ∧ 1 ≤ l.length ∧
        bandPath env w h phase i s fuel = some ([(-w * 0.08, h * baseY i)] ++ l ++
          [(w * 1.08, h * (baseY i + 0.28)), (-w * 0.08, h * (baseY i + 0.28))])) ∧
    w ≠ 0 ∧ 2 * (220 * s.dpr) ^ 2 ≠ 0 := by
  refine ⟨?_, ?_, hw.ne', ?_⟩
  · simp [drawAuroraBand, List.range_succ_eq_map]
  · intro i fuel hf
    have hstep : (0 : K) < 18 * s.dpr := by linarith
    have hq : (w * 1.08 - -w * 0.08) / (18 * s.dpr) = 1.16 * w / (18 * s.dpr) := by
      congr 1
      ring
    have hle : -w * 0.08 ≤ w * 1.08 := by nlinarith
    have h0 : (0 : ℤ) ≤ ⌊1.16 * w / (18 * s.dpr)⌋ :=
      Int.floor_nonneg.mpr (div_nonneg (by linarith) hstep.le)
    obtain ⟨l, hl, hlen⟩ := forUpTo_count (fun x => (x, bandY env w h phase i x s)) (w * 1.08)
      (18 * s.dpr) hstep fuel (-w * 0.08) hle (by rw [hq]; exact hf)
    rw [hq] at hlen
    have hb : bandSamples env w h phase i s fuel = some l := hl
    refine ⟨l, hb, ?_, by omega, ?_⟩
    · rw [hlen]
      push_cast
      rw [Int.toNat_of_nonneg h0]
    · unfold bandPath
      rw [hb]
      rfl
  · have : (0 : K) < 220 * s.dpr := by linarith
    positivity

theorem amp_nonneg (i : ℕ) (s : State K) (hd : 0 ≤ s.dpr) : 0 ≤ amp i s := by
  unfold amp lerp
  have hi : (0 : K) ≤ (i : K) := Nat.cast_nonneg i
  apply mul_nonneg _ hd
  nlinarith

theorem gaussian_mem (env : MathEnv K) (w h : K) (i : ℕ) (x : K) (s : State K)
    (hexp : ∀ t, t ≤ 0 → 0 < env.exp t ∧ env.exp t ≤ 1) :
    0 < gaussian env w h i x s ∧ gaussian env w h i x s ≤ 1 := by
  unfold gaussian
  apply hexp
  rw [neg_nonpos]
  positivity

/-- C23. Band offset: when `Math.sin` takes values in `[-1, 1]` and `Math.exp`
values in `(0, 1]` on arguments `≤ 0`, and the pixel ratio is positive, the
offset of a sample from the baseline `h * baseY` is
`amp (wave + 0.35 wave2) + G c vy 900 dpr`, with `G` the Gaussian factor,
`0 < G ≤ 1`, and `c = 1.25` when the pointer is pressed, `0.65` otherwise; so
`|offset| ≤ 1.35 amp + c |vy| 900 dpr`; the warp term is `0` when `vy = 0`; and
with the same cursor position and velocity the warp term when pressed is
`1.25 / 0.65` times the warp term when not pressed. -/
theorem band_offset (env : MathEnv K) (w h phase : K) (i : ℕ) (x : K) (s : State K)
    (hsin : ∀ t, |env.sin t| ≤ 1) (hexp : ∀ t, t ≤ 0 → 0 < env.exp t ∧ env.exp t ≤ 1)
    (hd : 0 < s.dpr) :
    bandY env w h phase i x s - h * baseY i =
      amp i s * (wave env w phase i x + 0.35 * wave2 env w phase i x) +
        gaussian env w h i x s * (if s.cursor.down then 1.25 else 0.65) *
          s.cursor.vy * 900 * s.dpr ∧
    0 < gaussian env w h i x s ∧ gaussian env w h i x s ≤ 1 ∧
    |bandY env w h phase i x s - h * baseY i| ≤
      1.35 * amp i s + (if s.cursor.down then 1.25 else 0.65) * |s.cursor.vy| * 900 * s.dpr ∧
    (s.cursor.vy = 0 → cursorWarp env w h i x s * (s.cursor.vy * 900 * s.dpr) = 0) ∧
    cursorWarp env w h i x { s with cursor := { s.cursor with down := true } } *
        (s.cursor.vy * 900 * s.dpr) =
      1.25 / 0.65 * (cursorWarp env w h i x { s with cursor := { s.cursor with down := false } } *
        (s.cursor.vy * 900 * s.dpr)) := by
  have hg := gaussian_mem env w h i x s hexp
  have ha := amp_nonneg i s hd.le
  have heq : bandY env w h phase i x s - h * baseY i =
      amp i s * (wave env w phase i x + 0.35 * wave2 env w phase i x) +
        gaussian env w h i x s * (if s.cursor.down then 1.25 else 0.65) *
          s.cursor.vy * 900 * s.dpr := by
    unfold bandY cursorWarp
    ring
  refine ⟨heq, hg.1, hg.2, ?_, ?_, ?_⟩
  · rw [heq]
    have hw1 : |wave env w phase i x| ≤ 1 := hsin _
    have hw2 : |wave2 env w phase i x| ≤ 1 := hsin _
    have hc : (0 : K) < (if s.cursor.down then 1.25 else 0.65) := by
      split_ifs <;> norm_num
    generalize (if s.cursor.down then (1.25 : K) else 0.65) = c at hc ⊢
    have h1 : |amp i s * (wave env w phase i x + 0.35 * wave2 env w phase i x)| ≤
        1.35 * amp i s := by
      rw [abs_mul, abs_of_nonneg ha]
      have : |wave env w phase i x + 0.35 * wave2 env w phase i x| ≤ 1.35 := by
        refine (abs_add _ _).trans ?_
        rw [abs_mul, abs_of_nonneg (by norm_num : (0 : K) ≤ 0.35)]
        linarith
      nlinarith
    have h2 : |gaussian env w h i x s * c * s.cursor.vy * 900 * s.dpr| ≤
        c * |s.cursor.vy| * 900 * s.dpr := by
      rw [abs_mul, abs_mul, abs_mul, abs_mul, abs_of_pos hg.1, abs_of_pos hc, abs_of_pos hd,
        abs_of_nonneg (by norm_num : (0 : K) ≤ 900)]
      have hv : 0 ≤ |s.cursor.vy| := abs_nonneg _
      have : gaussian env w h i x s * (c * |s.cursor.vy| * 900 * s.dpr) ≤
          1 * (c * |s.cursor.vy| * 900 * s.dpr) :=
        mul_le_mul_of_nonneg_right hg.2 (by positivity)
      linarith
    exact (abs_add _ _).trans (add_le_add h1 h2)
  · intro hv
    rw [hv]
    ring
  · simp only [cursorWarp, gaussian, if_true, Bool.false_eq_true, if_false]
    field_simp
    ring

end BandClaims

/-- Witness of C22 for the sample state: `640 × 360`, pixel ratio `1`, where
each ribbon has `42` samples. -/
theorem band_geometry_witness :
    (0 : ℚ) < 640 ∧ (0 : ℚ) < 360 ∧ 0 < demoState.dpr ∧ demoState.dpr ≤ 2 ∧
    ∃ l, bandSamples demoEnv 640 360 0 0 demoState 42 = some l ∧ (l.length : ℤ) = 42 := by
  have hd : (0 : ℚ) < demoState.dpr := by simp [demoState]
  have hd2 : demoState.dpr ≤ 2 := by simp [demoState]
  have hn : ⌊(1.16 : ℚ) * 640 / (18 * demoState.dpr)⌋ = 41 := by
    simp only [demoState]
    norm_num [Int.floor_eq_iff]
  obtain ⟨l, hl, hlen, _⟩ :=
    (band_geometry demoEnv 640 360 0 demoState (by norm_num) (by norm_num) hd hd2).2.1 0 42
      (by rw [hn]; decide)
  rw [hn] at hlen
  exact ⟨by norm_num, by norm_num, hd, hd2, l, hl, hlen⟩

/-- Witness of C23 for the sample environment and the sample state. -/
theorem band_offset_witness :
    (∀ t, |demoEnv.sin t| ≤ 1) ∧ (∀ t, t ≤ 0 → 0 < demoEnv.exp t ∧ demoEnv.exp t ≤ 1) ∧
    0 < demoState.dpr ∧
    |bandY demoEnv 640 360 0 1 100 demoState - 360 * baseY 1| ≤
      1.35 * amp 1 demoState +
        (if demoState.cursor.down then 1.25 else 0.65) * |demoState.cursor.vy| * 900 *
          demoState.dpr :=
  have hsin : ∀ t, |demoEnv.sin t| ≤ 1 := fun _ => by simp [demoEnv]
  have hexp : ∀ t, t ≤ 0 → 0 < demoEnv.exp t ∧ demoEnv.exp t ≤ 1 := fun _ _ => by simp [demoEnv]
  have hd : (0 : ℚ) < demoState.dpr := by simp [demoState]
  ⟨hsin, hexp, hd, (band_offset demoEnv 640 360 0 1 100 demoState hsin hexp hd).2.2.2.1⟩

end ParticleField

/-- The real sine and exponential have the two properties the band offset
bound asks of `Math.sin` and `Math.exp`. -/
theorem real_sin_exp_bounds :
    (∀ t : ℝ, |Real.sin t| ≤ 1) ∧ ∀ t : ℝ, t ≤ 0 → 0 < Real.exp t ∧ Real.exp t ≤ 1 :=
  ⟨Real.abs_sin_le_one, fun t ht => ⟨Real.exp_pos t, Real.exp_le_one_iff.mpr ht⟩⟩

end Aurora

/-! ## The horizontal journey: claim C29 -/

namespace Aurora

namespace HorizontalJourney

section WheelClaim
variable {K : Type} [LinearOrderedField K] [FloorRing K]

theorem onWheel_of_vertical (settle : K → K → K) (e : WheelEvent K) (el : Scroller K)
    (h : |e.deltaX| ≤ |e.deltaY|) :
    onWheel settle e el =
      ({ e with defaultPrevented := true },
        setScrollLeft settle (el.scrollLeft + 1.15 * e.deltaY) el) := by
  simp only [onWheel, not_lt.mpr h, if_false]
  rw [mul_comm e.deltaY]

/-- Whatever the browser answers, the offset after an assignment lies in the
scroll range. -/
theorem setScrollLeft_mem (settle : K → K → K) (v : K) (el : Scroller K) :
    0 ≤ (setScrollLeft settle v el).scrollLeft ∧
    (setScrollLeft settle v el).scrollLeft ≤ max 0 el.maxScroll :=
  ⟨le_max_left _ _, max_le_max (le_refl _) (min_le_left _ _)⟩

/-- Whatever the browser answers, a wheel event whose target offset lies left
of the scroll range does not move `scrollLeft` to that target. -/
theorem onWheel_target_below_range (settle : K → K → K) (e : WheelEvent K) (el : Scroller K)
    (h : |e.deltaX| ≤ |e.deltaY|) (ht : el.scrollLeft + 1.15 * e.deltaY < 0) :
    (onWheel settle e el).2.scrollLeft ≠ el.scrollLeft + 1.15 * e.deltaY := by
  rw [onWheel_of_vertical settle e el h]
  have := (setScrollLeft_mem settle (el.scrollLeft + 1.15 * e.deltaY) el).1
  intro hc
  rw [hc] at this
  exact absurd ht (not_lt.mpr this)

/-- C29 (amended). Wheel conversion: if `|deltaY| ≥ |deltaX|` the handler
prevents the default action and assigns `scrollLeft + 1.15 * deltaY` to
`scrollLeft`, once; whatever smooth scrolling and snapping make of the
assignment, the element keeps `scrollLeft` within its scroll range
`[0, maxScroll]`. If `|deltaY| < |deltaX|` the handler leaves `scrollLeft`
unchanged, assigns nothing and does not prevent the default action. -/
theorem wheel_conversion (settle : K → K → K) (e : WheelEvent K) (el : Scroller K) :
    (|e.deltaX| ≤ |e.deltaY| →
      (onWheel settle e el).1.defaultPrevented = true ∧
      (onWheel settle e el).2.assigned = el.assigned ++ [el.scrollLeft + 1.15 * e.deltaY] ∧
      (onWheel settle e el).2.maxScroll = el.maxScroll ∧
      0 ≤ (onWheel settle e el).2.scrollLeft ∧
      (onWheel settle e el).2.scrollLeft ≤ max 0 el.maxScroll) ∧
    (|e.deltaY| < |e.deltaX| → onWheel settle e el = (e, el)) := by
  constructor
  · intro h
    rw [onWheel_of_vertical settle e el h]
    exact ⟨rfl, rfl, rfl, setScrollLeft_mem settle _ el⟩
  · intro h
    simp [onWheel, h]

end WheelClaim

/-- Witness of C29 (amended): one notch down from the left end is prevented
and assigns `115`; a sideways swipe is left to the browser. -/
theorem wheel_conversion_witness :
    (|demoWheelDown.deltaX| ≤ |demoWheelDown.deltaY| ∧
      (onWheel demoSettle demoWheelDown demoScroller).1.defaultPrevented = true ∧
      (onWheel demoSettle demoWheelDown demoScroller).2.assigned = [115]) ∧
    (|demoWheelSide.deltaY| < |demoWheelSide.deltaX| ∧
      onWheel demoSettle demoWheelSide demoScroller = (demoWheelSide, demoScroller)) := by
  have h1 : |demoWheelDown.deltaX| ≤ |demoWheelDown.deltaY| := by
    simp [demoWheelDown]
  have h2 : |demoWheelSide.deltaY| < |demoWheelSide.deltaX| := by
    simp only [demoWheelSide]; norm_num [abs_of_pos]
  have h3 := ((wheel_conversion demoSettle demoWheelDown demoScroller).1 h1).2.1
  have h4 : demoScroller.assigned ++ [demoScroller.scrollLeft + 1.15 * demoWheelDown.deltaY] =
      [115] := by
    simp only [demoScroller, demoWheelDown]; norm_num
  exact ⟨⟨h1, ((wheel_conversion demoSettle demoWheelDown demoScroller).1 h1).1, h3.trans h4⟩,
    ⟨h2, (wheel_conversion demoSettle demoWheelSide demoScroller).2 h2⟩⟩

/-- C29 as stated fails: one notch up at the left end meets the condition
`|deltaY| ≥ |deltaX|` and the default action is prevented, yet `scrollLeft`
stays `0` instead of changing by `1.15 * (-100) = -115`, whether the browser
snaps or not. -/
theorem wheel_up_at_left_end :
    |demoWheelUp.deltaX| ≤ |demoWheelUp.deltaY| ∧
    (onWheel demoSettle demoWheelUp demoScroller).1.defaultPrevented = true ∧
    demoScroller.scrollLeft + 1.15 * demoWheelUp.deltaY = -115 ∧
    (onWheel demoSettle demoWheelUp demoScroller).2.scrollLeft = 0 ∧
    (onWheel demoJump demoWheelUp demoScroller).2.scrollLeft = 0 ∧
    (onWheel demoSettle demoWheelUp demoScroller).2.scrollLeft ≠
      demoScroller.scrollLeft + 1.15 * demoWheelUp.deltaY ∧
    (onWheel demoJump demoWheelUp demoScroller).2.scrollLeft ≠
      demoScroller.scrollLeft + 1.15 * demoWheelUp.deltaY := by
  have h1 : |demoWheelUp.deltaX| ≤ |demoWheelUp.deltaY| := by
    simp [demoWheelUp]
  have hv : demoScroller.scrollLeft + 1.15 * demoWheelUp.deltaY = -115 := by
    simp only [demoWheelUp, demoScroller]; norm_num
  have hs : (onWheel demoSettle demoWheelUp demoScroller).2.scrollLeft = 0 := by
    rw [onWheel_of_vertical demoSettle _ _ h1, hv]
    simp only [setScrollLeft, demoSettle, demoScroller]
    norm_num
  have hj : (onWheel demoJump demoWheelUp demoScroller).2.scrollLeft = 0 := by
    rw [onWheel_of_vertical demoJump _ _ h1, hv]
    simp only [setScrollLeft, demoJump, demoScroller]
    norm_num
  refine ⟨h1, ?_, hv, hs, hj, ?_, ?_⟩
  · rw [onWheel_of_vertical demoSettle _ _ h1]
  · rw [hs, hv]; norm_num
  · rw [hj, hv]; norm_num

end HorizontalJourney

end Aurora
